import Mathlib

/-!
# Marketplace: post publication and retrieval

A shallow embedding of the Go sources of the marketplace repository:

* `internal/models/errors.go` : the sentinel errors and `UniqueConstraintError`;
* `internal/repositories/db/post/repository.go` : `buildFilteredQueryTail`;
* `internal/utils/validator/post.go` : `ValidatePost`;
* `internal/entities/post.go`, `internal/utils/mapper/post.go` : the rows of the
  filtered query, `PostsByEntities`, `PostsToJSON` and `JSONToPosts`;
* `internal/services/post/service.go` : `PostService.AddPost` and
  `PostService.FilteredPosts`;
* `internal/repositories/db/post/repository.go` : `repository.FilteredPosts`;
* `internal/repositories/file/repo.go` : `SaveFile`, `LoadFile` and `DeleteFile`;
* `internal/utils/validator/auth.go` : `IsValidLogin` and `IsValidPassword`;
* `internal/http/handlers/posts/post.go`, `internal/utils/http_errors/errors.go` :
  the error branch of the handler `Add` and `WriteJSONError`.

Go strings are modelled by Lean `String` (well-formed UTF-8 text), Go `len` on
a string by `String.utf8ByteSize`, Go `int` by `Int` and Go `uint` by `Nat`
(no arithmetic on them is performed by the code modelled here, so no wrap-around
can occur).
-/

namespace Marketplace

/-! ## Errors (`internal/models/errors.go`) -/

/-- The package-level error values declared with `errors.New` in `models/errors.go`,
and the two library values the repositories compare with: `sql.ErrNoRows` of
`database/sql` and `os.ErrNotExist`. -/
inductive Sentinel where
  | ErrUNIQUEConstraintFailed
  | ErrUserNotFound
  | ErrUserExists
  | ErrPostNotFound
  | ErrPostExists
  | ErrDocumentNotFound
  | ErrSessionNotFound
  | ErrInvalidParams
  | ErrInvalidCredentials
  | ErrInvalidFilter
  | ErrInvalidHeader
  | ErrInvalidText
  | ErrInvalidPrice
  | ErrMethodNotAllowed
  | ErrInternal
  | sqlErrNoRows
  | osErrNotExist
  deriving DecidableEq

/-- The text each sentinel was created with. -/
def Sentinel.message : Sentinel → String
  | .ErrUNIQUEConstraintFailed => "unique constraint failed"
  | .ErrUserNotFound => "user not found"
  | .ErrUserExists => "user already exists"
  | .ErrPostNotFound => "post not found"
  | .ErrPostExists => "post already exists"
  | .ErrDocumentNotFound => "document not found"
  | .ErrSessionNotFound => "sessions not found"
  | .ErrInvalidParams => "invalid params"
  | .ErrInvalidCredentials => "invalid credentials"
  | .ErrInvalidFilter => "invalid filter received"
  | .ErrInvalidHeader => "invalid header"
  | .ErrInvalidText => "invalid text"
  | .ErrInvalidPrice => "invalid price"
  | .ErrMethodNotAllowed => "method not allowed"
  | .ErrInternal => "internal server error"
  | .sqlErrNoRows => "sql: no rows in result set"
  | .osErrNotExist => "file does not exist"

/-- A non-nil Go `error` value, as far as the code distinguishes them:
a sentinel of `models`, an error created elsewhere (a driver or file-system
error, `errors.New` in a test), an error built by `fmt.Errorf` with one `%w`
verb (`msg` is the whole formatted text), or a `*models.UniqueConstraintError`. -/
inductive GoError where
  | sentinel (s : Sentinel)
  | foreign (msg : String)
  | wrapped (msg : String) (inner : GoError)
  | uniqueConstraint (constraint : String) (inner : GoError)
  deriving DecidableEq

/-- The method `Error()`; for `UniqueConstraintError` it is
`fmt.Sprintf("%v: %s", e.Err, e.Constraint)`. -/
def GoError.Error : GoError → String
  | .sentinel s => s.message
  | .foreign msg => msg
  | .wrapped msg _ => msg
  | .uniqueConstraint c inner => inner.Error ++ ": " ++ c

/-- The function `errors.Is(err, target)` for a sentinel target: walk the
`Unwrap` chain and compare each link with the target. -/
def errorsIs : GoError → Sentinel → Bool
  | .sentinel s, t => decide (s = t)
  | .foreign _, _ => false
  | .wrapped _ inner, t => errorsIs inner t
  | .uniqueConstraint _ inner, t => errorsIs inner t

/-- The function `errors.As(err, &uce)` with `uce : *models.UniqueConstraintError`:
the constraint of the first `UniqueConstraintError` on the `Unwrap` chain. -/
def errorsAsUniqueConstraint : GoError → Option String
  | .sentinel _ => none
  | .foreign _ => none
  | .wrapped _ inner => errorsAsUniqueConstraint inner
  | .uniqueConstraint c _ => some c

/-! ## The query tail builder (`repositories/db/post/repository.go`) -/

/-- The struct `models.PostsFilter`. -/
structure PostsFilter where
  MinPrice : Nat
  MaxPrice : Nat
  SortBy : String
  SortOrder : String
  deriving DecidableEq

/-- An element of the `[]any` parameter slice: a `uint` (the price bounds) or
an `int` (limit and offset). -/
inductive Arg where
  | uint (n : Nat)
  | int (i : Int)
  deriving DecidableEq

/-- The three results of `buildFilteredQueryTail`; `args = none` is the nil slice. -/
structure QueryTail where
  fragment : String
  args : Option (List Arg)
  err : Option GoError

/-- The local variables `where`, `args`, `argIdx` and `sb` of `buildFilteredQueryTail`. -/
structure TailVars where
  conds : List String
  args : List Arg
  argIdx : Nat
  sb : String

/-- The two `switch` statements on `filter.SortBy` and `filter.SortOrder`: the
text written to the builder, or the error returned. -/
def sortSwitch (filter : PostsFilter) : Except GoError String :=
  if filter.SortBy = "price" then
    if filter.SortOrder = "asc" then
      .ok "ORDER BY price ASC, created_at DESC, p.id ASC\n"
    else if filter.SortOrder = "desc" then
      .ok "ORDER BY price DESC, created_at DESC, p.id ASC\n"
    else
      .error (.wrapped ("invalid sort order: " ++ filter.SortOrder ++ ": "
        ++ Sentinel.ErrInvalidFilter.message) (.sentinel .ErrInvalidFilter))
  else if filter.SortBy = "created_at" then
    if filter.SortOrder = "asc" then
      .ok "ORDER BY created_at ASC, p.id ASC\n"
    else if filter.SortOrder = "desc" then
      .ok "ORDER BY created_at DESC, p.id ASC\n"
    else
      .error (.wrapped ("invalid sort order: " ++ filter.SortOrder ++ ": "
        ++ Sentinel.ErrInvalidFilter.message) (.sentinel .ErrInvalidFilter))
  else
    .ok "ORDER BY created_at DESC, p.id ASC\n"

/-- The statements after the `if filter != nil` block: write the pagination
clause, append `limit` and `offset`, return. -/
def finishTail (limit offset : Int) (v : TailVars) : QueryTail :=
  { fragment := v.sb ++ ("LIMIT $" ++ toString v.argIdx ++ " OFFSET $" ++ toString (v.argIdx + 1))
    args := some (v.args ++ [Arg.int limit, Arg.int offset])
    err := none }

/-- The function `buildFilteredQueryTail(limit, offset, filter)`; `filter = none`
is the nil pointer. -/
def buildFilteredQueryTail (limit offset : Int) (filter : Option PostsFilter) : QueryTail :=
  let v0 : TailVars := { conds := [], args := [], argIdx := 1, sb := "" }
  match filter with
  | none => finishTail limit offset v0
  | some f =>
    let v1 : TailVars :=
      if f.MinPrice > 0 then
        { v0 with
          conds := v0.conds ++ ["price >= $" ++ toString v0.argIdx]
          args := v0.args ++ [Arg.uint f.MinPrice]
          argIdx := v0.argIdx + 1 }
      else v0
    let v2 : TailVars :=
      if f.MaxPrice > 0 then
        { v1 with
          conds := v1.conds ++ ["price <= $" ++ toString v1.argIdx]
          args := v1.args ++ [Arg.uint f.MaxPrice]
          argIdx := v1.argIdx + 1 }
      else v1
    let v3 : TailVars :=
      if v2.conds.length > 0 then
        { v2 with sb := v2.sb ++ ("WHERE " ++ String.intercalate " AND " v2.conds ++ "\n") }
      else v2
    match sortSwitch f with
    | .error e => { fragment := "", args := none, err := some e }
    | .ok clause => finishTail limit offset { v3 with sb := v3.sb ++ clause }


/-! ## Posts (`internal/models/post.go`, `internal/models/user.go`) -/

/-- The struct `models.Document`. -/
structure Document where
  ID : String
  PostID : String
  Name : String
  Mime : String
  Path : String
  deriving DecidableEq

/-- The struct `models.PostWithDocument`. `Price` is an `int64`, `CreatedAt` a
`time.Time` (an instant, here a number; 0 is the zero time). The field
`Document` is a pointer: `none` is nil. -/
structure PostWithDocument where
  ID : String
  OwnerID : String
  OwnerLogin : String
  Header : String
  Text : String
  PathToImage : String
  Price : Int
  CreatedAt : Int
  RequesterIsOwner : Bool
  Document : Option Document
  deriving DecidableEq

/-- The struct `models.User`; `PassHash` is a byte slice. -/
structure User where
  ID : String
  Login : String
  PassHash : List Nat
  deriving DecidableEq

/-- Go's built-in `len` on a string: its number of bytes. -/
def len (s : String) : Nat := s.utf8ByteSize

/-- A slice `[]*models.PostWithDocument`: `none` is the nil slice, an element
`none` a nil pointer. -/
abbrev Posts := Option (List (Option PostWithDocument))

/-! ## Rows and their mapping (`internal/entities/post.go`, `internal/utils/mapper/post.go`) -/

/-- The struct `entities.PostWithDocument`: one row of the filtered query. -/
structure entities.PostWithDocument where
  ID : String
  OwnerID : String
  OwnerLogin : String
  Header : String
  Text : String
  Price : Int
  CreatedAt : Int
  DocID : String
  DocName : String
  DocMime : String
  DocPath : String
  deriving DecidableEq

/-- The function `mapper.postByEntity`, for a non-nil row; the field
`RequesterIsOwner`, which the composite literal does not name, has its zero value. -/
def postByEntity (rawPost : entities.PostWithDocument) : PostWithDocument :=
  { ID := rawPost.ID
    OwnerID := rawPost.OwnerID
    OwnerLogin := rawPost.OwnerLogin
    Header := rawPost.Header
    Text := rawPost.Text
    PathToImage := rawPost.DocPath
    Price := rawPost.Price
    CreatedAt := rawPost.CreatedAt
    RequesterIsOwner := false
    Document := some
      { ID := rawPost.DocID
        PostID := rawPost.ID
        Name := rawPost.DocName
        Mime := rawPost.DocMime
        Path := rawPost.DocPath } }

/-- The function `mapper.PostsByEntities`, for a slice of non-nil rows: a non-nil
slice of the same length. -/
def PostsByEntities (rawPosts : List entities.PostWithDocument) : Posts :=
  some (rawPosts.map fun rawPost => some (postByEntity rawPost))

/-! ## The JSON form of posts (`internal/models/post.go`, `internal/utils/mapper/post.go`) -/

/-- What `encoding/json` sees of a `models.PostWithDocument`: the fields whose
tag gives them a JSON name, under that name. `OwnerID`, `CreatedAt` and
`Document` are tagged `json:"-"` and are neither written nor read. -/
structure PostJSON where
  id : String
  owner_login : String
  header : String
  text : String
  image_path : String
  price : Int
  is_owner : Bool
  deriving DecidableEq

/-- A slice of posts as `encoding/json` sees it. -/
abbrev PostsJSON := Option (List (Option PostJSON))

/-- The fields of a post that `json.Marshal` writes. -/
def PostWithDocument.toJSON (post : PostWithDocument) : PostJSON :=
  { id := post.ID
    owner_login := post.OwnerLogin
    header := post.Header
    text := post.Text
    image_path := post.PathToImage
    price := post.Price
    is_owner := post.RequesterIsOwner }

/-- The post that `json.Unmarshal` allocates for a JSON object: the named
fields set, the others left at their zero value. -/
def PostWithDocument.ofJSON (j : PostJSON) : PostWithDocument :=
  { ID := j.id
    OwnerID := ""
    OwnerLogin := j.owner_login
    Header := j.header
    Text := j.text
    PathToImage := j.image_path
    Price := j.price
    CreatedAt := 0
    RequesterIsOwner := j.is_owner
    Document := none }

/-- A slice of posts as `json.Marshal` sees it. -/
def Posts.toJSON (posts : Posts) : PostsJSON :=
  posts.map fun l => l.map fun p => p.map PostWithDocument.toJSON

/-- The slice of posts that `json.Unmarshal` builds. -/
def Posts.ofJSON (j : PostsJSON) : Posts :=
  j.map fun l => l.map fun p => p.map PostWithDocument.ofJSON

/-- The functions `json.Marshal` and `json.Unmarshal` of the Go library
`encoding/json`, at the type `[]*models.PostWithDocument`: the text written for
a slice, with the error (`none` for nil), and what a nil slice variable holds
after a text has been read into it, with the error. The library is not part of
the repository; the model keeps it as a parameter. -/
structure EncodingJSON where
  Marshal : PostsJSON → String × Option GoError
  Unmarshal : String → PostsJSON × Option GoError

/-- The function `mapper.JSONToPosts`. -/
def JSONToPosts (json : EncodingJSON) (s : String) : Posts × Option GoError :=
  if len s = 0 then
    (none, some (.foreign "empty json string"))
  else
    match json.Unmarshal s with
    | (_, some err) => (none, some err)
    | (posts, none) => (Posts.ofJSON posts, none)

/-- The function `mapper.PostsToJSON`. -/
def PostsToJSON (json : EncodingJSON) (posts : Posts) : String × Option GoError :=
  match json.Marshal posts.toJSON with
  | (_, some err) => ("", some err)
  | (res, none) => (res, none)

/-! ## Validation (`internal/utils/validator/post.go`) -/

def MinHeaderLength : Nat := 5
def MaxHeaderLength : Nat := 100
def MinTextLength : Nat := 10
def MaxTextLength : Nat := 2000
def MinPrice : Int := 1
def MaxPrice : Int := 1000000000

/-- Go's `unicode.IsSpace`: tab, line feed, vertical tab, form feed, carriage
return, space, U+0085, U+00A0 and the other code points with the Unicode
White_Space property. -/
def unicodeIsSpace (c : Char) : Bool :=
  let n := c.toNat
  (0x09 ≤ n && n ≤ 0x0D) || n == 0x20 || n == 0x85 || n == 0xA0 || n == 0x1680
    || (0x2000 ≤ n && n ≤ 0x200A) || n == 0x2028 || n == 0x2029 || n == 0x202F
    || n == 0x205F || n == 0x3000

/-- Go's `strings.TrimSpace`: the string with all leading and trailing white
space removed. -/
def TrimSpace (s : String) : String :=
  String.mk ((s.data.dropWhile unicodeIsSpace).reverse.dropWhile unicodeIsSpace).reverse

/-- The function `validator.ValidatePost`; `none` is the nil error. -/
def ValidatePost (post : PostWithDocument) : Option GoError :=
  if len (TrimSpace post.Header) < MinHeaderLength ∨ len post.Header > MaxHeaderLength then
    some (.wrapped (Sentinel.ErrInvalidHeader.message ++ ": header must be between "
      ++ toString MinHeaderLength ++ " and " ++ toString MaxHeaderLength ++ " characters")
      (.sentinel .ErrInvalidHeader))
  else if len (TrimSpace post.Text) < MinTextLength ∨ len post.Text > MaxTextLength then
    some (.wrapped (Sentinel.ErrInvalidText.message ++ ": text must be between "
      ++ toString MinTextLength ++ " and " ++ toString MaxTextLength ++ " characters")
      (.sentinel .ErrInvalidText))
  else if post.Price < MinPrice ∨ post.Price > MaxPrice then
    some (.wrapped (Sentinel.ErrInvalidPrice.message ++ ": price must be between "
      ++ toString MinPrice ++ " and " ++ toString MaxPrice)
      (.sentinel .ErrInvalidPrice))
  else
    none

/-! ## The post service (`internal/services/post/service.go`) -/

/-- The content read from an `io.Reader`. -/
abbrev Reader := List Nat

/-- The collaborators of a `PostService`: `fileStorage` and `postAdder`, as far
as `AddPost` uses them, and `postProvider` (`FilteredPosts`) and `cache` (`Get`,
`Set`), as far as `FilteredPosts` uses them. They are interface values: a call
is modelled by what it returns (`none` is the nil error). `SaveFile` receives
a pointer to the document of the post and may write through it (the file
repository sets `Path`): `SaveFileDoc` is the document it leaves behind the
pointer; a mock leaves it as it was. The relational insert and `DeleteFile` of
the repositories only read what they are given. A test leaves the collaborators
it does not use nil; here they have a default. -/
structure PostService where
  SaveFile : Document → Reader → String × Option GoError
  AddPost : PostWithDocument → Option GoError
  DeleteFile : Document → Option GoError
  SaveFileDoc : Document → Reader → Document := fun doc _ => doc
  FilteredPosts : Int → Int → Option PostsFilter → Posts × Option GoError :=
    fun _ _ _ => (none, none)
  Get : String → String × Option GoError := fun _ => ("", none)
  Set : String → String → Option GoError := fun _ _ => none

/-- What `AddPost` obtains from `uuid.NewV4()` (twice, in this order) and from
`time.Now()`. -/
structure Fresh where
  postID : String
  docID : String
  now : Int

/-- A call made to a collaborator, with what the pointer it was given pointed
to when the call was made. -/
inductive Call where
  | SaveFile (doc : Document)
  | Insert (post : PostWithDocument)
  | DeleteFile (doc : Document)
  deriving DecidableEq

/-- Which collaborator method a call is to. -/
inductive CallKind where
  | SaveFile
  | Insert
  | DeleteFile
  deriving DecidableEq

/-- Forget the argument of a call. -/
def Call.kind : Call → CallKind
  | .SaveFile _ => .SaveFile
  | .Insert _ => .Insert
  | .DeleteFile _ => .DeleteFile

/-- What a call of `PostService.AddPost` leaves behind: the returned pointer
(`none` is nil; when present it is the caller's own post), the returned error,
the caller's post as the call left it, the calls made to the collaborators in
the order they were made, and whether the call ended in a run-time panic (a nil
pointer dereference) instead of returning. -/
structure AddPostOutcome where
  result : Option PostWithDocument
  err : Option GoError
  post : PostWithDocument
  calls : List Call
  panicked : Bool

/-- The method `PostService.AddPost(ctx, requerster, post, file)`, for a non-nil
`post`; `requerster = none` is the nil pointer. Logging is left out: it has no
effect on the results. `post.Document` is the pointer that `SaveFile` and
`DeleteFile` receive: after the call of `SaveFile` it points to what `SaveFile`
left there. The result of `DeleteFile` is discarded, as in the source. -/
def PostService.addPost (ps : PostService) (fresh : Fresh) (requerster : Option User)
    (post : PostWithDocument) (file : Reader) : AddPostOutcome :=
  match ValidatePost post with
  | some err => { result := none, err := some err, post := post, calls := [], panicked := false }
  | none =>
    let post := { post with ID := fresh.postID }
    match post.Document with
    | none => { result := none, err := none, post := post, calls := [], panicked := true }
    | some document =>
      let document := { document with ID := fresh.docID }
      let document := { document with PostID := post.ID }
      let post := { post with Document := some document }
      let post := { post with CreatedAt := fresh.now }
      match requerster with
      | none => { result := none, err := none, post := post, calls := [], panicked := true }
      | some requerster =>
        let post := { post with OwnerLogin := requerster.Login }
        let post := { post with RequesterIsOwner := true }
        if requerster.ID = "" then
          { result := none, err := some (.sentinel .ErrUserNotFound), post := post, calls := [],
            panicked := false }
        else
          let post := { post with OwnerID := requerster.ID }
          let saved := ps.SaveFileDoc document file
          match ps.SaveFile document file with
          | (_, some _) =>
            { result := none, err := some (.sentinel .ErrInternal)
              post := { post with Document := some saved }
              calls := [Call.SaveFile document], panicked := false }
          | (path, none) =>
            let post := { post with Document := some saved }
            let post := { post with PathToImage := path }
            match ps.AddPost post with
            | some err =>
              let _ := ps.DeleteFile saved
              match errorsAsUniqueConstraint err with
              | some _ =>
                { result := none, err := some (.sentinel .ErrPostExists), post := post,
                  calls := [Call.SaveFile document, Call.Insert post, Call.DeleteFile saved],
                  panicked := false }
              | none =>
                { result := none, err := some (.sentinel .ErrInternal), post := post,
                  calls := [Call.SaveFile document, Call.Insert post, Call.DeleteFile saved],
                  panicked := false }
            | none =>
              { result := some post, err := none, post := post,
                calls := [Call.SaveFile document, Call.Insert post], panicked := false }

/-- A call that `FilteredPosts` makes to the cache or to the post provider. -/
inductive ReadCall where
  | Get (key : String)
  | Query (limit offset : Int) (filter : Option PostsFilter)
  | Set (key value : String)
  deriving DecidableEq

/-- What a call of `PostService.FilteredPosts` leaves behind: the returned slice
and error, the calls made to the cache and the provider in the order they were
made, and whether the call ended in a run-time panic (a nil pointer dereference)
instead of returning. -/
structure FilteredPostsOutcome where
  posts : Posts
  err : Option GoError
  calls : List ReadCall
  panicked : Bool

/-- The two `fmt.Sprintf` calls that build `cacheKey`, for a non-nil filter;
the verb `%v` writes an `int` and a `uint` in decimal. -/
def cacheKey (requester : Option User) (limit offset : Int) (filter : PostsFilter) : String :=
  match requester with
  | some requester =>
    "posts:" ++ requester.Login ++ ":" ++ toString limit ++ ":" ++ toString offset ++ ":"
      ++ filter.SortBy ++ ":" ++ filter.SortOrder ++ ":" ++ toString filter.MinPrice ++ ":"
      ++ toString filter.MaxPrice
  | none =>
    "posts:" ++ toString limit ++ ":" ++ toString offset ++ ":"
      ++ filter.SortBy ++ ":" ++ filter.SortOrder ++ ":" ++ toString filter.MinPrice ++ ":"
      ++ toString filter.MaxPrice

/-- The loop `for _, post := range posts` of `FilteredPosts`: the posts with
the flag set where `post.OwnerID == requester.ID`; `none` when an element is a
nil pointer (the loop dereferences it). -/
def markOwned (requester : User) :
    List (Option PostWithDocument) → Option (List (Option PostWithDocument))
  | [] => some []
  | none :: _ => none
  | some post :: rest =>
    (markOwned requester rest).map fun rest =>
      some (if post.OwnerID = requester.ID then { post with RequesterIsOwner := true } else post)
        :: rest

/-- The statement `if requester != nil { for ... }` of `FilteredPosts`: the
slice after it, `none` when the loop panics. Ranging over a nil slice does
nothing. -/
def enrich (requester : Option User) (posts : Posts) : Option Posts :=
  match requester, posts with
  | none, posts => some posts
  | some _, none => some none
  | some requester, some l => (markOwned requester l).map some

/-- The method `PostService.FilteredPosts(ctx, limit, offset, filter, requester)`;
`filter = none` and `requester = none` are nil pointers. Logging is left out: it
has no effect on the results. -/
def PostService.filteredPosts (ps : PostService) (json : EncodingJSON) (limit offset : Int)
    (filter : Option PostsFilter) (requester : Option User) : FilteredPostsOutcome :=
  match filter with
  | none => { posts := none, err := none, calls := [], panicked := true }
  | some f =>
    let key := cacheKey requester limit offset f
    match ps.Get key with
    | (postsJSON, err) =>
      if err ≠ none ∨ postsJSON = "" then
        match ps.FilteredPosts limit offset filter with
        | (_, some err) =>
          if errorsIs err .ErrPostNotFound then
            { posts := none, err := some (.sentinel .ErrPostNotFound),
              calls := [.Get key, .Query limit offset filter], panicked := false }
          else if errorsIs err .ErrInvalidFilter then
            { posts := none, err := some (.sentinel .ErrInvalidFilter),
              calls := [.Get key, .Query limit offset filter], panicked := false }
          else
            { posts := none, err := some (.sentinel .ErrInternal),
              calls := [.Get key, .Query limit offset filter], panicked := false }
        | (posts, none) =>
          match enrich requester posts with
          | none =>
            { posts := none, err := none,
              calls := [.Get key, .Query limit offset filter], panicked := true }
          | some posts =>
            match PostsToJSON json posts with
            | (_, some _) =>
              { posts := posts, err := none,
                calls := [.Get key, .Query limit offset filter], panicked := false }
            | (postsJSON, none) =>
              let _ := ps.Set key postsJSON
              { posts := posts, err := none,
                calls := [.Get key, .Query limit offset filter, .Set key postsJSON],
                panicked := false }
      else
        match JSONToPosts json postsJSON with
        | (_, some _) =>
          { posts := none, err := some (.sentinel .ErrInternal), calls := [.Get key],
            panicked := false }
        | (posts, none) =>
          { posts := posts, err := none, calls := [.Get key], panicked := false }

/-! ### Reading a fragment back

Observations on the text of a fragment, used to state what it contains. -/

/-- State of the left-to-right scan for placeholders: those found so far and
the one being read (`some none` after a dollar sign with no digit yet). -/
structure Scan where
  found : List Nat
  cur : Option (Option Nat)

/-- Close the placeholder being read, if any. -/
def Scan.flush (s : Scan) : List Nat :=
  match s.cur with
  | some (some n) => s.found ++ [n]
  | _ => s.found

/-- Read one character. -/
def Scan.step (s : Scan) (c : Char) : Scan :=
  if c = '$' then { found := s.flush, cur := some none }
  else if c.isDigit then
    match s.cur with
    | some none => { s with cur := some (some (c.toNat - 48)) }
    | some (some n) => { s with cur := some (some (10 * n + (c.toNat - 48))) }
    | none => s
  else { found := s.flush, cur := none }

/-- The numbers of the positional placeholders (a dollar sign followed by
decimal digits) of a text, from left to right. -/
def placeholders (text : String) : List Nat :=
  (text.data.foldl Scan.step { found := [], cur := none }).flush

/-- Remove `pre` from the front of `cs`, if `cs` starts with it. -/
def dropLeading : List Char → List Char → Option (List Char)
  | [], cs => some cs
  | _ :: _, [] => none
  | k :: ks, c :: cs => if k = c then dropLeading ks cs else none

/-- What follows the first occurrence of `kw` in `cs`. -/
def afterFirst (kw : List Char) : List Char → Option (List Char)
  | [] => dropLeading kw []
  | c :: cs =>
    match dropLeading kw (c :: cs) with
    | some rest => some rest
    | none => afterFirst kw cs

/-- The number of occurrences of `kw` in `cs`. -/
def countOcc (kw : List Char) : List Char → Nat
  | [] => 0
  | c :: cs => (if (dropLeading kw (c :: cs)).isSome then 1 else 0) + countOcc kw cs

/-- The decimal number at the front of `cs`. -/
def readNumber (cs : List Char) : Option Nat :=
  match cs.takeWhile Char.isDigit with
  | [] => none
  | ds => some (ds.foldl (fun n d => 10 * n + (d.toNat - 48)) 0)

/-- The placeholder number that the first occurrence of `kw` in `text` is
followed by (`kw`, a blank, a dollar sign, the number). -/
def boundBy (kw : String) (text : String) : Option Nat :=
  (afterFirst (kw ++ " $").data text.data).bind readNumber

/-- Split at every occurrence of the character `sep`. -/
def splitAt (sep : Char) : List Char → List (List Char)
  | [] => [[]]
  | c :: cs =>
    match splitAt sep cs with
    | [] => [[]]
    | piece :: pieces => if c = sep then [] :: piece :: pieces else (c :: piece) :: pieces

/-- The lines of a text that are ORDER BY clauses. -/
def orderByClauses (text : String) : List String :=
  ((splitAt (Char.ofNat 10) text.data).filter
    (fun l => (dropLeading "ORDER BY ".data l).isSome)).map String.mk

/-- The sort terms of an ORDER BY clause: what follows the keyword, split at commas,
blanks in front removed. -/
def sortTerms (clause : String) : List String :=
  match dropLeading "ORDER BY ".data clause.data with
  | none => []
  | some rest => (splitAt ',' rest).map (fun t => String.mk (t.dropWhile (fun c => c = ' ')))



/-! ## A sample JSON codec

An instance of `EncodingJSON`: a model of `json.Marshal` and `json.Unmarshal` of
the Go library at the type `[]*models.PostWithDocument`. `Marshal` writes the
compact text of the library for every slice (members in the order of the fields,
`omitempty` members left out when empty, strings escaped as the library escapes
them). `Unmarshal` reads the texts that `Marshal` writes, with every escape of
JSON strings. What the library also accepts but never writes (white space
between tokens, members of other names, `null` for a member, a fraction or an
exponent that leaves the number whole, more than eight members in an object) is
not modelled: the reader answers with an error there, and nothing below relies
on it for such a text. Prices are not bounded in the model. -/

/-- The double quote and the backslash. -/
def quoteChar : Char := Char.ofNat 34
def backslashChar : Char := Char.ofNat 92

/-- The lower-case hexadecimal digit of a number below 16. -/
def hexDigit (n : Nat) : Char :=
  if n < 10 then Char.ofNat (48 + n) else Char.ofNat (87 + n)

/-- The value of a hexadecimal digit. -/
def hexValue (c : Char) : Option Nat :=
  if '0' ≤ c ∧ c ≤ '9' then some (c.toNat - 48)
  else if 'a' ≤ c ∧ c ≤ 'f' then some (c.toNat - 87)
  else if 'A' ≤ c ∧ c ≤ 'F' then some (c.toNat - 55)
  else none

/-- One character of a string, as `json.Marshal` writes it inside a string
literal (Go 1.22 and later; earlier versions write `\u0008` and `\u000c` for
backspace and form feed, which are read back alike). -/
def writeChar (c : Char) : List Char :=
  if c = quoteChar then [backslashChar, quoteChar]
  else if c = backslashChar then [backslashChar, backslashChar]
  else if c = Char.ofNat 8 then [backslashChar, 'b']
  else if c = Char.ofNat 12 then [backslashChar, 'f']
  else if c = Char.ofNat 10 then [backslashChar, 'n']
  else if c = Char.ofNat 13 then [backslashChar, 'r']
  else if c = Char.ofNat 9 then [backslashChar, 't']
  else if c.toNat < 32 ∨ c = '<' ∨ c = '>' ∨ c = '&' ∨ c.toNat = 0x2028 ∨ c.toNat = 0x2029 then
    [backslashChar, 'u', hexDigit (c.toNat / 4096 % 16), hexDigit (c.toNat / 256 % 16),
      hexDigit (c.toNat / 16 % 16), hexDigit (c.toNat % 16)]
  else [c]

/-- A JSON string literal. -/
def writeString (s : String) : List Char :=
  quoteChar :: (s.data.flatMap writeChar ++ [quoteChar])

/-- The decimal digits of a number, the last one first; `fuel` bounds their
count. -/
def writeDigits : Nat → Nat → List Char
  | 0, _ => []
  | fuel + 1, n =>
    if n < 10 then [Char.ofNat (48 + n)]
    else Char.ofNat (48 + n % 10) :: writeDigits fuel (n / 10)

/-- A number in decimal, as `json.Marshal` writes an `int64`. -/
def writeInt (i : Int) : List Char :=
  match i with
  | .ofNat n => (writeDigits (n + 1) n).reverse
  | .negSucc n => '-' :: (writeDigits (n + 2) (n + 1)).reverse

/-- A JSON object for a post: the members in the order of the fields, those
tagged `omitempty` left out when empty or false. -/
def writePost (p : PostJSON) : List Char :=
  '{' :: ([','].intercalate
    ((if p.id = "" then [] else [writeString "id" ++ ':' :: writeString p.id])
      ++ (if p.owner_login = "" then []
          else [writeString "owner_login" ++ ':' :: writeString p.owner_login])
      ++ [writeString "header" ++ ':' :: writeString p.header]
      ++ [writeString "text" ++ ':' :: writeString p.text]
      ++ (if p.image_path = "" then []
          else [writeString "image_path" ++ ':' :: writeString p.image_path])
      ++ [writeString "price" ++ ':' :: writeInt p.price]
      ++ (if p.is_owner then [writeString "is_owner" ++ ':' :: "true".data] else []))
    ++ ['}'])

/-- The text for an element of the slice: `null` for a nil pointer. -/
def writeElement : Option PostJSON → List Char
  | none => "null".data
  | some p => writePost p

/-- The text for a slice of posts: `null` for the nil slice. -/
def writePosts : PostsJSON → List Char
  | none => "null".data
  | some l => '[' :: ([','].intercalate (l.map writeElement) ++ [']'])

/-- The replacement character U+FFFD, which stands for a surrogate that has no
partner. -/
def replacementChar : Char := Char.ofNat 0xFFFD

/-- What an open high surrogate adds in front of the next character. -/
def flushPending (pending : Option Nat) : List Char :=
  match pending with
  | some _ => [replacementChar]
  | none => []

/-- The characters that the escape `\uXXXX` with the value `v` adds after an open
high surrogate `pending`, and the high surrogate that is open after it: a high
and a low surrogate in a row stand for one character, a surrogate without its
partner for U+FFFD. -/
def unescapeU (pending : Option Nat) (v : Nat) : List Char × Option Nat :=
  if 0xD800 ≤ v ∧ v < 0xDC00 then (flushPending pending, some v)
  else if 0xDC00 ≤ v ∧ v < 0xE000 then
    match pending with
    | some h => ([Char.ofNat (0x10000 + (h - 0xD800) * 1024 + (v - 0xDC00))], none)
    | none => ([replacementChar], none)
  else (flushPending pending ++ [Char.ofNat v], none)

/-- The character that a one-letter escape stands for. -/
def unescapeLetter (e : Char) : Option Char :=
  if e = 'b' then some (Char.ofNat 8)
  else if e = 'f' then some (Char.ofNat 12)
  else if e = 'n' then some (Char.ofNat 10)
  else if e = 'r' then some (Char.ofNat 13)
  else if e = 't' then some (Char.ofNat 9)
  else if e = quoteChar ∨ e = backslashChar ∨ e = '/' then some e
  else none

/-- Where the reader of a string literal stands: between characters, after a
backslash, or after `\u` and `count` hexadecimal digits of value `acc`;
`pending` is a high surrogate just read whose partner has not been seen. -/
inductive StringState where
  | plain (pending : Option Nat)
  | escape (pending : Option Nat)
  | hex (pending : Option Nat) (count acc : Nat)

/-- Read a string literal after its opening quote, as `json.Unmarshal` does: the
string and what follows the closing quote. A control character may not stand in
a literal. -/
def readString : StringState → List Char → Option (List Char × List Char)
  | _, [] => none
  | .plain pending, c :: rest =>
    if c = quoteChar then some (flushPending pending, rest)
    else if c = backslashChar then readString (.escape pending) rest
    else if c.toNat < 32 then none
    else (readString (.plain none) rest).map fun (s, r) => (flushPending pending ++ c :: s, r)
  | .escape pending, e :: rest =>
    if e = 'u' then readString (.hex pending 0 0) rest
    else
      match unescapeLetter e with
      | some x =>
        (readString (.plain none) rest).map fun (s, r) => (flushPending pending ++ x :: s, r)
      | none => none
  | .hex pending count acc, h :: rest =>
    match hexValue h with
    | none => none
    | some d =>
      if count = 3 then
        (readString (.plain (unescapeU pending (acc * 16 + d)).2) rest).map fun (s, r) =>
          ((unescapeU pending (acc * 16 + d)).1 ++ s, r)
      else readString (.hex pending (count + 1) (acc * 16 + d)) rest

/-- Read a quoted string. -/
def readQuoted : List Char → Option (String × List Char)
  | [] => none
  | c :: rest =>
    if c = quoteChar then
      (readString (.plain none) rest).map fun (s, r) => (String.mk s, r)
    else none

/-- Read a decimal number: digits, without a leading zero before another
digit. -/
def readDigits (cs : List Char) : Option (Nat × List Char) :=
  match cs.takeWhile Char.isDigit with
  | [] => none
  | d :: ds =>
    if d = '0' ∧ ds ≠ [] then none
    else
      some ((d :: ds).foldl (fun n d => 10 * n + (d.toNat - 48)) 0, cs.dropWhile Char.isDigit)

/-- Read a decimal integer: an optional minus sign and a decimal number. -/
def readInt : List Char → Option (Int × List Char)
  | [] => none
  | c :: rest =>
    if c = '-' then (readDigits rest).map fun (n, r) => (-(n : Int), r)
    else (readDigits (c :: rest)).map fun (n, r) => ((n : Int), r)

/-- Read one `"name":value` member into a post. -/
def readMember (p : PostJSON) (cs : List Char) : Option (PostJSON × List Char) :=
  match readQuoted cs with
  | some (name, ':' :: rest) =>
    if name = "id" then (readQuoted rest).map fun (v, r) => ({ p with id := v }, r)
    else if name = "owner_login" then
      (readQuoted rest).map fun (v, r) => ({ p with owner_login := v }, r)
    else if name = "header" then (readQuoted rest).map fun (v, r) => ({ p with header := v }, r)
    else if name = "text" then (readQuoted rest).map fun (v, r) => ({ p with text := v }, r)
    else if name = "image_path" then
      (readQuoted rest).map fun (v, r) => ({ p with image_path := v }, r)
    else if name = "price" then (readInt rest).map fun (v, r) => ({ p with price := v }, r)
    else if name = "is_owner" then
      match dropLeading "true".data rest, dropLeading "false".data rest with
      | some r, _ => some ({ p with is_owner := true }, r)
      | none, some r => some ({ p with is_owner := false }, r)
      | none, none => none
    else none
  | _ => none

/-- Read the members of an object after its opening brace, at most `fuel` of them. -/
def readMembers : Nat → PostJSON → List Char → Option (PostJSON × List Char)
  | 0, _, _ => none
  | fuel + 1, p, cs =>
    match readMember p cs with
    | some (p, ',' :: rest) => readMembers fuel p rest
    | some (p, '}' :: rest) => some (p, rest)
    | _ => none

/-- Read one element of the array: `null` or an object. -/
def readElement (cs : List Char) : Option (Option PostJSON × List Char) :=
  match dropLeading "null".data cs with
  | some rest => some (none, rest)
  | none =>
    match cs with
    | '{' :: rest =>
      (readMembers 8
        { id := "", owner_login := "", header := "", text := "", image_path := "", price := 0,
          is_owner := false } rest).map fun (p, r) => (some p, r)
    | _ => none

/-- Read the elements of an array after its opening bracket, at most `fuel` of them. -/
def readElements : Nat → List Char → Option (List (Option PostJSON) × List Char)
  | 0, _ => none
  | fuel + 1, cs =>
    match readElement cs with
    | some (e, ',' :: rest) => (readElements fuel rest).map fun (es, r) => (e :: es, r)
    | some (e, ']' :: rest) => some ([e], rest)
    | _ => none

/-- The slice read from a text. -/
def readPosts (s : String) : PostsJSON × Option GoError :=
  if s = "null" then (none, none)
  else if s = "[]" then (some [], none)
  else
    match s.data with
    | '[' :: rest =>
      match readElements s.length rest with
      | some (es, []) => (some es, none)
      | _ => (none, some (.foreign "invalid character"))
    | _ => (none, some (.foreign "invalid character"))

/-- The sample codec. -/
def sampleJSON : EncodingJSON :=
  { Marshal := fun posts => (String.mk (writePosts posts), none)
    Unmarshal := readPosts }

/-! ## Sample inputs (from `service_test.go`) -/

/-- The requester of the `AddPost` tests. -/
def testRequester : User := { ID := "123", Login := "test_login", PassHash := [] }

/-- The draft of the `AddPost` tests. -/
def testPost : PostWithDocument :=
  { ID := "", OwnerID := "1", OwnerLogin := "", Header := "header", Text := "texttexttext",
    PathToImage := "", Price := 100500, CreatedAt := 0, RequesterIsOwner := false,
    Document := some { ID := "", PostID := "", Name := "1.jpg", Mime := "image/jpeg", Path := "" } }

/-- Some identifiers and an instant for one call. -/
def testFresh : Fresh := { postID := "post-1", docID := "doc-1", now := 1700000000 }

/-- The mocks of `TestAddPost_Success`. -/
def mocksSuccess : PostService :=
  { SaveFile := fun _ _ => ("path/to/image/1.jpg", none)
    AddPost := fun _ => none
    DeleteFile := fun _ => none }

/-- The mocks of `TestAddPost_SaveFileFails`. -/
def mocksSaveFileFails : PostService :=
  { SaveFile := fun _ _ => ("", some (.foreign "some error"))
    AddPost := fun _ => none
    DeleteFile := fun _ => none }

/-- The mocks of `TestAddPost_OtherErr`. -/
def mocksOtherErr : PostService :=
  { SaveFile := fun _ _ => ("path/to/image/1.jpg", none)
    AddPost := fun _ => some (.foreign "some error")
    DeleteFile := fun _ => some (.foreign "some error") }

/-- The mocks of `TestAddPost_UniqueConstraintFails`. -/
def mocksUniqueConstraintFails : PostService :=
  { SaveFile := fun _ _ => ("path/to/image/1.jpg", none)
    AddPost := fun _ => some (.uniqueConstraint "posts_id_key" (.foreign "some error"))
    DeleteFile := fun _ => none }

/-- A draft whose title is six characters long, three of them trailing blanks. -/
def paddedPost : PostWithDocument := { testPost with Header := "abc   " }

/-- The filter of the test case "price range and sort by price asc". -/
def testFilter : PostsFilter :=
  { MinPrice := 100, MaxPrice := 500, SortBy := "price", SortOrder := "asc" }

/-- The document of `testPost` as `AddPost` hands it to `SaveFile` with `testFresh`. -/
def testDocumentSaved : Document :=
  { ID := "doc-1", PostID := "post-1", Name := "1.jpg", Mime := "image/jpeg", Path := "" }

/-- The post of the tests as `AddPost` hands it to the relational insert with
`testFresh`, `testRequester` and the path the mocks return. -/
def testPostInserted : PostWithDocument :=
  { testPost with
    ID := "post-1", OwnerID := "123", OwnerLogin := "test_login",
    PathToImage := "path/to/image/1.jpg", CreatedAt := 1700000000, RequesterIsOwner := true,
    Document := some testDocumentSaved }

/-! ## Sample inputs for `FilteredPosts` (from `service_test.go`) -/

/-- The requester of the `FilteredPosts` tests. -/
def testReader : User := { ID := "1", Login := "test1", PassHash := [] }

/-- The filter of the `FilteredPosts` tests. -/
def testReadFilter : PostsFilter :=
  { MinPrice := 100, MaxPrice := 200, SortBy := "price", SortOrder := "desc" }

/-- The rows behind `dbPosts` of `TestFilteredPosts_CacheMissSuccess`. -/
def testRows : List entities.PostWithDocument :=
  [ { ID := "1", OwnerID := "1", OwnerLogin := "test1", Header := "header",
      Text := "texttexttext", Price := 100, CreatedAt := 1700000001, DocID := "11",
      DocName := "1.jpg", DocMime := "image/jpeg", DocPath := "/static/files/1.jpg" },
    { ID := "2", OwnerID := "2", OwnerLogin := "test2", Header := "header2",
      Text := "text2", Price := 150, CreatedAt := 1700000002, DocID := "22",
      DocName := "2.jpg", DocMime := "image/jpeg", DocPath := "/static/files/2.jpg" },
    { ID := "3", OwnerID := "3", OwnerLogin := "test3", Header := "header3",
      Text := "text3", Price := 200, CreatedAt := 1700000003, DocID := "33",
      DocName := "3.jpg", DocMime := "image/jpeg", DocPath := "/static/files/3.jpg" } ]

/-- The mocks of `TestFilteredPosts_CacheMissSuccess`: the cache lookup fails,
the provider returns the posts of `testRows`, the cache write succeeds. -/
def mocksCacheMiss : PostService :=
  { mocksSuccess with
    Get := fun _ => ("", some (.foreign "some error"))
    FilteredPosts := fun _ _ _ => (PostsByEntities testRows, none)
    Set := fun _ _ => none }

/-- The same with an empty cached value in place of the lookup error. -/
def mocksCacheEmpty : PostService :=
  { mocksCacheMiss with Get := fun _ => ("", none) }

/-- The mocks of `TestFilteredPosts_OtherErr`: the provider fails. -/
def mocksStoreFails : PostService :=
  { mocksCacheMiss with FilteredPosts := fun _ _ _ => (none, some (.foreign "some error")) }

/-- The text that the miss of `mocksCacheMiss` writes to the cache for `testReader`. -/
def testCachedText : String :=
  "[\x7b\"id\":\"1\",\"owner_login\":\"test1\",\"header\":\"header\",\"text\":\"texttexttext\","
    ++ "\"image_path\":\"/static/files/1.jpg\",\"price\":100,\"is_owner\":true\x7d,"
    ++ "\x7b\"id\":\"2\",\"owner_login\":\"test2\",\"header\":\"header2\",\"text\":\"text2\","
    ++ "\"image_path\":\"/static/files/2.jpg\",\"price\":150\x7d,"
    ++ "\x7b\"id\":\"3\",\"owner_login\":\"test3\",\"header\":\"header3\",\"text\":\"text3\","
    ++ "\"image_path\":\"/static/files/3.jpg\",\"price\":200\x7d]"

/-- Mocks with a cache that holds `testCachedText` under every key. -/
def mocksCacheHit : PostService :=
  { mocksCacheMiss with Get := fun _ => (testCachedText, none) }

/-- Two users with different IDs and one login. -/
def twinUserA : User := { ID := "1", Login := "test1", PassHash := [] }
def twinUserB : User := { ID := "2", Login := "test1", PassHash := [] }

/-- A requester without an ID. -/
def testRequesterNoID : User := { ID := "", Login := "test_login", PassHash := [] }

/-! ## The relational store (`repositories/db/post/repository.go`) -/

/-- The constant `pkg` of package `postrepo`. -/
def postrepo.pkg : String := "postRepo/"

/-- The struct `postrepo.repository`: its field `db`, as far as `FilteredPosts`
uses it. The call `db.SelectContext(ctx, &rawPosts, query, args...)` is modelled
by what it leaves in `rawPosts` and the error it returns; the rows are non-nil
pointers. -/
structure postrepo.repository where
  SelectContext : String → List Arg → List entities.PostWithDocument × Option GoError

/-- The raw string literal `query` of `FilteredPosts`, before the tail is appended. -/
def postrepo.selectText : String :=
  "\n\tSELECT\n\tp.id AS id,\n\tp.owner_id AS owner_id,\n\tu.login AS owner_login,\n"
    ++ "\tp.header AS header,\n\tp.text AS text,\n\tp.price AS price,\n\td.id AS document_id,\n"
    ++ "\td.name AS document_name,\n\td.mime AS document_mime,\n\td.path AS document_path,\n"
    ++ "\tp.created_at AS created_at\n\tFROM posts p\n\tINNER JOIN users u ON u.id = p.owner_id\n"
    ++ "\tINNER JOIN documents d ON d.post_id = p.id\n\t"

/-- What one call of `repository.FilteredPosts` gives: the two results and the
statements it had the database execute, each with its parameters. -/
structure postrepo.FilteredPostsOutcome where
  posts : Posts
  err : Option GoError
  queries : List (String × List Arg)
  deriving DecidableEq

/-- The method `repository.FilteredPosts(ctx, limit, offset, filter)`. -/
def postrepo.repository.FilteredPosts (r : postrepo.repository) (limit offset : Int)
    (filter : Option PostsFilter) : postrepo.FilteredPostsOutcome :=
  let op := postrepo.pkg ++ "FilteredPosts"
  let tail := buildFilteredQueryTail limit offset filter
  match tail.err with
  | some err =>
    { posts := none, err := some (.wrapped (op ++ ": " ++ err.Error) err), queries := [] }
  | none =>
    let query := postrepo.selectText ++ tail.fragment
    let args := tail.args.getD []
    match r.SelectContext query args with
    | (_, some err) =>
      if errorsIs err .sqlErrNoRows then
        { posts := none, err := some (.sentinel .ErrPostNotFound), queries := [(query, args)] }
      else
        { posts := none, err := some (.wrapped (op ++ ": " ++ err.Error) err)
          queries := [(query, args)] }
    | (rawPosts, none) =>
      { posts := PostsByEntities rawPosts, err := none, queries := [(query, args)] }

/-! ## The file repository (`repositories/file/repo.go`) -/

/-- The state of the file system: the bytes of the regular file at each path,
`none` where there is no file. -/
abbrev FileSystem := String → Option (List Nat)

/-- The file system with the file at `path` holding `bytes`. -/
def FileSystem.write (fs : FileSystem) (path : String) (bytes : List Nat) : FileSystem :=
  fun p => if p = path then some bytes else fs p

/-- The file system without the file at `path`. -/
def FileSystem.remove (fs : FileSystem) (path : String) : FileSystem :=
  fun p => if p = path then none else fs p

/-- The failures of the operating system that the state does not decide
(permissions, a full disk, a directory in the way): for each call of the `os`
and `io` packages the error it returns, if any. `Copy` also tells how many bytes
were written before the failure. -/
structure OS where
  MkdirAll : String → Option GoError
  Create : String → Option GoError
  Copy : String → Option (Nat × GoError)
  Open : String → Option GoError
  Remove : String → Option GoError

/-- The error of a system call on a path that does not exist: a `*fs.PathError`
around `ENOENT`, for which `errors.Is(err, os.ErrNotExist)` holds. -/
def pathErrNotExist (op path : String) : GoError :=
  .wrapped (op ++ " " ++ path ++ ": no such file or directory") (.sentinel .osErrNotExist)

/-- Go's `os.Create(path)`: create or truncate the file; the empty path does not
name a file. -/
def osCreate (os : OS) (fs : FileSystem) (path : String) : FileSystem × Option GoError :=
  if path = "" then (fs, some (pathErrNotExist "open" path))
  else
    match os.Create path with
    | some err => (fs, some err)
    | none => (fs.write path [], none)

/-- Go's `io.Copy(out, reader)` for the file `out` just created at `path`: all
bytes of the reader are written, or those written before a failure. -/
def ioCopy (os : OS) (fs : FileSystem) (path : String) (reader : Reader) :
    FileSystem × Option GoError :=
  match os.Copy path with
  | some (n, err) => (fs.write path (reader.take n), some err)
  | none => (fs.write path reader, none)

/-- Go's `os.Open(path)`: the bytes a reader of the file yields. -/
def osOpen (os : OS) (fs : FileSystem) (path : String) : Option (List Nat) × Option GoError :=
  match fs path with
  | none => (none, some (pathErrNotExist "open" path))
  | some bytes =>
    match os.Open path with
    | some err => (none, some err)
    | none => (some bytes, none)

/-- Go's `os.Remove(path)`. -/
def osRemove (os : OS) (fs : FileSystem) (path : String) : FileSystem × Option GoError :=
  match fs path with
  | none => (fs, some (pathErrNotExist "remove" path))
  | some _ =>
    match os.Remove path with
    | some err => (fs, some err)
    | none => (fs.remove path, none)

/-- The loop of Go's `filepath.Ext`, which reads the path from its end: `rest`
holds the characters not yet read, the last one first, `acc` those read. The
extension starts at the last dot of the last element of the path. -/
def extScan : List Char → List Char → List Char
  | [], _ => []
  | c :: rest, acc =>
    if c = '/' then [] else if c = '.' then c :: acc else extScan rest (c :: acc)

/-- Go's `filepath.Ext`. -/
def filepath.Ext (path : String) : String :=
  String.mk (extScan path.data.reverse [])

/-- One element of the path in the loop of Go's `filepath.Clean`; `out` holds
the elements kept so far, the last one first. An empty element and `.` are
dropped; `..` removes the element before it, is dropped at the root, and is
kept where there is nothing to remove. -/
def cleanStep (rooted : Bool) (out : List (List Char)) (e : List Char) : List (List Char) :=
  if e = [] ∨ e = ['.'] then out
  else if e = ['.', '.'] then
    match out with
    | top :: below => if top = ['.', '.'] then e :: out else below
    | [] => if rooted then [] else [e]
  else e :: out

/-- Go's `filepath.Clean`, with the separator `/` and no volume names. -/
def filepath.Clean (path : String) : String :=
  if path = "" then "."
  else
    let rooted := decide (path.data.head? = some '/')
    let out := (splitAt '/' path.data).foldl (cleanStep rooted) []
    let body := String.intercalate "/" (out.reverse.map String.mk)
    if rooted then "/" ++ body else if out = [] then "." else body

/-- Go's `filepath.Join`: the elements from the first non-empty one on, joined
by the separator and cleaned; the empty string when all are empty. -/
def filepath.Join (elem : List String) : String :=
  match elem.dropWhile (fun e => decide (e = "")) with
  | [] => ""
  | rest => filepath.Clean (String.intercalate "/" rest)

/-- Go's `filepath.Dir`: the path up to its last separator, cleaned. -/
def filepath.Dir (path : String) : String :=
  filepath.Clean (String.mk (path.data.reverse.dropWhile (fun c => decide (c ≠ '/'))).reverse)

/-- The constant `pkg` of package `filerepo`. -/
def filerepo.pkg : String := "fileRepo/"

/-- The struct `filerepo.repository`. -/
structure filerepo.repository where
  path : String

/-- What `SaveFile` gives: its two results, the document behind the pointer it
received, and the file system it leaves. -/
structure SaveFileOutcome where
  path : String
  err : Option GoError
  doc : Document
  fs : FileSystem

/-- The method `repository.SaveFile(doc, reader)`, for a non-nil `doc`.
Directories are not part of the state, so `os.MkdirAll` only fails or not. -/
def filerepo.repository.SaveFile (r : filerepo.repository) (os : OS) (fs : FileSystem)
    (doc : Document) (reader : Reader) : SaveFileOutcome :=
  let op := filerepo.pkg ++ "SaveFile"
  let ext := filepath.Ext doc.Name
  let fullPath := filepath.Join [r.path, doc.ID ++ ext]
  match os.MkdirAll (filepath.Dir fullPath) with
  | some err =>
    { path := "", err := some (.wrapped (op ++ ": " ++ err.Error) err), doc := doc, fs := fs }
  | none =>
    match osCreate os fs fullPath with
    | (fs1, some err) =>
      { path := "", err := some (.wrapped (op ++ ": " ++ err.Error) err), doc := doc, fs := fs1 }
    | (fs1, none) =>
      match ioCopy os fs1 fullPath reader with
      | (fs2, some err) =>
        { path := "", err := some (.wrapped (op ++ ": " ++ err.Error) err), doc := doc
          fs := fs2 }
      | (fs2, none) =>
        { path := fullPath, err := none, doc := { doc with Path := fullPath }, fs := fs2 }

/-- The method `repository.LoadFile(doc)`: the bytes the returned reader yields
(`none` is the nil reader) and the error. -/
def filerepo.repository.LoadFile (_r : filerepo.repository) (os : OS) (fs : FileSystem)
    (doc : Document) : Option (List Nat) × Option GoError :=
  let op := filerepo.pkg ++ "LoadFile"
  match osOpen os fs doc.Path with
  | (_, some err) => (none, some (.wrapped (op ++ ": " ++ err.Error) err))
  | (file, none) => (file, none)

/-- The method `repository.DeleteFile(doc)`: the file system it leaves and the
error. -/
def filerepo.repository.DeleteFile (_r : filerepo.repository) (os : OS) (fs : FileSystem)
    (doc : Document) : FileSystem × Option GoError :=
  let op := filerepo.pkg ++ "DeleteFile"
  match osRemove os fs doc.Path with
  | (fs1, some err) =>
    if errorsIs err .osErrNotExist then (fs1, some (.sentinel .ErrDocumentNotFound))
    else (fs1, some (.wrapped (op ++ ": " ++ err.Error) err))
  | (fs1, none) => (fs1, none)

/-! ## Credentials (`internal/utils/validator/auth.go`) -/

/-- The character class `[a-zA-Z0-9]` of `loginRegex`, by code point. -/
def loginClass (c : Char) : Bool :=
  (97 ≤ c.toNat && c.toNat ≤ 122) || (65 ≤ c.toNat && c.toNat ≤ 90)
    || (48 ≤ c.toNat && c.toNat ≤ 57)

/-- The call `loginRegex.MatchString(login)` for the pattern `^[a-zA-Z0-9]{4,}$`.
Without the flag `m` the anchors match only at the beginning and at the end of
the text, so the text matches when the run of class characters at its beginning
is at least four characters long and nothing follows it. -/
def loginRegexMatchString (login : String) : Bool :=
  let run := login.data.takeWhile loginClass
  decide (4 ≤ run.length) && (login.data.dropWhile loginClass).isEmpty

/-- The function `validator.IsValidLogin`. -/
def IsValidLogin (login : String) : Bool :=
  loginRegexMatchString login

/-- The predicates of Go's package `unicode` that `IsValidPassword` calls; they
are read from the tables of the Unicode standard and are taken as a parameter. -/
structure UnicodeTables where
  IsLower : Char → Bool
  IsUpper : Char → Bool
  IsDigit : Char → Bool
  IsSymbol : Char → Bool
  IsPunct : Char → Bool

/-- The four local variables of `IsValidPassword`. -/
structure PasswordFlags where
  hasLower : Bool
  hasUpper : Bool
  hasDigit : Bool
  hasSymbol : Bool
  deriving DecidableEq

/-- The `switch` statement in the loop of `IsValidPassword`, for one rune: the
first case that holds sets its flag. -/
def passwordStep (u : UnicodeTables) (f : PasswordFlags) (r : Char) : PasswordFlags :=
  if u.IsLower r then { f with hasLower := true }
  else if u.IsUpper r then { f with hasUpper := true }
  else if u.IsDigit r then { f with hasDigit := true }
  else if u.IsSymbol r || u.IsPunct r then { f with hasSymbol := true }
  else f

/-- The function `validator.IsValidPassword`. -/
def IsValidPassword (u : UnicodeTables) (password : String) : Bool :=
  if len password < 8 then false
  else
    let f := password.data.foldl (passwordStep u)
      { hasLower := false, hasUpper := false, hasDigit := false, hasSymbol := false }
    f.hasLower && f.hasUpper && f.hasDigit && f.hasSymbol

/-! ## The error branch of the handler `Add` (`http/handlers/posts/post.go`) -/

/-- The JSON object `WriteJSONError` encodes: `error.code` and `error.text`. -/
structure ErrorBody where
  code : Nat
  text : String
  deriving DecidableEq

/-- An `http.ResponseWriter` as the handler uses it: the status code sent (the
one of the first `WriteHeader` call) and the objects written to the body, in
order. -/
structure ResponseWriter where
  status : Option Nat
  body : List ErrorBody
  deriving DecidableEq

/-- The method `WriteHeader`: only the first call sends a status code. -/
def ResponseWriter.WriteHeader (w : ResponseWriter) (statusCode : Nat) : ResponseWriter :=
  if w.status.isSome then w else { w with status := some statusCode }

/-- The function `utils.WriteJSONError(w, statusCode, message)`. -/
def WriteJSONError (w : ResponseWriter) (statusCode : Nat) (message : String) :
    ResponseWriter :=
  let w1 := w.WriteHeader statusCode
  { w1 with body := w1.body ++ [{ code := statusCode, text := message }] }

def StatusBadRequest : Nat := 400
def StatusInternalServerError : Nat := 500

/-- The statements of the handler `Add` in the block `if err != nil` that
follows the call of `AddPost`, for the non-nil error `err`; the block ends with
`return`. -/
def Add.onAddPostError (w : ResponseWriter) (err : GoError) : ResponseWriter :=
  let w1 :=
    if errorsIs err .ErrInvalidHeader || errorsIs err .ErrInvalidText
        || errorsIs err .ErrInvalidPrice then
      WriteJSONError w StatusBadRequest err.Error
    else w
  WriteJSONError w1 StatusInternalServerError "internal server error"

/-! ## The cases of the sort switch -/

/-- The five cases in which the two `switch` statements of
`buildFilteredQueryTail` write an ORDER BY clause. -/
inductive SortCase where
  | priceAsc
  | priceDesc
  | createdAtAsc
  | createdAtDesc
  | fallback
  deriving DecidableEq

/-- The case a filter resolves to; `none` where the switch returns an error. -/
def sortCase (filter : PostsFilter) : Option SortCase :=
  if filter.SortBy = "price" then
    if filter.SortOrder = "asc" then some .priceAsc
    else if filter.SortOrder = "desc" then some .priceDesc
    else none
  else if filter.SortBy = "created_at" then
    if filter.SortOrder = "asc" then some .createdAtAsc
    else if filter.SortOrder = "desc" then some .createdAtDesc
    else none
  else some .fallback

/-! ## Sample inputs for the repositories, the validators and the handler -/

/-- The filter of `TestFilteredPosts_NoRows`. -/
def noRowsFilter : PostsFilter :=
  { MinPrice := 100, MaxPrice := 150, SortBy := "test", SortOrder := "desc" }

/-- A database in which the filtered query finds no row: the call scans nothing
into the slice and returns the nil error. -/
def emptyDB : postrepo.repository :=
  { SelectContext := fun _ _ => ([], none) }

/-- The database of `TestFilteredPosts_NoRows`, which answers `sql.ErrNoRows`. -/
def noRowsErrDB : postrepo.repository :=
  { SelectContext := fun _ _ => ([], some (.sentinel .sqlErrNoRows)) }

/-- The database of `TestFilteredPosts_OtherErr`. -/
def otherErrDB : postrepo.repository :=
  { SelectContext := fun _ _ => ([], some (.foreign "some error")) }

/-- A repository of files rooted at a directory. -/
def testFileRepo : filerepo.repository := { path := "/tmp/files" }

/-- An operating system in which no call fails for a reason outside the state. -/
def noFaults : OS :=
  { MkdirAll := fun _ => none
    Create := fun _ => none
    Copy := fun _ => none
    Open := fun _ => none
    Remove := fun _ => none }

/-- A file system without files. -/
def emptyFS : FileSystem := fun _ => none

/-- The document of `TestSaveLoadDelete`, with an identifier. -/
def testDoc : Document :=
  { ID := "doc-1", PostID := "", Name := "test.txt", Mime := "", Path := "testfile.txt" }

/-- The bytes of `hello world`, the content of `TestSaveLoadDelete`. -/
def helloWorld : Reader := [104, 101, 108, 108, 111, 32, 119, 111, 114, 108, 100]

/-- The document of `TestLocalFileRepository_DeleteFile_NotFound`. -/
def missingDoc : Document :=
  { ID := "", PostID := "", Name := "", Mime := "", Path := "nonexistent.txt" }

/-- The predicates of `unicode` on the ASCII characters (false elsewhere). -/
def asciiTables : UnicodeTables :=
  { IsLower := fun c => 97 ≤ c.toNat && c.toNat ≤ 122
    IsUpper := fun c => 65 ≤ c.toNat && c.toNat ≤ 90
    IsDigit := fun c => 48 ≤ c.toNat && c.toNat ≤ 57
    IsSymbol := fun c => decide (c.toNat ∈ [36, 43, 60, 61, 62, 94, 96, 124, 126])
    IsPunct := fun c => decide (c.toNat ∈ [33, 34, 35, 37, 38, 39, 40, 41, 42, 44, 45, 46, 47,
      58, 59, 63, 64, 91, 92, 93, 95, 123, 125]) }

/-- A user whose login is a decimal number. -/
def numericLoginUser : User := { ID := "7", Login := "1000", PassHash := [] }

/-- The filter of the request `sort_by=price&sort_order=asc`. -/
def priceAscFilter : PostsFilter :=
  { MinPrice := 0, MaxPrice := 0, SortBy := "price", SortOrder := "asc" }

/-- The filter of the request `sort_by=0:price&sort_order=asc`. -/
def colonSortFilter : PostsFilter :=
  { MinPrice := 0, MaxPrice := 0, SortBy := "0:price", SortOrder := "asc" }

/-- A filter with other prices and a raw sort string that names no column. -/
def rawSortFilter : PostsFilter :=
  { MinPrice := 5, MaxPrice := 7, SortBy := "name; --", SortOrder := "" }

/-- A draft whose title is four bytes long. -/
def shortHeaderPost : PostWithDocument := { testPost with Header := "test" }

/-- A JPEG file, as far as its first bytes go. -/
def testImage : Reader := [255, 216, 255, 224]

/-- The file system after the file repository has saved the document of the
tests. -/
def savedFS : FileSystem :=
  (testFileRepo.SaveFile noFaults emptyFS testDocumentSaved testImage).fs

/-- A post service wired as in `app.go`: its file storage is the file repository
(saving into a file system without files, deleting from `savedFS`); the outcome of
the relational insert is given. -/
def serviceOverFileRepo (insert : Option GoError) : PostService :=
  { SaveFile := fun doc reader =>
      ((testFileRepo.SaveFile noFaults emptyFS doc reader).path,
        (testFileRepo.SaveFile noFaults emptyFS doc reader).err)
    SaveFileDoc := fun doc reader => (testFileRepo.SaveFile noFaults emptyFS doc reader).doc
    AddPost := fun _ => insert
    DeleteFile := fun doc => (testFileRepo.DeleteFile noFaults savedFS doc).2 }

/-- The document of the tests as the file repository leaves it. -/
def testDocumentWritten : Document :=
  { testDocumentSaved with Path := "/tmp/files/doc-1.jpg" }

/-- The post of the tests as `AddPost` hands it to the relational insert when the
file storage is the file repository. -/
def testPostWritten : PostWithDocument :=
  { testPostInserted with
    PathToImage := "/tmp/files/doc-1.jpg", Document := some testDocumentWritten }

/-- A response to which nothing has been written. -/
def freshResponse : ResponseWriter := { status := none, body := [] }

/-! ## Lemmas on the sort switch -/

theorem sortSwitch_error_iff (f : PostsFilter) :
    (∃ e, sortSwitch f = .error e) ↔
      (f.SortBy = "price" ∨ f.SortBy = "created_at") ∧ f.SortOrder ≠ "asc" ∧ f.SortOrder ≠ "desc" := by
  unfold sortSwitch
  by_cases hp : f.SortBy = "price" <;> by_cases hc : f.SortBy = "created_at" <;>
    by_cases ha : f.SortOrder = "asc" <;> by_cases hd : f.SortOrder = "desc" <;>
    simp [hp, hc, ha, hd]

theorem sortSwitch_error_is (f : PostsFilter) (e : GoError) (h : sortSwitch f = .error e) :
    errorsIs e .ErrInvalidFilter = true := by
  unfold sortSwitch at h
  split_ifs at h <;> cases h <;> simp [errorsIs]

theorem build_err_some (limit offset : Int) (f : PostsFilter) (e : GoError)
    (h : sortSwitch f = .error e) :
    buildFilteredQueryTail limit offset (some f) = { fragment := "", args := none, err := some e } := by
  simp [buildFilteredQueryTail, h]

theorem build_ok_err (limit offset : Int) (f : PostsFilter) (c : String)
    (h : sortSwitch f = .ok c) :
    (buildFilteredQueryTail limit offset (some f)).err = none := by
  simp [buildFilteredQueryTail, h, finishTail]

/-- Claim C2. The builder `buildFilteredQueryTail` returns an error exactly when the
filter is present, `SortBy` is "price" or "created_at" and `SortOrder` is neither
"asc" nor "desc"; an error it returns satisfies `errors.Is` with
`ErrInvalidFilter`, and comes with the empty fragment and the nil parameter list. -/
theorem buildFilteredQueryTail_error_iff (limit offset : Int) (filter : Option PostsFilter) :
    ((buildFilteredQueryTail limit offset filter).err.isSome = true ↔
      ∃ f, filter = some f ∧ (f.SortBy = "price" ∨ f.SortBy = "created_at") ∧
        f.SortOrder ≠ "asc" ∧ f.SortOrder ≠ "desc") ∧
    (∀ e, (buildFilteredQueryTail limit offset filter).err = some e →
      errorsIs e .ErrInvalidFilter = true ∧
      (buildFilteredQueryTail limit offset filter).fragment = "" ∧
      (buildFilteredQueryTail limit offset filter).args = none) := by
  cases filter with
  | none =>
    constructor
    · simp [buildFilteredQueryTail, finishTail]
    · intro e he
      simp [buildFilteredQueryTail, finishTail] at he
  | some f =>
    cases hs : sortSwitch f with
    | error e0 =>
      rw [build_err_some limit offset f e0 hs]
      constructor
      · simp only [Option.isSome_some, true_iff]
        exact ⟨f, rfl, (sortSwitch_error_iff f).1 ⟨e0, hs⟩⟩
      · intro e he
        simp only [Option.some.injEq] at he
        subst he
        exact ⟨sortSwitch_error_is f e0 hs, rfl, rfl⟩
    | ok c =>
      rw [build_ok_err limit offset f c hs]
      constructor
      · simp only [Option.isSome_none, Bool.false_eq_true, false_iff]
        rintro ⟨g, hg, hcond⟩
        cases hg
        obtain ⟨e, he⟩ := (sortSwitch_error_iff f).2 hcond
        rw [hs] at he
        cases he
      · intro e he
        cases he


theorem sortSwitch_ok_mem (f : PostsFilter) (c : String) (h : sortSwitch f = .ok c) :
    c = "ORDER BY price ASC, created_at DESC, p.id ASC\n" ∨
    c = "ORDER BY price DESC, created_at DESC, p.id ASC\n" ∨
    c = "ORDER BY created_at ASC, p.id ASC\n" ∨
    c = "ORDER BY created_at DESC, p.id ASC\n" := by
  unfold sortSwitch at h
  split_ifs at h <;> cases h <;> simp

theorem build_ok_args (limit offset : Int) (f : PostsFilter) (c : String)
    (h : sortSwitch f = .ok c) :
    (buildFilteredQueryTail limit offset (some f)).args =
      some ((if f.MinPrice > 0 then [Arg.uint f.MinPrice] else []) ++
        (if f.MaxPrice > 0 then [Arg.uint f.MaxPrice] else []) ++
        [Arg.int limit, Arg.int offset]) := by
  by_cases h1 : f.MinPrice > 0 <;> by_cases h2 : f.MaxPrice > 0 <;>
    simp [buildFilteredQueryTail, finishTail, h, h1, h2]

theorem build_ok_fragment (limit offset : Int) (f : PostsFilter) (c : String)
    (h : sortSwitch f = .ok c) :
    (buildFilteredQueryTail limit offset (some f)).fragment =
      (if f.MinPrice > 0 then
        if f.MaxPrice > 0 then "WHERE price >= $1 AND price <= $2\n" ++ c ++ "LIMIT $3 OFFSET $4"
        else "WHERE price >= $1\n" ++ c ++ "LIMIT $2 OFFSET $3"
      else
        if f.MaxPrice > 0 then "WHERE price <= $1\n" ++ c ++ "LIMIT $2 OFFSET $3"
        else c ++ "LIMIT $1 OFFSET $2") := by
  by_cases h1 : f.MinPrice > 0 <;> by_cases h2 : f.MaxPrice > 0 <;>
    simp [buildFilteredQueryTail, finishTail, h, h1, h2]
  all_goals rfl


/-- Claim C4. With an absent filter `buildFilteredQueryTail` returns no error, the
fragment `LIMIT $1 OFFSET $2`, which has no WHERE and no ORDER BY, and the
parameter list `[limit, offset]`. -/
theorem buildFilteredQueryTail_nil_filter (limit offset : Int) :
    (buildFilteredQueryTail limit offset none).err = none ∧
    (buildFilteredQueryTail limit offset none).fragment = "LIMIT $1 OFFSET $2" ∧
    (buildFilteredQueryTail limit offset none).args = some [Arg.int limit, Arg.int offset] ∧
    countOcc "WHERE".data (buildFilteredQueryTail limit offset none).fragment.data = 0 ∧
    countOcc "ORDER BY".data (buildFilteredQueryTail limit offset none).fragment.data = 0 :=
  ⟨rfl, rfl, rfl, rfl, rfl⟩

/-- Claim C1. For every limit, offset and present filter for which
`buildFilteredQueryTail` returns no error, the parameter list is
`[MinPrice if MinPrice > 0] ++ [MaxPrice if MaxPrice > 0] ++ [limit, offset]`, so
its last two elements are limit and offset; the placeholders of the fragment are,
from left to right, 1, 2, ..., n with n the length of the parameter list; and the
placeholder after `price >=` is the position of MinPrice, the one after
`price <=` that of MaxPrice, the one after `LIMIT` that of limit and the one
after `OFFSET` that of offset. -/
theorem buildFilteredQueryTail_params (limit offset : Int) (f : PostsFilter) (r : QueryTail)
    (hr : buildFilteredQueryTail limit offset (some f) = r) (h : r.err = none) :
    ∃ params : List Arg,
      r.args = some params ∧
      params = (if f.MinPrice > 0 then [Arg.uint f.MinPrice] else []) ++
        (if f.MaxPrice > 0 then [Arg.uint f.MaxPrice] else []) ++
        [Arg.int limit, Arg.int offset] ∧
      params.drop (params.length - 2) = [Arg.int limit, Arg.int offset] ∧
      placeholders r.fragment = List.range' 1 params.length ∧
      (f.MinPrice > 0 → ∃ k, boundBy "price >=" r.fragment = some k ∧ 1 ≤ k ∧
        params[k - 1]? = some (Arg.uint f.MinPrice)) ∧
      (f.MaxPrice > 0 → ∃ k, boundBy "price <=" r.fragment = some k ∧ 1 ≤ k ∧
        params[k - 1]? = some (Arg.uint f.MaxPrice)) ∧
      (∃ k, boundBy "LIMIT" r.fragment = some k ∧ 1 ≤ k ∧
        params[k - 1]? = some (Arg.int limit)) ∧
      (∃ k, boundBy "OFFSET" r.fragment = some k ∧ 1 ≤ k ∧
        params[k - 1]? = some (Arg.int offset)) := by
  subst hr
  cases hs : sortSwitch f with
  | error e =>
    rw [build_err_some limit offset f e hs] at h
    cases h
  | ok c =>
    refine ⟨_, build_ok_args limit offset f c hs, rfl, ?_⟩
    rw [build_ok_fragment limit offset f c hs]
    rcases sortSwitch_ok_mem f c hs with rfl | rfl | rfl | rfl <;>
      by_cases h1 : f.MinPrice > 0 <;> by_cases h2 : f.MaxPrice > 0 <;>
      simp only [h1, h2, ↓reduceIte] <;>
      refine ⟨by simp, rfl, ?_, ?_, ?_, ?_⟩ <;>
      first
        | (intro hh; exact False.elim hh)
        | (intro _; exact ⟨1, by decide, by decide, by simp⟩)
        | (intro _; exact ⟨2, by decide, by decide, by simp⟩)
        | exact ⟨1, by decide, by decide, by simp⟩
        | exact ⟨2, by decide, by decide, by simp⟩
        | exact ⟨3, by decide, by decide, by simp⟩
        | exact ⟨4, by decide, by decide, by simp⟩


theorem sortSwitch_table (f : PostsFilter) :
    (f.SortBy = "price" → f.SortOrder = "asc" →
      sortSwitch f = .ok "ORDER BY price ASC, created_at DESC, p.id ASC\n") ∧
    (f.SortBy = "price" → f.SortOrder = "desc" →
      sortSwitch f = .ok "ORDER BY price DESC, created_at DESC, p.id ASC\n") ∧
    (f.SortBy = "created_at" → f.SortOrder = "asc" →
      sortSwitch f = .ok "ORDER BY created_at ASC, p.id ASC\n") ∧
    (f.SortBy = "created_at" → f.SortOrder = "desc" →
      sortSwitch f = .ok "ORDER BY created_at DESC, p.id ASC\n") ∧
    (f.SortBy ≠ "price" → f.SortBy ≠ "created_at" →
      sortSwitch f = .ok "ORDER BY created_at DESC, p.id ASC\n") := by
  refine ⟨?_, ?_, ?_, ?_, ?_⟩ <;> intro h1 h2 <;> simp [sortSwitch, h1, h2]

/-- Claim C3. For a present filter, a `SortBy` other than "price" and "created_at"
never gives an error; and whenever there is no error the fragment has exactly one
ORDER BY clause, the one the table gives for (`SortBy`, `SortOrder`), whose last
sort term is `p.id ASC`. -/
theorem buildFilteredQueryTail_order_by (limit offset : Int) (f : PostsFilter) (r : QueryTail)
    (hr : buildFilteredQueryTail limit offset (some f) = r) :
    (f.SortBy ≠ "price" → f.SortBy ≠ "created_at" → r.err = none) ∧
    (r.err = none →
      countOcc "ORDER BY".data r.fragment.data = 1 ∧
      ∃ clause : String,
        orderByClauses r.fragment = [clause] ∧
        (sortTerms clause).getLast? = some "p.id ASC" ∧
        (f.SortBy = "price" → f.SortOrder = "asc" →
          clause = "ORDER BY price ASC, created_at DESC, p.id ASC") ∧
        (f.SortBy = "price" → f.SortOrder = "desc" →
          clause = "ORDER BY price DESC, created_at DESC, p.id ASC") ∧
        (f.SortBy = "created_at" → f.SortOrder = "asc" →
          clause = "ORDER BY created_at ASC, p.id ASC") ∧
        (f.SortBy = "created_at" → f.SortOrder = "desc" →
          clause = "ORDER BY created_at DESC, p.id ASC") ∧
        (f.SortBy ≠ "price" → f.SortBy ≠ "created_at" →
          clause = "ORDER BY created_at DESC, p.id ASC")) := by
  subst hr
  obtain ⟨t1, t2, t3, t4, t5⟩ := sortSwitch_table f
  refine ⟨fun hp hc => build_ok_err limit offset f _ (t5 hp hc), ?_⟩
  intro h
  cases hs : sortSwitch f with
  | error e =>
    rw [build_err_some limit offset f e hs] at h
    cases h
  | ok c =>
    rw [hs] at t1 t2 t3 t4 t5
    rw [build_ok_fragment limit offset f c hs]
    rcases sortSwitch_ok_mem f c hs with rfl | rfl | rfl | rfl <;>
      by_cases h1 : f.MinPrice > 0 <;> by_cases h2 : f.MaxPrice > 0 <;>
      simp only [h1, h2, ↓reduceIte] <;>
      refine ⟨rfl, _, rfl, rfl, ?_, ?_, ?_, ?_, ?_⟩ <;>
      intro a b <;>
      first
        | rfl
        | exact absurd (Except.ok.inj (t1 a b)) (by decide)
        | exact absurd (Except.ok.inj (t2 a b)) (by decide)
        | exact absurd (Except.ok.inj (t3 a b)) (by decide)
        | exact absurd (Except.ok.inj (t4 a b)) (by decide)
        | exact absurd (Except.ok.inj (t5 a b)) (by decide)


/-! ## Lemmas on `AddPost` -/

theorem addPost_invalid (ps : PostService) (fresh : Fresh) (rq : Option User)
    (post : PostWithDocument) (file : Reader) (e : GoError) (hv : ValidatePost post = some e) :
    ps.addPost fresh rq post file =
      { result := none, err := some e, post := post, calls := [], panicked := false } := by
  simp [PostService.addPost, hv]

theorem addPost_no_document (ps : PostService) (fresh : Fresh) (rq : Option User)
    (post : PostWithDocument) (file : Reader) (hv : ValidatePost post = none)
    (hdoc : post.Document = none) :
    (ps.addPost fresh rq post file).calls = [] ∧
    (ps.addPost fresh rq post file).result = none ∧
    (ps.addPost fresh rq post file).err = none ∧
    (ps.addPost fresh rq post file).panicked = true := by
  simp [PostService.addPost, hv, hdoc]

theorem addPost_no_requester (ps : PostService) (fresh : Fresh)
    (post : PostWithDocument) (file : Reader) (hv : ValidatePost post = none)
    (doc : Document) (hdoc : post.Document = some doc) :
    (ps.addPost fresh none post file).calls = [] ∧
    (ps.addPost fresh none post file).result = none ∧
    (ps.addPost fresh none post file).err = none ∧
    (ps.addPost fresh none post file).panicked = true := by
  simp [PostService.addPost, hv, hdoc]

theorem addPost_noID (ps : PostService) (fresh : Fresh) (rq : User) (post : PostWithDocument)
    (file : Reader) (hv : ValidatePost post = none)
    (doc : Document) (hdoc : post.Document = some doc) (hid : rq.ID = "") :
    (ps.addPost fresh (some rq) post file).calls = [] ∧
    (ps.addPost fresh (some rq) post file).result = none ∧
    (ps.addPost fresh (some rq) post file).err = some (.sentinel .ErrUserNotFound) ∧
    (ps.addPost fresh (some rq) post file).panicked = false := by
  simp [PostService.addPost, hv, hdoc, hid]

theorem addPost_valid (ps : PostService) (fresh : Fresh) (rq : User) (post : PostWithDocument)
    (file : Reader) (hv : ValidatePost post = none)
    (doc : Document) (hdoc : post.Document = some doc) (hid : rq.ID ≠ "")
    (d : Document) (hd : d = { doc with ID := fresh.docID, PostID := fresh.postID })
    (p1 : PostWithDocument)
    (hp1 : p1 = { post with
      ID := fresh.postID, Document := some d, CreatedAt := fresh.now, OwnerLogin := rq.Login,
      RequesterIsOwner := true, OwnerID := rq.ID })
    (p2 : PostWithDocument)
    (hp2 : p2 = { p1 with
      Document := some (ps.SaveFileDoc d file), PathToImage := (ps.SaveFile d file).1 }) :
    ps.addPost fresh (some rq) post file =
      match (ps.SaveFile d file).2 with
      | some _ =>
        { result := none, err := some (.sentinel .ErrInternal)
          post := { p1 with Document := some (ps.SaveFileDoc d file) }
          calls := [Call.SaveFile d], panicked := false }
      | none =>
        match ps.AddPost p2 with
        | some e =>
          { result := none
            err := some (.sentinel
              (if (errorsAsUniqueConstraint e).isSome then .ErrPostExists else .ErrInternal))
            post := p2
            calls := [Call.SaveFile d, Call.Insert p2, Call.DeleteFile (ps.SaveFileDoc d file)]
            panicked := false }
        | none =>
          { result := some p2, err := none, post := p2,
            calls := [Call.SaveFile d, Call.Insert p2], panicked := false } := by
  subst hd hp1 hp2
  simp only [PostService.addPost, hv, hdoc, hid, ↓reduceIte]
  rcases hsv : ps.SaveFile _ file with ⟨path, _ | e⟩
  · simp only
    cases hins : ps.AddPost _ with
    | none => rfl
    | some e =>
      simp only
      cases errorsAsUniqueConstraint e <;> rfl
  · rfl

theorem addPost_valid_cases (ps : PostService) (fresh : Fresh) (rq : User)
    (post : PostWithDocument) (file : Reader)
    (hv : ValidatePost post = none) (doc : Document) (hdoc : post.Document = some doc)
    (hid : rq.ID ≠ "") :
    ∃ d p,
      p.Document = some (ps.SaveFileDoc d file) ∧ d.PostID = p.ID ∧
      p.PathToImage = (ps.SaveFile d file).1 ∧
      p.RequesterIsOwner = true ∧ p.OwnerLogin = rq.Login ∧ p.OwnerID = rq.ID ∧
      p.Header = post.Header ∧ p.Text = post.Text ∧ p.Price = post.Price ∧
      (ps.addPost fresh (some rq) post file).panicked = false ∧
      (((ps.SaveFile d file).2 ≠ none ∧
          (ps.addPost fresh (some rq) post file).calls = [Call.SaveFile d] ∧
          (ps.addPost fresh (some rq) post file).result = none ∧
          (ps.addPost fresh (some rq) post file).err = some (.sentinel .ErrInternal)) ∨
        ((ps.SaveFile d file).2 = none ∧ ps.AddPost p = none ∧
          (ps.addPost fresh (some rq) post file).calls = [Call.SaveFile d, Call.Insert p] ∧
          (ps.addPost fresh (some rq) post file).result = some p ∧
          (ps.addPost fresh (some rq) post file).post = p ∧
          (ps.addPost fresh (some rq) post file).err = none) ∨
        ((ps.SaveFile d file).2 = none ∧ ps.AddPost p ≠ none ∧
          (ps.addPost fresh (some rq) post file).calls =
            [Call.SaveFile d, Call.Insert p, Call.DeleteFile (ps.SaveFileDoc d file)] ∧
          (ps.addPost fresh (some rq) post file).result = none ∧
          (ps.addPost fresh (some rq) post file).err ≠ none)) := by
  obtain ⟨d, hd⟩ : ∃ d : Document,
      d = { doc with ID := fresh.docID, PostID := fresh.postID } := ⟨_, rfl⟩
  obtain ⟨p1, hp1⟩ : ∃ p1 : PostWithDocument, p1 = { post with
      ID := fresh.postID, Document := some d, CreatedAt := fresh.now, OwnerLogin := rq.Login,
      RequesterIsOwner := true, OwnerID := rq.ID } := ⟨_, rfl⟩
  obtain ⟨p2, hp2⟩ : ∃ p2 : PostWithDocument,
      p2 = { p1 with
        Document := some (ps.SaveFileDoc d file), PathToImage := (ps.SaveFile d file).1 } :=
    ⟨_, rfl⟩
  rw [addPost_valid ps fresh rq post file hv doc hdoc hid d hd p1 hp1 p2 hp2]
  refine ⟨d, p2, by rw [hp2], by rw [hp2, hp1, hd], by rw [hp2], by rw [hp2, hp1],
    by rw [hp2, hp1], by rw [hp2, hp1], by rw [hp2, hp1], by rw [hp2, hp1], by rw [hp2, hp1],
    ?_, ?_⟩
  · cases hsv : (ps.SaveFile d file).2 with
    | some e1 => rfl
    | none => cases hadd : ps.AddPost p2 <;> rfl
  · cases hsv : (ps.SaveFile d file).2 with
    | some e1 => exact Or.inl ⟨by simp, rfl, rfl, rfl⟩
    | none =>
      cases hadd : ps.AddPost p2 with
      | none => exact Or.inr (Or.inl ⟨rfl, rfl, rfl, rfl, rfl, rfl⟩)
      | some e2 => exact Or.inr (Or.inr ⟨rfl, by simp, rfl, rfl, by simp⟩)

theorem addPost_calls_nil_or (ps : PostService) (fresh : Fresh) (rq : Option User)
    (post : PostWithDocument) (file : Reader)
    (h : (ps.addPost fresh rq post file).calls ≠ []) :
    ValidatePost post = none ∧ ∃ doc u, post.Document = some doc ∧ rq = some u ∧ u.ID ≠ "" := by
  cases hv : ValidatePost post with
  | some e0 =>
    rw [addPost_invalid ps fresh rq post file e0 hv] at h
    exact absurd rfl h
  | none =>
    cases hdoc : post.Document with
    | none => exact absurd (addPost_no_document ps fresh rq post file hv hdoc).1 h
    | some doc =>
      cases rq with
      | none => exact absurd (addPost_no_requester ps fresh post file hv doc hdoc).1 h
      | some u =>
        by_cases hid : u.ID = ""
        · exact absurd (addPost_noID ps fresh u post file hv doc hdoc hid).1 h
        · exact ⟨rfl, doc, u, rfl, rfl, hid⟩

theorem addPost_insert_mem (ps : PostService) (fresh : Fresh) (rq : Option User)
    (post : PostWithDocument) (file : Reader) (p : PostWithDocument)
    (hins : Call.Insert p ∈ (ps.addPost fresh rq post file).calls) :
    ∃ d, (ps.SaveFile d file).2 = none ∧ p.Document = some (ps.SaveFileDoc d file) ∧
      ps.addPost fresh rq post file =
        match ps.AddPost p with
        | some e =>
          { result := none
            err := some (.sentinel
              (if (errorsAsUniqueConstraint e).isSome then .ErrPostExists else .ErrInternal))
            post := p
            calls := [Call.SaveFile d, Call.Insert p, Call.DeleteFile (ps.SaveFileDoc d file)]
            panicked := false }
        | none =>
          { result := some p, err := none, post := p,
            calls := [Call.SaveFile d, Call.Insert p], panicked := false } := by
  obtain ⟨hv, doc, u, hdoc, rfl, hid⟩ :=
    addPost_calls_nil_or ps fresh rq post file (List.ne_nil_of_mem hins)
  obtain ⟨d, hd⟩ : ∃ d : Document,
      d = { doc with ID := fresh.docID, PostID := fresh.postID } := ⟨_, rfl⟩
  obtain ⟨p1, hp1⟩ : ∃ p1 : PostWithDocument, p1 = { post with
      ID := fresh.postID, Document := some d, CreatedAt := fresh.now, OwnerLogin := u.Login,
      RequesterIsOwner := true, OwnerID := u.ID } := ⟨_, rfl⟩
  obtain ⟨p2, hp2⟩ : ∃ p2 : PostWithDocument,
      p2 = { p1 with
        Document := some (ps.SaveFileDoc d file), PathToImage := (ps.SaveFile d file).1 } :=
    ⟨_, rfl⟩
  have hdoc2 : p2.Document = some (ps.SaveFileDoc d file) := by rw [hp2]
  rw [addPost_valid ps fresh u post file hv doc hdoc hid d hd p1 hp1 p2 hp2] at hins ⊢
  cases hsv : (ps.SaveFile d file).2 with
  | some e1 =>
    rw [hsv] at hins
    simp at hins
  | none =>
    rw [hsv] at hins
    simp only at hins ⊢
    have hp : p = p2 := by
      cases hadd : ps.AddPost p2 with
      | none =>
        rw [hadd] at hins
        simpa using hins
      | some e2 =>
        rw [hadd] at hins
        simpa using hins
    subst hp
    exact ⟨d, hsv, hdoc2, rfl⟩


/-- Claim C5. When the relational insert was called and failed, `AddPost` has
called `SaveFile` (with success), the insert and `DeleteFile` in this order,
`DeleteFile` exactly once and on the document given to `SaveFile`, which is the
document of the inserted post: all three calls concern the one document behind
`post.Document`, and `DeleteFile` and the insert find it as `SaveFile` left it
(with the path written, for a file storage that writes the path it returns). It
returns no post, with `ErrPostExists` when the insert error is or wraps a
`UniqueConstraintError` and `ErrInternal` otherwise; and what it returns does not
depend on what `DeleteFile` returns. -/
theorem addPost_compensating_delete (ps : PostService) (fresh : Fresh) (rq : Option User)
    (post : PostWithDocument) (file : Reader)
    (out : AddPostOutcome) (hout : ps.addPost fresh rq post file = out)
    (p : PostWithDocument) (e : GoError)
    (hins : Call.Insert p ∈ out.calls) (hfail : ps.AddPost p = some e) :
    (∃ d, out.calls =
        [Call.SaveFile d, Call.Insert p, Call.DeleteFile (ps.SaveFileDoc d file)] ∧
      (ps.SaveFile d file).2 = none ∧ p.Document = some (ps.SaveFileDoc d file) ∧
      out.post.Document = some (ps.SaveFileDoc d file) ∧
      (ps.SaveFileDoc d file = { d with Path := (ps.SaveFile d file).1 } →
        out.calls = [Call.SaveFile d, Call.Insert p,
          Call.DeleteFile { d with Path := (ps.SaveFile d file).1 }])) ∧
    out.panicked = false ∧
    (out.calls.map Call.kind).count CallKind.DeleteFile = 1 ∧
    out.result = none ∧
    ((errorsAsUniqueConstraint e).isSome = true → out.err = some (.sentinel .ErrPostExists)) ∧
    (errorsAsUniqueConstraint e = none → out.err = some (.sentinel .ErrInternal)) ∧
    (∀ del : Document → Option GoError,
      ({ ps with DeleteFile := del }.addPost fresh rq post file).err = out.err ∧
      ({ ps with DeleteFile := del }.addPost fresh rq post file).result = out.result) := by
  subst hout
  obtain ⟨d, hsv, hd, heq⟩ := addPost_insert_mem ps fresh rq post file p hins
  rw [hfail] at heq
  refine ⟨⟨d, ?_, hsv, hd, ?_, ?_⟩, ?_, ?_, ?_, ?_, ?_, fun del => ⟨rfl, rfl⟩⟩
  · rw [heq]
  · rw [heq]; exact hd
  · intro hw; rw [heq, hw]
  · rw [heq]
  · rw [heq]; simp [Call.kind]
  · rw [heq]
  · intro hu; rw [heq]; simp [hu]
  · intro hu; rw [heq]; simp [hu]


/-- Claim C6. For a draft that passes validation and carries its document, and a
requester with a non-empty ID, `AddPost` calls `SaveFile` exactly once, the relational insert once if
`SaveFile` succeeded and not at all if it failed, `DeleteFile` (at most once)
exactly when the insert was called and failed, never when `AddPost` succeeds;
the calls are made in the order `SaveFile`, insert, `DeleteFile`. -/
theorem addPost_collaborator_calls (ps : PostService) (fresh : Fresh) (rq : User)
    (post : PostWithDocument) (file : Reader)
    (out : AddPostOutcome) (hv : ValidatePost post = none) (hdoc : post.Document ≠ none)
    (hid : rq.ID ≠ "") (hout : ps.addPost fresh (some rq) post file = out) :
    out.panicked = false ∧
    (out.calls.map Call.kind).count CallKind.SaveFile = 1 ∧
    (∀ d, Call.SaveFile d ∈ out.calls →
      ((ps.SaveFile d file).2 = none → (out.calls.map Call.kind).count CallKind.Insert = 1) ∧
      ((ps.SaveFile d file).2 ≠ none → (out.calls.map Call.kind).count CallKind.Insert = 0)) ∧
    ((out.calls.map Call.kind).count CallKind.DeleteFile ≤ 1) ∧
    ((out.calls.map Call.kind).count CallKind.DeleteFile = 1 ↔
      ∃ p, Call.Insert p ∈ out.calls ∧ ps.AddPost p ≠ none) ∧
    (out.err = none → (out.calls.map Call.kind).count CallKind.DeleteFile = 0) ∧
    (out.calls.map Call.kind = [CallKind.SaveFile] ∨
      out.calls.map Call.kind = [CallKind.SaveFile, CallKind.Insert] ∨
      out.calls.map Call.kind = [CallKind.SaveFile, CallKind.Insert, CallKind.DeleteFile]) := by
  subst hout
  obtain ⟨doc, hdoc⟩ := Option.ne_none_iff_exists'.1 hdoc
  obtain ⟨d, p, -, -, -, -, -, -, -, -, -, hpan, h⟩ :=
    addPost_valid_cases ps fresh rq post file hv doc hdoc hid
  refine ⟨hpan, ?_⟩
  rcases h with ⟨hsv, hc, -, he⟩ | ⟨hsv, hadd, hc, -, -, he⟩ | ⟨hsv, hadd, hc, -, he⟩
  · rw [hc, he]
    refine ⟨by simp [Call.kind], ?_, by simp [Call.kind], ?_, by simp, by simp [Call.kind]⟩
    · intro d1 hd1
      simp only [List.mem_singleton, Call.SaveFile.injEq] at hd1
      subst hd1
      exact ⟨fun h => absurd h hsv, fun _ => by simp [Call.kind]⟩
    · simp [Call.kind]
  · rw [hc, he]
    refine ⟨by simp [Call.kind], ?_, by simp [Call.kind], ?_, by simp [Call.kind], by simp [Call.kind]⟩
    · intro d1 hd1
      simp at hd1
      subst hd1
      exact ⟨fun _ => by simp [Call.kind], fun h => absurd hsv h⟩
    · simp [Call.kind, hadd]
  · rw [hc]
    refine ⟨by simp [Call.kind], ?_, by simp [Call.kind], ?_, fun h => absurd h he, by simp [Call.kind]⟩
    · intro d1 hd1
      simp at hd1
      subst hd1
      exact ⟨fun _ => by simp [Call.kind], fun h => absurd hsv h⟩
    · simp [Call.kind, hadd]


theorem ValidatePost_error_is (post : PostWithDocument) (e : GoError)
    (h : ValidatePost post = some e) :
    ((len (TrimSpace post.Header) < MinHeaderLength ∨ len post.Header > MaxHeaderLength) →
      errorsIs e .ErrInvalidHeader = true) ∧
    (¬ (len (TrimSpace post.Header) < MinHeaderLength ∨ len post.Header > MaxHeaderLength) →
      (len (TrimSpace post.Text) < MinTextLength ∨ len post.Text > MaxTextLength) →
      errorsIs e .ErrInvalidText = true) ∧
    (¬ (len (TrimSpace post.Header) < MinHeaderLength ∨ len post.Header > MaxHeaderLength) →
      ¬ (len (TrimSpace post.Text) < MinTextLength ∨ len post.Text > MaxTextLength) →
      errorsIs e .ErrInvalidPrice = true) ∧
    (errorsIs e .ErrInvalidHeader = true ∨ errorsIs e .ErrInvalidText = true ∨
      errorsIs e .ErrInvalidPrice = true) := by
  unfold ValidatePost at h
  split_ifs at h with h1 h2 h3
  · cases h
    exact ⟨fun _ => rfl, fun hn => absurd h1 hn, fun hn => absurd h1 hn, Or.inl rfl⟩
  · cases h
    exact ⟨fun hh => absurd hh h1, fun _ _ => rfl, fun _ hn => absurd h2 hn, Or.inr (Or.inl rfl)⟩
  · cases h
    exact ⟨fun hh => absurd hh h1, fun _ hh => absurd hh h2, fun _ _ => rfl, Or.inr (Or.inr rfl)⟩

/-- Claim C7. For a draft that fails `ValidatePost`, `AddPost` returns no post and
the validation error, which satisfies `errors.Is` with the sentinel of the first
failing field (header, then text, then price); it calls no collaborator and
leaves the caller's draft as it was. -/
theorem addPost_invalid_draft (ps : PostService) (fresh : Fresh) (rq : Option User)
    (post : PostWithDocument) (file : Reader)
    (out : AddPostOutcome) (hout : ps.addPost fresh rq post file = out)
    (hv : ValidatePost post ≠ none) :
    out.result = none ∧
    (∃ e, out.err = some e ∧ ValidatePost post = some e ∧
      (errorsIs e .ErrInvalidHeader = true ∨ errorsIs e .ErrInvalidText = true ∨
        errorsIs e .ErrInvalidPrice = true) ∧
      ((len (TrimSpace post.Header) < MinHeaderLength ∨ len post.Header > MaxHeaderLength) →
        errorsIs e .ErrInvalidHeader = true) ∧
      (¬ (len (TrimSpace post.Header) < MinHeaderLength ∨ len post.Header > MaxHeaderLength) →
        (len (TrimSpace post.Text) < MinTextLength ∨ len post.Text > MaxTextLength) →
        errorsIs e .ErrInvalidText = true) ∧
      (¬ (len (TrimSpace post.Header) < MinHeaderLength ∨ len post.Header > MaxHeaderLength) →
        ¬ (len (TrimSpace post.Text) < MinTextLength ∨ len post.Text > MaxTextLength) →
        errorsIs e .ErrInvalidPrice = true)) ∧
    out.calls = [] ∧
    out.post = post ∧
    out.panicked = false := by
  subst hout
  cases hve : ValidatePost post with
  | none => exact absurd hve hv
  | some e =>
    rw [addPost_invalid ps fresh rq post file e hve]
    obtain ⟨a, b, c, d⟩ := ValidatePost_error_is post e hve
    exact ⟨rfl, ⟨e, rfl, rfl, d, a, b, c⟩, rfl, rfl, rfl⟩

theorem utf8Size_ascii (c : Char) (h : c.toNat < 128) : c.utf8Size = 1 := by
  have hv : c.val.toBitVec.toNat = c.toNat := rfl
  have e1 : (127 : UInt32).toBitVec.toNat = 127 := rfl
  have hle : c.val ≤ 127 := by
    rw [UInt32.le_def, BitVec.le_def, hv, e1]
    omega
  simp [Char.utf8Size, hle]

theorem utf8ByteSize_go_ascii (cs : List Char) (h : ∀ c ∈ cs, c.toNat < 128) :
    String.utf8ByteSize.go cs = cs.length := by
  induction cs with
  | nil => rfl
  | cons c cs ih =>
    simp only [String.utf8ByteSize.go, List.length_cons]
    rw [ih (fun x hx => h x (List.mem_cons_of_mem _ hx)),
      utf8Size_ascii c (h c (List.mem_cons_self _ _))]

theorem len_ascii (s : String) (h : ∀ c ∈ s.data, c.toNat < 128) : len s = s.length := by
  cases s with
  | mk cs => exact utf8ByteSize_go_ascii cs h

theorem TrimSpace_mem (s : String) (c : Char) (h : c ∈ (TrimSpace s).data) : c ∈ s.data := by
  unfold TrimSpace at h
  simp only [List.mem_reverse] at h
  have h1 := (List.dropWhile_sublist unicodeIsSpace).subset h
  rw [List.mem_reverse] at h1
  exact (List.dropWhile_sublist unicodeIsSpace).subset h1

theorem ValidatePost_none_iff (post : PostWithDocument) :
    ValidatePost post = none ↔
      (5 ≤ len (TrimSpace post.Header) ∧ len post.Header ≤ 100) ∧
      (10 ≤ len (TrimSpace post.Text) ∧ len post.Text ≤ 2000) ∧
      (1 ≤ post.Price ∧ post.Price ≤ 1000000000) := by
  unfold ValidatePost MinHeaderLength MaxHeaderLength MinTextLength MaxTextLength MinPrice MaxPrice
  split_ifs with h1 h2 h3
  · simp only [reduceCtorEq, false_iff]
    omega
  · simp only [reduceCtorEq, false_iff]
    omega
  · simp only [reduceCtorEq, false_iff]
    omega
  · simp only [true_iff]
    omega

/-- Claim C8 fails as stated. A title of six characters, three of them trailing
blanks, is within 5..100 characters, with a body and a price within their bounds,
but the draft is rejected: the lower bounds are taken after white space has been
trimmed. -/
theorem ValidatePost_characters_counterexample :
    (5 ≤ paddedPost.Header.length ∧ paddedPost.Header.length ≤ 100) ∧
    (10 ≤ paddedPost.Text.length ∧ paddedPost.Text.length ≤ 2000) ∧
    (1 ≤ paddedPost.Price ∧ paddedPost.Price ≤ 1000000000) ∧
    ValidatePost paddedPost ≠ none := by
  decide

/-- Claim C8, as amended. For a draft whose title and body are made of ASCII
characters, `ValidatePost` accepts the draft exactly when its title with leading
and trailing white space removed has at least 5 characters and the title at most
100, its trimmed body has at least 10 characters and the body at most 2000, and
its price lies in 1..1_000_000_000. -/
theorem ValidatePost_accepts_iff (post : PostWithDocument)
    (hheader : ∀ c ∈ post.Header.data, c.toNat < 128)
    (htext : ∀ c ∈ post.Text.data, c.toNat < 128) :
    ValidatePost post = none ↔
      (5 ≤ (TrimSpace post.Header).length ∧ post.Header.length ≤ 100) ∧
      (10 ≤ (TrimSpace post.Text).length ∧ post.Text.length ≤ 2000) ∧
      (1 ≤ post.Price ∧ post.Price ≤ 1000000000) := by
  rw [ValidatePost_none_iff, len_ascii post.Header hheader, len_ascii post.Text htext,
    len_ascii (TrimSpace post.Header) (fun c hc => hheader c (TrimSpace_mem _ c hc)),
    len_ascii (TrimSpace post.Text) (fun c hc => htext c (TrimSpace_mem _ c hc))]

/-- Claim C10. For a file storage whose `SaveFile` leaves the `PostID` of the
document it is given as it is (the file repository writes `Path` only): when
`AddPost` returns with no error, it returns the caller's post with
`RequesterIsOwner = true`, the requester's login and ID as owner, as `Document` the
document that `SaveFile` was given, as `SaveFile` left it, with `PostID` equal to
the post's ID, `PathToImage` equal to the path that the (successful) `SaveFile`
call returned, and the header, text and price of the submitted draft. -/
theorem addPost_success_fields (ps : PostService) (fresh : Fresh) (rq : User)
    (post : PostWithDocument) (file : Reader)
    (out : AddPostOutcome) (hout : ps.addPost fresh (some rq) post file = out)
    (hret : out.panicked = false) (hok : out.err = none)
    (hwrite : ∀ d, (ps.SaveFileDoc d file).PostID = d.PostID) :
    ∃ p, out.result = some p ∧ out.post = p ∧
      p.RequesterIsOwner = true ∧ p.OwnerLogin = rq.Login ∧ p.OwnerID = rq.ID ∧
      (∃ d saved, out.calls.head? = some (Call.SaveFile d) ∧ (ps.SaveFile d file).2 = none ∧
        saved = ps.SaveFileDoc d file ∧ p.Document = some saved ∧ saved.PostID = p.ID ∧
        p.PathToImage = (ps.SaveFile d file).1) ∧
      p.Header = post.Header ∧ p.Text = post.Text ∧ p.Price = post.Price := by
  subst hout
  cases hv : ValidatePost post with
  | some e =>
    rw [addPost_invalid ps fresh (some rq) post file e hv] at hok
    cases hok
  | none =>
    cases hdoc : post.Document with
    | none =>
      rw [(addPost_no_document ps fresh (some rq) post file hv hdoc).2.2.2] at hret
      cases hret
    | some doc =>
      by_cases hid : rq.ID = ""
      · rw [(addPost_noID ps fresh rq post file hv doc hdoc hid).2.2.1] at hok
        cases hok
      · obtain ⟨d, p, h1, h2, h3, h4, h5, h6, h7, h8, h9, -, h⟩ :=
          addPost_valid_cases ps fresh rq post file hv doc hdoc hid
        rcases h with ⟨-, -, -, he⟩ | ⟨hsv, -, hc, hr, hp, -⟩ | ⟨-, -, -, -, he⟩
        · rw [he] at hok
          cases hok
        · refine ⟨p, hr, hp, h4, h5, h6,
            ⟨d, _, ?_, hsv, rfl, h1, (hwrite d).trans h2, h3⟩, h7, h8, h9⟩
          rw [hc]; rfl
        · exact absurd hok he

/-- Claim C9 fails as stated. With the mocks of `TestAddPost_SaveFileFails` (the blob
write fails) and of `TestAddPost_OtherErr` (the insert fails, not for uniqueness)
`AddPost` returns the same error, `ErrInternal`. -/
theorem addPost_storage_error_counterexample :
    (mocksSaveFileFails.addPost testFresh (some testRequester) testPost []).calls.map Call.kind
      = [CallKind.SaveFile] ∧
    (mocksOtherErr.addPost testFresh (some testRequester) testPost []).calls.map Call.kind
      = [CallKind.SaveFile, CallKind.Insert, CallKind.DeleteFile] ∧
    errorsAsUniqueConstraint (GoError.foreign "some error") = none ∧
    (mocksSaveFileFails.addPost testFresh (some testRequester) testPost []).err
      = some (.sentinel .ErrInternal) ∧
    ¬ ((mocksSaveFileFails.addPost testFresh (some testRequester) testPost []).err
      ≠ (mocksOtherErr.addPost testFresh (some testRequester) testPost []).err) := by
  decide

/-- Claim C9, as amended. When `SaveFile` was called and failed, `AddPost` returns
no post and `ErrInternal`, having made no other call; this is the very error that
any call of `AddPost` returns when the relational insert fails with an error that
is not a `UniqueConstraintError`. -/
theorem addPost_saveFile_fails (ps : PostService) (fresh : Fresh) (rq : Option User)
    (post : PostWithDocument) (file : Reader)
    (out : AddPostOutcome) (hout : ps.addPost fresh rq post file = out)
    (d : Document) (hcall : Call.SaveFile d ∈ out.calls) (hfail : (ps.SaveFile d file).2 ≠ none) :
    out.result = none ∧
    out.err = some (.sentinel .ErrInternal) ∧
    out.calls = [Call.SaveFile d] ∧
    out.panicked = false ∧
    (∀ (ps2 : PostService) (fresh2 : Fresh) (rq2 : Option User) (post2 : PostWithDocument)
        (file2 : Reader) (p : PostWithDocument) (e : GoError),
      Call.Insert p ∈ (ps2.addPost fresh2 rq2 post2 file2).calls →
      ps2.AddPost p = some e → errorsAsUniqueConstraint e = none →
      (ps2.addPost fresh2 rq2 post2 file2).err = out.err) := by
  subst hout
  obtain ⟨hv, doc, u, hdoc, rfl, hid⟩ :=
    addPost_calls_nil_or ps fresh rq post file (List.ne_nil_of_mem hcall)
  obtain ⟨d1, p1, -, -, -, -, -, -, -, -, -, hpan, h⟩ :=
    addPost_valid_cases ps fresh u post file hv doc hdoc hid
  rcases h with ⟨-, hc, hr, he⟩ | ⟨hsv, -, hc, -, -, -⟩ | ⟨hsv, -, hc, -, -⟩
  · rw [hc] at hcall
    simp at hcall
    subst hcall
    refine ⟨hr, he, hc, hpan, ?_⟩
    intro ps2 fresh2 rq2 post2 file2 p e hins hadd hnu
    obtain ⟨d2, -, -, heq⟩ := addPost_insert_mem ps2 fresh2 rq2 post2 file2 p hins
    rw [hadd] at heq
    rw [heq, he]
    simp [hnu]
  · rw [hc] at hcall
    simp at hcall
    subst hcall
    exact absurd hsv hfail
  · rw [hc] at hcall
    simp at hcall
    subst hcall
    exact absurd hsv hfail

/-- The filter of the test "price range and sort by price asc" meets the hypotheses of C1. -/
theorem buildFilteredQueryTail_params_witness :
    (buildFilteredQueryTail 20 40 (some testFilter)).err = none ∧
    ∃ params : List Arg,
      (buildFilteredQueryTail 20 40 (some testFilter)).args = some params ∧
      params = [Arg.uint 100, Arg.uint 500, Arg.int 20, Arg.int 40] ∧
      placeholders (buildFilteredQueryTail 20 40 (some testFilter)).fragment
        = List.range' 1 params.length :=
  ⟨rfl, (buildFilteredQueryTail_params 20 40 testFilter _ rfl rfl).imp fun _ h => ⟨h.1, h.2.1, h.2.2.2.1⟩⟩

/-- The filter of the test "price range and sort by price asc" gives one ORDER BY clause. -/
theorem buildFilteredQueryTail_order_by_witness :
    countOcc "ORDER BY".data (buildFilteredQueryTail 20 40 (some testFilter)).fragment.data = 1 :=
  ((buildFilteredQueryTail_order_by 20 40 testFilter _ rfl).2 rfl).1

/-- The draft and requester of `TestAddPost_Success` meet the hypotheses of C6. -/
theorem addPost_collaborator_calls_witness :
    ValidatePost testPost = none ∧ testPost.Document ≠ none ∧ testRequester.ID ≠ "" ∧
    ((mocksSuccess.addPost testFresh (some testRequester) testPost []).calls.map Call.kind).count
      CallKind.SaveFile = 1 :=
  ⟨by decide, by decide, by decide,
    (addPost_collaborator_calls mocksSuccess testFresh testRequester testPost [] _ (by decide)
      (by decide) (by decide) rfl).2.1⟩

/-- A draft with a padded title fails validation and is left untouched. -/
theorem addPost_invalid_draft_witness :
    ValidatePost paddedPost ≠ none ∧
    (mocksSuccess.addPost testFresh (some testRequester) paddedPost []).calls = [] ∧
    (mocksSuccess.addPost testFresh (some testRequester) paddedPost []).post = paddedPost :=
  ⟨by decide,
    (addPost_invalid_draft mocksSuccess testFresh (some testRequester) paddedPost [] _ rfl
      (by decide)).2.2.1,
    (addPost_invalid_draft mocksSuccess testFresh (some testRequester) paddedPost [] _ rfl
      (by decide)).2.2.2.1⟩

/-- With the mocks of `TestAddPost_SaveFileFails` the blob write fails and
`ErrInternal` is returned. -/
theorem addPost_saveFile_fails_witness :
    Call.SaveFile testDocumentSaved
      ∈ (mocksSaveFileFails.addPost testFresh (some testRequester) testPost []).calls ∧
    (mocksSaveFileFails.addPost testFresh (some testRequester) testPost []).err
      = some (.sentinel .ErrInternal) :=
  ⟨by decide,
    (addPost_saveFile_fails mocksSaveFileFails testFresh (some testRequester) testPost [] _ rfl
      testDocumentSaved (by decide) (by decide)).2.1⟩

/-- The draft of the tests is made of ASCII characters and is accepted. -/
theorem ValidatePost_accepts_iff_witness :
    (∀ c ∈ testPost.Header.data, c.toNat < 128) ∧ (∀ c ∈ testPost.Text.data, c.toNat < 128) ∧
    (ValidatePost testPost = none ↔
      (5 ≤ (TrimSpace testPost.Header).length ∧ testPost.Header.length ≤ 100) ∧
      (10 ≤ (TrimSpace testPost.Text).length ∧ testPost.Text.length ≤ 2000) ∧
      (1 ≤ testPost.Price ∧ testPost.Price ≤ 1000000000)) :=
  ⟨by decide, by decide, ValidatePost_accepts_iff testPost (by decide) (by decide)⟩

set_option maxRecDepth 100000

/-! ## Lemmas on `FilteredPosts` -/

theorem filteredPosts_hit (ps : PostService) (json : EncodingJSON) (limit offset : Int)
    (f : PostsFilter) (rq : Option User) (v : String)
    (hget : ps.Get (cacheKey rq limit offset f) = (v, none)) (hv : v ≠ "") :
    ps.filteredPosts json limit offset (some f) rq =
      match JSONToPosts json v with
      | (_, some _) =>
        { posts := none, err := some (.sentinel .ErrInternal),
          calls := [.Get (cacheKey rq limit offset f)], panicked := false }
      | (posts, none) =>
        { posts := posts, err := none, calls := [.Get (cacheKey rq limit offset f)],
          panicked := false } := by
  simp only [PostService.filteredPosts, hget]
  rw [if_neg (by simp [hv])]

theorem filteredPosts_miss (ps : PostService) (json : EncodingJSON) (limit offset : Int)
    (f : PostsFilter) (rq : Option User) (v : String) (e : Option GoError)
    (hget : ps.Get (cacheKey rq limit offset f) = (v, e)) (hmiss : e ≠ none ∨ v = "") :
    ps.filteredPosts json limit offset (some f) rq =
      match ps.FilteredPosts limit offset (some f) with
      | (_, some err) =>
        { posts := none
          err := some (.sentinel
            (if errorsIs err .ErrPostNotFound then .ErrPostNotFound
              else if errorsIs err .ErrInvalidFilter then .ErrInvalidFilter
              else .ErrInternal))
          calls := [.Get (cacheKey rq limit offset f), .Query limit offset (some f)]
          panicked := false }
      | (posts, none) =>
        match enrich rq posts with
        | none =>
          { posts := none, err := none,
            calls := [.Get (cacheKey rq limit offset f), .Query limit offset (some f)],
            panicked := true }
        | some posts =>
          match PostsToJSON json posts with
          | (_, some _) =>
            { posts := posts, err := none,
              calls := [.Get (cacheKey rq limit offset f), .Query limit offset (some f)],
              panicked := false }
          | (postsJSON, none) =>
            { posts := posts, err := none,
              calls := [.Get (cacheKey rq limit offset f), .Query limit offset (some f),
                .Set (cacheKey rq limit offset f) postsJSON],
              panicked := false } := by
  simp only [PostService.filteredPosts, hget]
  rw [if_pos hmiss]
  rcases hq : ps.FilteredPosts limit offset (some f) with ⟨posts, _ | err⟩
  · rfl
  · simp only
    split_ifs <;> rfl


theorem filteredPosts_nil_filter (ps : PostService) (json : EncodingJSON) (limit offset : Int)
    (rq : Option User) :
    ps.filteredPosts json limit offset none rq =
      { posts := none, err := none, calls := [], panicked := true } := rfl

theorem filteredPosts_calls (ps : PostService) (json : EncodingJSON) (limit offset : Int)
    (f : PostsFilter) (rq : Option User) :
    (ps.filteredPosts json limit offset (some f) rq).calls = [.Get (cacheKey rq limit offset f)] ∨
    (ps.filteredPosts json limit offset (some f) rq).calls =
      [.Get (cacheKey rq limit offset f), .Query limit offset (some f)] ∨
    ∃ v, (ps.filteredPosts json limit offset (some f) rq).calls =
      [.Get (cacheKey rq limit offset f), .Query limit offset (some f),
        .Set (cacheKey rq limit offset f) v] := by
  rcases hget : ps.Get (cacheKey rq limit offset f) with ⟨v, e⟩
  by_cases hmiss : e ≠ none ∨ v = ""
  · rw [filteredPosts_miss ps json limit offset f rq v e hget hmiss]
    rcases hq : ps.FilteredPosts limit offset (some f) with ⟨posts, _ | err⟩
    · simp only
      cases he : enrich rq posts with
      | none => exact Or.inr (Or.inl rfl)
      | some posts1 =>
        simp only
        rcases hj : PostsToJSON json posts1 with ⟨w, _ | e2⟩
        · exact Or.inr (Or.inr ⟨w, rfl⟩)
        · exact Or.inr (Or.inl rfl)
    · exact Or.inr (Or.inl rfl)
  · have he : e = none := by
      by_contra h
      exact hmiss (Or.inl h)
    have hv : v ≠ "" := fun h => hmiss (Or.inr h)
    subst he
    rw [filteredPosts_hit ps json limit offset f rq v hget hv]
    rcases hj : JSONToPosts json v with ⟨p, _ | e⟩ <;> exact Or.inl rfl

theorem filteredPosts_get_mem (ps : PostService) (json : EncodingJSON) (limit offset : Int)
    (filter : Option PostsFilter) (rq : Option User) (k : String)
    (h : ReadCall.Get k ∈ (ps.filteredPosts json limit offset filter rq).calls) :
    ∃ f, filter = some f ∧ k = cacheKey rq limit offset f := by
  cases filter with
  | none =>
    rw [filteredPosts_nil_filter] at h
    simp at h
  | some f =>
    refine ⟨f, rfl, ?_⟩
    rcases filteredPosts_calls ps json limit offset f rq with hc | hc | ⟨v, hc⟩ <;>
      rw [hc] at h <;> simpa using h


/-! ## Lemmas on the cache key -/

theorem cacheKey_some (r : User) (limit offset : Int) (f : PostsFilter) :
    cacheKey (some r) limit offset f = "posts:" ++ (r.Login ++ (":" ++ (toString limit ++ ":"
      ++ toString offset ++ ":" ++ f.SortBy ++ ":" ++ f.SortOrder ++ ":" ++ toString f.MinPrice
      ++ ":" ++ toString f.MaxPrice))) := by
  simp only [cacheKey, String.append_assoc]

theorem cacheKey_none (limit offset : Int) (f : PostsFilter) :
    cacheKey none limit offset f = "posts:" ++ (toString limit ++ ":"
      ++ toString offset ++ ":" ++ f.SortBy ++ ":" ++ f.SortOrder ++ ":" ++ toString f.MinPrice
      ++ ":" ++ toString f.MaxPrice) := by
  simp only [cacheKey, String.append_assoc]

theorem string_append_left_cancel (a b c : String) (h : a ++ b = a ++ c) : b = c := by
  have h1 := congrArg String.data h
  simp only [String.data_append] at h1
  exact String.ext (List.append_cancel_left h1)

theorem string_append_right_cancel (a b c : String) (h : a ++ c = b ++ c) : a = b := by
  have h1 := congrArg String.data h
  simp only [String.data_append] at h1
  exact String.ext (List.append_cancel_right h1)

theorem string_append_ne_self (a t : String) : a ++ (":" ++ t) ≠ t := by
  intro h
  have h1 := congrArg String.length h
  simp only [String.length_append] at h1
  have : (":" : String).length = 1 := rfl
  omega

theorem cacheKey_ne (r1 r2 : Option User) (limit offset : Int) (f : PostsFilter)
    (h : r1.map User.Login ≠ r2.map User.Login) :
    cacheKey r1 limit offset f ≠ cacheKey r2 limit offset f := by
  intro heq
  cases r1 with
  | none =>
    cases r2 with
    | none => exact h rfl
    | some u2 =>
      rw [cacheKey_none, cacheKey_some] at heq
      exact string_append_ne_self _ _ (string_append_left_cancel _ _ _ heq).symm
  | some u1 =>
    cases r2 with
    | none =>
      rw [cacheKey_none, cacheKey_some] at heq
      exact string_append_ne_self _ _ (string_append_left_cancel _ _ _ heq)
    | some u2 =>
      rw [cacheKey_some, cacheKey_some] at heq
      have := string_append_right_cancel _ _ _ (string_append_left_cancel _ _ _ heq)
      exact h (by simp [this])


/-! ## Lemmas on the JSON form -/

theorem len_eq_zero_iff (s : String) : len s = 0 ↔ s = "" := by
  constructor
  · intro h
    cases s with
    | mk cs =>
      cases cs with
      | nil => rfl
      | cons c cs =>
        exfalso
        have hpos := Char.utf8Size_pos c
        simp only [len, String.utf8ByteSize, String.utf8ByteSize.go] at h
        omega
  · intro h
    subst h
    rfl

theorem JSONToPosts_of_read (json : EncodingJSON) (v : String) (x : PostsJSON)
    (hne : v ≠ "") (hu : json.Unmarshal v = (x, none)) :
    JSONToPosts json v = (Posts.ofJSON x, none) := by
  have h0 : len v ≠ 0 := fun h => hne ((len_eq_zero_iff v).1 h)
  simp [JSONToPosts, h0, hu]

theorem PostsToJSON_ok (json : EncodingJSON) (posts : Posts) (v : String) :
    PostsToJSON json posts = (v, none) ↔ json.Marshal posts.toJSON = (v, none) := by
  unfold PostsToJSON
  rcases hm : json.Marshal posts.toJSON with ⟨w, _ | e⟩ <;> simp

theorem ofJSON_toJSON (p : PostWithDocument) :
    PostWithDocument.ofJSON p.toJSON = { p with OwnerID := "", CreatedAt := 0, Document := none } :=
  rfl

theorem Posts_ofJSON_toJSON (posts : Posts) :
    Posts.ofJSON posts.toJSON =
      posts.map (List.map (Option.map fun p =>
        { p with OwnerID := "", CreatedAt := 0, Document := none })) := by
  cases posts with
  | none => rfl
  | some l =>
    simp only [Posts.toJSON, Posts.ofJSON, Option.map_some', List.map_map]
    congr 1
    apply List.map_congr_left
    intro x _
    cases x <;> rfl

theorem errorsIs_unique (e : GoError) (s t : Sentinel)
    (hs : errorsIs e s = true) (ht : errorsIs e t = true) : s = t := by
  induction e with
  | sentinel u =>
    simp only [errorsIs, decide_eq_true_eq] at hs ht
    rw [← hs, ← ht]
  | foreign m => simp [errorsIs] at hs
  | wrapped m inner ih => exact ih hs ht
  | uniqueConstraint c inner ih => exact ih hs ht


/-! ## Lemmas on the sample JSON codec: reading back what was written -/

theorem hexValue_hexDigit (n : Nat) (h : n < 16) : hexValue (hexDigit n) = some n := by
  interval_cases n <;> decide

theorem readString_hex4 (v : Nat) (h : v < 65536) (tail : List Char) :
    readString (.hex none 0 0)
      (hexDigit (v / 4096 % 16) :: hexDigit (v / 256 % 16) :: hexDigit (v / 16 % 16) ::
        hexDigit (v % 16) :: tail) =
      (readString (.plain (unescapeU none v).2) tail).map fun (s, r) =>
        ((unescapeU none v).1 ++ s, r) := by
  have e : ((0 * 16 + v / 4096 % 16) * 16 + v / 256 % 16) * 16 + v / 16 % 16 =
      v / 16 := by omega
  have e2 : v / 16 * 16 + v % 16 = v := by omega
  simp only [readString, hexValue_hexDigit _ (Nat.mod_lt _ (by decide : 16 > 0)),
    Nat.zero_add, Nat.reduceAdd, Nat.reduceEqDiff, ↓reduceIte,
    Nat.zero_ne_one, Nat.succ_ne_self, e, e2]

theorem unescapeU_plain (v : Nat) (h : v < 0xD800) :
    unescapeU none v = ([Char.ofNat v], none) := by
  unfold unescapeU
  rw [if_neg (by omega), if_neg (by omega)]
  rfl

/-- Reading what `writeChar` wrote for a character gives the character. -/
theorem readString_writeChar (c : Char) (tail : List Char) :
    readString (.plain none) (writeChar c ++ tail) =
      (readString (.plain none) tail).map fun (s, r) => (c :: s, r) := by
  unfold writeChar
  split_ifs with h1 h2 h3 h4 h5 h6 h7 h8
  · subst h1
    simp [readString, flushPending, unescapeLetter, quoteChar, backslashChar]
  · subst h2
    simp [readString, flushPending, unescapeLetter, quoteChar, backslashChar]
  · subst h3
    simp [readString, flushPending, unescapeLetter, quoteChar, backslashChar]
  · subst h4
    simp [readString, flushPending, unescapeLetter, quoteChar, backslashChar]
  · subst h5
    simp [readString, flushPending, unescapeLetter, quoteChar, backslashChar]
  · subst h6
    simp [readString, flushPending, unescapeLetter, quoteChar, backslashChar]
  · subst h7
    simp [readString, flushPending, unescapeLetter, quoteChar, backslashChar]
  · have hv : c.toNat < 0xD800 := by
      rcases h8 with h | h | h | h | h | h
      · omega
      · subst h; decide
      · subst h; decide
      · subst h; decide
      · omega
      · omega
    have hq : backslashChar ≠ quoteChar := by decide
    simp only [List.cons_append, List.nil_append]
    rw [readString, if_neg hq, if_pos rfl, readString, if_pos rfl,
      readString_hex4 c.toNat (by omega) tail, unescapeU_plain _ hv]
    simp only [Char.ofNat_toNat, List.singleton_append]
  · have h32 : ¬ c.toNat < 32 := fun h => h8 (Or.inl h)
    simp only [List.singleton_append]
    rw [readString, if_neg h1, if_neg h2, if_neg h32]
    rfl

theorem readString_flatMap (s tail : List Char) :
    readString (.plain none) (s.flatMap writeChar ++ quoteChar :: tail) = some (s, tail) := by
  induction s with
  | nil => simp [readString, flushPending]
  | cons c s ih =>
    rw [List.flatMap_cons, List.append_assoc, readString_writeChar, ih]
    rfl

theorem readQuoted_writeString (s : String) (tail : List Char) :
    readQuoted (writeString s ++ tail) = some (s, tail) := by
  unfold writeString
  simp only [List.cons_append, List.append_assoc, List.singleton_append, readQuoted, ↓reduceIte]
  rw [readString_flatMap]
  rfl

theorem digit_isDigit (k : Nat) (h : k < 10) : (Char.ofNat (48 + k)).isDigit = true := by
  interval_cases k <;> decide

theorem digit_value (k : Nat) (h : k < 10) : (Char.ofNat (48 + k)).toNat - 48 = k := by
  interval_cases k <;> decide

theorem digit_zero (k : Nat) (h : k < 10) (h0 : Char.ofNat (48 + k) = '0') : k = 0 := by
  interval_cases k <;> first | rfl | (exact absurd h0 (by decide))

theorem digit_ne_minus (k : Nat) (h : k < 10) : Char.ofNat (48 + k) ≠ '-' := by
  interval_cases k <;> decide

theorem writeDigits_spec (fuel n : Nat) (h : n < fuel) :
    writeDigits fuel n ≠ [] ∧
    (∀ d ∈ writeDigits fuel n, d.isDigit = true ∧ d ≠ '-') ∧
    (writeDigits fuel n).foldr (fun d a => 10 * a + (d.toNat - 48)) 0 = n ∧
    ((writeDigits fuel n).getLast? = some '0' → n = 0 ∧ writeDigits fuel n = ['0']) := by
  induction fuel generalizing n with
  | zero => omega
  | succ fuel ih =>
    unfold writeDigits
    by_cases h10 : n < 10
    · rw [if_pos h10]
      refine ⟨by simp, ?_, ?_, ?_⟩
      · intro d hd
        rw [List.mem_singleton] at hd
        subst hd
        exact ⟨digit_isDigit n h10, digit_ne_minus n h10⟩
      · simp [digit_value n h10]
      · intro hl
        simp only [List.getLast?_singleton, Option.some.injEq] at hl
        have := digit_zero n h10 hl
        subst this
        exact ⟨rfl, rfl⟩
    · rw [if_neg h10]
      obtain ⟨h1, h2, h3, h4⟩ := ih (n / 10) (by omega)
      refine ⟨by simp, ?_, ?_, ?_⟩
      · intro d hd
        rcases List.mem_cons.1 hd with hd | hd
        · subst hd
          exact ⟨digit_isDigit _ (Nat.mod_lt _ (by decide)), digit_ne_minus _ (Nat.mod_lt _ (by decide))⟩
        · exact h2 d hd
      · rw [List.foldr_cons, h3, digit_value _ (Nat.mod_lt _ (by decide))]
        omega
      · intro hl
        obtain ⟨a, l, hal⟩ := List.exists_cons_of_ne_nil h1
        rw [hal, List.getLast?_cons_cons, ← hal] at hl
        have := (h4 hl).1
        omega

theorem takeWhile_append_of (p : Char → Bool) (l tail : List Char) (hl : ∀ x ∈ l, p x = true)
    (ht : ∀ c t, tail = c :: t → p c = false) :
    (l ++ tail).takeWhile p = l ∧ (l ++ tail).dropWhile p = tail := by
  induction l with
  | nil =>
    cases tail with
    | nil => simp
    | cons c t => simp [ht c t rfl]
  | cons a l ih =>
    have ha := hl a (List.mem_cons_self _ _)
    obtain ⟨i1, i2⟩ := ih (fun x hx => hl x (List.mem_cons_of_mem _ hx))
    simp [ha, i1, i2]

theorem readDigits_reverse (ds tail : List Char) (n : Nat) (hne : ds ≠ [])
    (hd : ∀ d ∈ ds, d.isDigit = true ∧ d ≠ '-')
    (hv : ds.foldr (fun d a => 10 * a + (d.toNat - 48)) 0 = n)
    (hz : ds.getLast? = some '0' → n = 0 ∧ ds = ['0'])
    (ht : ∀ c t, tail = c :: t → c.isDigit = false) :
    readDigits (ds.reverse ++ tail) = some (n, tail) := by
  obtain ⟨t1, t2⟩ := takeWhile_append_of Char.isDigit ds.reverse tail
    (fun x hx => (hd x (List.mem_reverse.1 hx)).1) ht
  unfold readDigits
  rw [t1, t2]
  cases hr : ds.reverse with
  | nil => exact absurd (List.reverse_eq_nil_iff.1 hr) hne
  | cons d r =>
    have hfold : (d :: r).foldl (fun n d => 10 * n + (d.toNat - 48)) 0 = n := by
      rw [← hr, List.foldl_reverse]; exact hv
    have hlast : ds.getLast? = some d := by
      rw [← List.reverse_reverse ds, hr, List.getLast?_reverse]; rfl
    have hcond : ¬ (d = '0' ∧ r ≠ []) := by
      rintro ⟨h0, hr0⟩
      subst h0
      have h5 := (hz hlast).2
      rw [h5] at hr
      change ['0'] = '0' :: r at hr
      exact hr0 (List.cons.inj hr).2.symm
    simp only [hcond, ↓reduceIte, hfold]

theorem readInt_writeInt (i : Int) (tail : List Char)
    (ht : ∀ c t, tail = c :: t → c.isDigit = false) :
    readInt (writeInt i ++ tail) = some (i, tail) := by
  cases i with
  | ofNat n =>
    obtain ⟨h1, h2, h3, h4⟩ := writeDigits_spec (n + 1) n (by omega)
    have hmain := readDigits_reverse _ tail n h1 h2 h3 h4 ht
    unfold writeInt
    simp only
    cases hr : (writeDigits (n + 1) n).reverse with
    | nil => exact absurd (List.reverse_eq_nil_iff.1 hr) h1
    | cons d r =>
      have hm : d ∈ writeDigits (n + 1) n := by
        rw [← List.mem_reverse, hr]; exact List.mem_cons_self _ _
      rw [hr] at hmain
      rw [List.cons_append] at hmain ⊢
      rw [readInt, if_neg (h2 d hm).2, hmain]
      rfl
  | negSucc n =>
    obtain ⟨h1, h2, h3, h4⟩ := writeDigits_spec (n + 2) (n + 1) (by omega)
    have hmain := readDigits_reverse _ tail (n + 1) h1 h2 h3 h4 ht
    unfold writeInt
    simp only [List.cons_append]
    rw [readInt, if_pos rfl, hmain]
    rfl

theorem readMember_id (p : PostJSON) (v : String) (tail : List Char) :
    readMember p (writeString "id" ++ ':' :: (writeString v ++ tail)) =
      some ({ p with id := v }, tail) := by
  simp [readMember, readQuoted_writeString]

theorem readMember_owner_login (p : PostJSON) (v : String) (tail : List Char) :
    readMember p (writeString "owner_login" ++ ':' :: (writeString v ++ tail)) =
      some ({ p with owner_login := v }, tail) := by
  simp [readMember, readQuoted_writeString]

theorem readMember_header (p : PostJSON) (v : String) (tail : List Char) :
    readMember p (writeString "header" ++ ':' :: (writeString v ++ tail)) =
      some ({ p with header := v }, tail) := by
  simp [readMember, readQuoted_writeString]

theorem readMember_text (p : PostJSON) (v : String) (tail : List Char) :
    readMember p (writeString "text" ++ ':' :: (writeString v ++ tail)) =
      some ({ p with text := v }, tail) := by
  simp [readMember, readQuoted_writeString]

theorem readMember_image_path (p : PostJSON) (v : String) (tail : List Char) :
    readMember p (writeString "image_path" ++ ':' :: (writeString v ++ tail)) =
      some ({ p with image_path := v }, tail) := by
  simp [readMember, readQuoted_writeString]

theorem readMember_price (p : PostJSON) (v : Int) (c : Char) (tail : List Char)
    (hc : c.isDigit = false) :
    readMember p (writeString "price" ++ ':' :: (writeInt v ++ c :: tail)) =
      some ({ p with price := v }, c :: tail) := by
  have h := readInt_writeInt v (c :: tail) (fun c1 t1 h1 => by cases h1; exact hc)
  simp [readMember, readQuoted_writeString, h]

theorem readMember_is_owner (p : PostJSON) (tail : List Char) :
    readMember p (writeString "is_owner" ++ ':' :: 't' :: 'r' :: 'u' :: 'e' :: tail) =
      some ({ p with is_owner := true }, tail) := by
  simp [readMember, readQuoted_writeString, dropLeading]

theorem readMembers_comma (fuel : Nat) (p q : PostJSON) (cs rest : List Char)
    (h : readMember p cs = some (q, ',' :: rest)) :
    readMembers (fuel + 1) p cs = readMembers fuel q rest := by
  simp [readMembers, h]

theorem readMembers_brace (fuel : Nat) (p q : PostJSON) (cs rest : List Char)
    (h : readMember p cs = some (q, '}' :: rest)) :
    readMembers (fuel + 1) p cs = some (q, rest) := by
  simp [readMembers, h]

theorem intercalate_one (sep a : List Char) : sep.intercalate [a] = a := by
  simp [List.intercalate, List.intersperse]

theorem intercalate_cons_cons (sep a b : List Char) (l : List (List Char)) :
    sep.intercalate (a :: b :: l) = a ++ (sep ++ sep.intercalate (b :: l)) := by
  simp [List.intercalate, List.intersperse]

theorem dropLeading_null_brace (tail : List Char) :
    dropLeading ['n', 'u', 'l', 'l'] ('{' :: tail) = none := by
  simp [dropLeading]

theorem readElement_writePost (p : PostJSON) (tail : List Char) :
    readElement (writePost p ++ tail) = some (some p, tail) := by
  rcases p with ⟨id, ol, hd, tx, ip, pr, io⟩
  have hb : ('}' : Char).isDigit = false := by decide
  have hc : (',' : Char).isDigit = false := by decide
  have ht : "true".data = ['t', 'r', 'u', 'e'] := rfl
  unfold writePost readElement
  simp only [List.cons_append]
  by_cases h1 : id = "" <;> by_cases h2 : ol = "" <;> by_cases h3 : ip = "" <;> cases io <;>
    simp only [h1, h2, h3, ↓reduceIte, Bool.false_eq_true, List.nil_append, List.append_nil,
      List.singleton_append, List.cons_append, intercalate_cons_cons, intercalate_one,
      List.append_assoc, ht] <;>
    simp only [readMembers, readMember_id, readMember_owner_login, readMember_header,
      readMember_text, readMember_image_path, readMember_price _ _ _ _ hb,
      readMember_price _ _ _ _ hc, readMember_is_owner, Option.map_some',
      dropLeading_null_brace]

theorem readElement_writeElement (e : Option PostJSON) (tail : List Char) :
    readElement (writeElement e ++ tail) = some (e, tail) := by
  cases e with
  | none => simp [writeElement, readElement, dropLeading]
  | some p => exact readElement_writePost p tail

theorem readElements_write (l : List (Option PostJSON)) (e : Option PostJSON) (fuel : Nat)
    (tail : List Char) (hf : l.length + 1 ≤ fuel) :
    readElements fuel ([','].intercalate ((e :: l).map writeElement) ++ ']' :: tail) =
      some (e :: l, tail) := by
  induction l generalizing e fuel with
  | nil =>
    obtain ⟨k, rfl⟩ : ∃ k, fuel = k + 1 := ⟨fuel - 1, by simp at hf; omega⟩
    simp [readElements, intercalate_one, readElement_writeElement]
  | cons e2 l ih =>
    obtain ⟨k, rfl⟩ : ∃ k, fuel = k + 1 := ⟨fuel - 1, by simp at hf; omega⟩
    have hk : l.length + 1 ≤ k := by simp at hf; omega
    have := ih e2 k hk
    simp only [List.map_cons] at this ⊢
    rw [intercalate_cons_cons, List.append_assoc, List.append_assoc]
    simp only [readElements, readElement_writeElement, List.singleton_append]
    rw [this]
    rfl

theorem writeElement_ne_nil (e : Option PostJSON) : writeElement e ≠ [] := by
  cases e with
  | none => simp [writeElement]
  | some p => simp [writeElement, writePost]

theorem length_le_intercalate (l : List (Option PostJSON)) :
    l.length ≤ ([','].intercalate (l.map writeElement)).length := by
  induction l with
  | nil => simp
  | cons e l ih =>
    have he := List.length_pos.2 (writeElement_ne_nil e)
    cases l with
    | nil => simp [intercalate_one]; omega
    | cons e2 l =>
      simp only [List.map_cons] at ih ⊢
      rw [intercalate_cons_cons]
      simp only [List.length_append, List.length_cons, List.length_nil] at ih ⊢
      omega

theorem writePosts_ne_nil (j : PostsJSON) : writePosts j ≠ [] := by
  cases j <;> simp [writePosts]

theorem readPosts_writePosts (j : PostsJSON) :
    readPosts (String.mk (writePosts j)) = (j, none) := by
  cases j with
  | none => rfl
  | some l =>
    cases l with
    | nil => rfl
    | cons e l =>
      have hx : [','].intercalate ((e :: l).map writeElement) ≠ [] := by
        cases l with
        | nil => simpa [intercalate_one] using writeElement_ne_nil e
        | cons e2 l =>
          simp only [List.map_cons]
          rw [intercalate_cons_cons]
          simp [writeElement_ne_nil e]
      have hlen := length_le_intercalate (e :: l)
      unfold readPosts writePosts
      have h1 : String.mk ('[' :: ([','].intercalate ((e :: l).map writeElement) ++ [']'])) ≠
          "null" := by
        intro h
        have := congrArg String.data h
        simp at this
      have h2 : String.mk ('[' :: ([','].intercalate ((e :: l).map writeElement) ++ [']'])) ≠
          "[]" := by
        intro h
        have := congrArg String.data h
        simp at this
        exact hx this
      rw [if_neg h1, if_neg h2]
      simp only
      rw [readElements_write l e _ [] (by
        simp only [String.length, List.length_cons, List.length_append, List.length_nil] at hlen ⊢
        omega)]

/-! ## Lemmas on the enrichment loop -/

theorem markOwned_rows (u : User) (rows : List entities.PostWithDocument) :
    markOwned u (rows.map fun r => some (postByEntity r)) =
      some (rows.map fun r =>
        some { postByEntity r with RequesterIsOwner := decide (r.OwnerID = u.ID) }) := by
  induction rows with
  | nil => rfl
  | cons r rows ih =>
    simp only [List.map_cons, markOwned, ih, Option.map_some']
    by_cases h : r.OwnerID = u.ID
    · have h' : (postByEntity r).OwnerID = u.ID := h
      simp [h, h']
    · have h' : ¬ (postByEntity r).OwnerID = u.ID := h
      simp only [h', ↓reduceIte, h, decide_False]
      rfl

theorem markOwned_rel (u : User) (l l' : List (Option PostWithDocument))
    (h : markOwned u l = some l') :
    List.Forall₂ (fun a b =>
      a.map (fun p => { p with RequesterIsOwner := false }) =
        b.map (fun p => { p with RequesterIsOwner := false })) l l' := by
  induction l generalizing l' with
  | nil =>
    simp only [markOwned, Option.some.injEq] at h
    subst h
    exact List.Forall₂.nil
  | cons a l ih =>
    cases a with
    | none => simp [markOwned] at h
    | some p =>
      simp only [markOwned, Option.map_eq_some'] at h
      obtain ⟨rest, hrest, hl'⟩ := h
      subst hl'
      refine List.Forall₂.cons ?_ (ih rest hrest)
      by_cases hp : p.OwnerID = u.ID <;> simp [hp]

theorem enrich_rel (rq : Option User) (posts posts' : Posts) (h : enrich rq posts = some posts') :
    (posts = none → posts' = none) ∧
    (∀ l, posts = some l → ∃ l', posts' = some l' ∧
      List.Forall₂ (fun a b =>
        a.map (fun p => { p with RequesterIsOwner := false }) =
          b.map (fun p => { p with RequesterIsOwner := false })) l l') := by
  cases rq with
  | none =>
    simp only [enrich, Option.some.injEq] at h
    subst h
    refine ⟨fun h => h, fun l hl => ⟨l, hl, ?_⟩⟩
    exact List.forall₂_same.2 (fun _ _ => rfl)
  | some u =>
    cases posts with
    | none =>
      simp only [enrich, Option.some.injEq] at h
      subst h
      exact ⟨fun _ => rfl, fun l hl => by cases hl⟩
    | some l =>
      simp only [enrich, Option.map_eq_some'] at h
      obtain ⟨l', hl', hp⟩ := h
      subst hp
      refine ⟨fun h => (by cases h), fun l0 hl0 => ?_⟩
      cases hl0
      exact ⟨l', rfl, markOwned_rel u l l' hl'⟩


/-! ## Claims on `AddPost` and `FilteredPosts` -/

/-- Claim C11. For a present requester whose ID is empty and a draft that passes
validation (and carries its document), `AddPost` returns no post and
`ErrUserNotFound`, and calls neither `SaveFile` nor the relational insert nor
`DeleteFile`. -/
theorem addPost_empty_requester_id (ps : PostService) (fresh : Fresh) (rq : User)
    (post : PostWithDocument) (file : Reader) (out : AddPostOutcome)
    (hv : ValidatePost post = none) (hdoc : post.Document ≠ none) (hid : rq.ID = "")
    (hout : ps.addPost fresh (some rq) post file = out) :
    out.result = none ∧
    out.err = some (.sentinel .ErrUserNotFound) ∧
    out.calls = [] ∧
    out.panicked = false := by
  subst hout
  obtain ⟨doc, hdoc⟩ := Option.ne_none_iff_exists'.1 hdoc
  obtain ⟨h1, h2, h3, h4⟩ := addPost_noID ps fresh rq post file hv doc hdoc hid
  exact ⟨h2, h3, h1, h4⟩

/-- Claim C12 fails as stated. Two requesters with different user IDs and the same
login are looked up under the same cache key. -/
theorem cacheKey_same_login_counterexample :
    twinUserA.ID ≠ twinUserB.ID ∧
    ReadCall.Get "posts:test1:10:0:price:desc:100:200" ∈
      (mocksCacheMiss.filteredPosts sampleJSON 10 0 (some testReadFilter) (some twinUserA)).calls ∧
    ReadCall.Get "posts:test1:10:0:price:desc:100:200" ∈
      (mocksCacheMiss.filteredPosts sampleJSON 10 0 (some testReadFilter) (some twinUserB)).calls := by
  decide

/-- Claim C12, as amended. For every limit, offset and filter and any two requesters
(each possibly absent) whose logins differ, or of whom one is present and the
other absent, the keys that `FilteredPosts` looks up in the cache are different. -/
theorem filteredPosts_keys_differ (ps1 ps2 : PostService) (json1 json2 : EncodingJSON)
    (limit offset : Int) (filter : Option PostsFilter) (r1 r2 : Option User) (k1 k2 : String)
    (h : r1.map User.Login ≠ r2.map User.Login)
    (h1 : ReadCall.Get k1 ∈ (ps1.filteredPosts json1 limit offset filter r1).calls)
    (h2 : ReadCall.Get k2 ∈ (ps2.filteredPosts json2 limit offset filter r2).calls) :
    k1 ≠ k2 := by
  obtain ⟨f1, hf1, hk1⟩ := filteredPosts_get_mem ps1 json1 limit offset filter r1 k1 h1
  obtain ⟨f2, hf2, hk2⟩ := filteredPosts_get_mem ps2 json2 limit offset filter r2 k2 h2
  subst hf1
  cases hf2
  rw [hk1, hk2]
  exact cacheKey_ne r1 r2 limit offset f1 h

/-- Claim C16. When `cache.Get` returned a non-empty value with no error,
`FilteredPosts` makes no other call (neither the store query nor `cache.Set`);
it returns exactly the posts of `JSONToPosts(value)` with no error when the value
decodes, and no posts with `ErrInternal` when it does not. -/
theorem filteredPosts_cache_hit (ps : PostService) (json : EncodingJSON) (limit offset : Int)
    (filter : Option PostsFilter) (rq : Option User) (out : FilteredPostsOutcome)
    (hout : ps.filteredPosts json limit offset filter rq = out)
    (k v : String) (hcall : ReadCall.Get k ∈ out.calls) (hget : ps.Get k = (v, none))
    (hv : v ≠ "") :
    out.calls = [ReadCall.Get k] ∧
    out.panicked = false ∧
    ((JSONToPosts json v).2 = none → out.posts = (JSONToPosts json v).1 ∧ out.err = none) ∧
    ((JSONToPosts json v).2 ≠ none →
      out.posts = none ∧ out.err = some (.sentinel .ErrInternal)) := by
  subst hout
  obtain ⟨f, hf, hk⟩ := filteredPosts_get_mem ps json limit offset filter rq k hcall
  subst hf hk
  rw [filteredPosts_hit ps json limit offset f rq v hget hv]
  rcases hj : JSONToPosts json v with ⟨p, _ | e⟩ <;> simp

theorem filteredPosts_query_mem (ps : PostService) (json : EncodingJSON) (limit offset : Int)
    (filter : Option PostsFilter) (rq : Option User) (l o : Int) (fl : Option PostsFilter)
    (hcall : ReadCall.Query l o fl ∈ (ps.filteredPosts json limit offset filter rq).calls) :
    ∃ f v e0, filter = some f ∧ l = limit ∧ o = offset ∧ fl = some f ∧
      ps.Get (cacheKey rq limit offset f) = (v, e0) ∧ (e0 ≠ none ∨ v = "") := by
  cases filter with
  | none =>
    rw [filteredPosts_nil_filter] at hcall
    simp at hcall
  | some f =>
    rcases hget : ps.Get (cacheKey rq limit offset f) with ⟨v, e0⟩
    by_cases hmiss : e0 ≠ none ∨ v = ""
    · refine ⟨f, v, e0, rfl, ?_, ?_, ?_, hget, hmiss⟩ <;>
        rcases filteredPosts_calls ps json limit offset f rq with hc | hc | ⟨w, hc⟩ <;>
        rw [hc] at hcall <;> simp at hcall <;> simp [hcall]
    · have he : e0 = none := by
        by_contra h
        exact hmiss (Or.inl h)
      have hv : v ≠ "" := fun h => hmiss (Or.inr h)
      subst he
      rw [filteredPosts_hit ps json limit offset f rq v hget hv] at hcall
      rcases hj : JSONToPosts json v with ⟨p, _ | e1⟩ <;> rw [hj] at hcall <;> simp at hcall

/-- Claim C18. On a cache miss, when the store query returned an error,
`FilteredPosts` returns no posts and `ErrPostNotFound` if the error is or wraps
`ErrPostNotFound`, `ErrInvalidFilter` if it is or wraps `ErrInvalidFilter`, and
`ErrInternal` otherwise; `cache.Set` is not called. -/
theorem filteredPosts_store_error (ps : PostService) (json : EncodingJSON) (limit offset : Int)
    (filter : Option PostsFilter) (rq : Option User) (out : FilteredPostsOutcome)
    (hout : ps.filteredPosts json limit offset filter rq = out)
    (l o : Int) (fl : Option PostsFilter) (x : Posts) (e : GoError)
    (hcall : ReadCall.Query l o fl ∈ out.calls) (hfail : ps.FilteredPosts l o fl = (x, some e)) :
    out.posts = none ∧
    (errorsIs e .ErrPostNotFound = true → out.err = some (.sentinel .ErrPostNotFound)) ∧
    (errorsIs e .ErrInvalidFilter = true → out.err = some (.sentinel .ErrInvalidFilter)) ∧
    (errorsIs e .ErrPostNotFound = false → errorsIs e .ErrInvalidFilter = false →
      out.err = some (.sentinel .ErrInternal)) ∧
    (∀ k v, ReadCall.Set k v ∉ out.calls) ∧
    out.panicked = false := by
  subst hout
  obtain ⟨f, v, e0, rfl, rfl, rfl, rfl, hget, hmiss⟩ :=
    filteredPosts_query_mem ps json limit offset filter rq l o fl hcall
  rw [filteredPosts_miss ps json l o f rq v e0 hget hmiss, hfail]
  refine ⟨rfl, ?_, ?_, ?_, ?_, rfl⟩
  · intro h1
    simp [h1]
  · intro h2
    have h1 : errorsIs e .ErrPostNotFound = false := by
      by_contra h
      have := errorsIs_unique e _ _ (by simpa using h) h2
      cases this
    simp [h1, h2]
  · intro h1 h2
    simp [h1, h2]
  · intro k w
    simp


theorem filteredPosts_miss_ok (ps : PostService) (json : EncodingJSON) (limit offset : Int)
    (f : PostsFilter) (rq : Option User) (v : String) (e : Option GoError)
    (hget : ps.Get (cacheKey rq limit offset f) = (v, e)) (hmiss : e ≠ none ∨ v = "")
    (store posts : Posts) (hq : ps.FilteredPosts limit offset (some f) = (store, none))
    (hen : enrich rq store = some posts) :
    (ps.filteredPosts json limit offset (some f) rq).posts = posts ∧
    (ps.filteredPosts json limit offset (some f) rq).err = none ∧
    (ps.filteredPosts json limit offset (some f) rq).panicked = false ∧
    (∀ w, PostsToJSON json posts = (w, none) →
      (ps.filteredPosts json limit offset (some f) rq).calls =
        [.Get (cacheKey rq limit offset f), .Query limit offset (some f),
          .Set (cacheKey rq limit offset f) w]) ∧
    ((PostsToJSON json posts).2 ≠ none →
      (ps.filteredPosts json limit offset (some f) rq).calls =
        [.Get (cacheKey rq limit offset f), .Query limit offset (some f)]) := by
  rw [filteredPosts_miss ps json limit offset f rq v e hget hmiss, hq]
  simp only [hen]
  rcases hj : PostsToJSON json posts with ⟨w, _ | e2⟩ <;> simp

theorem filteredPosts_miss_panic (ps : PostService) (json : EncodingJSON) (limit offset : Int)
    (f : PostsFilter) (rq : Option User) (v : String) (e : Option GoError)
    (hget : ps.Get (cacheKey rq limit offset f) = (v, e)) (hmiss : e ≠ none ∨ v = "")
    (store : Posts) (hq : ps.FilteredPosts limit offset (some f) = (store, none))
    (hen : enrich rq store = none) :
    ps.filteredPosts json limit offset (some f) rq =
      { posts := none, err := none,
        calls := [.Get (cacheKey rq limit offset f), .Query limit offset (some f)],
        panicked := true } := by
  rw [filteredPosts_miss ps json limit offset f rq v e hget hmiss, hq]
  simp only [hen]

/-- Claim C13. On the miss path, when the store returns the posts of its rows (as
`PostsByEntities` builds them), `FilteredPosts` returns, for every requester, one
post per row in the order of the rows, and each has `RequesterIsOwner = true`
exactly when the requester is present and its ID equals the post's `OwnerID`. -/
theorem filteredPosts_ownership_flags (ps : PostService) (json : EncodingJSON)
    (limit offset : Int) (filter : Option PostsFilter) (rq : Option User)
    (out : FilteredPostsOutcome) (hout : ps.filteredPosts json limit offset filter rq = out)
    (l o : Int) (fl : Option PostsFilter) (rows : List entities.PostWithDocument)
    (hcall : ReadCall.Query l o fl ∈ out.calls)
    (hstore : ps.FilteredPosts l o fl = (PostsByEntities rows, none)) :
    out.err = none ∧ out.panicked = false ∧
    ∃ posts, out.posts = some posts ∧
      List.Forall₂ (fun row x => ∃ p, x = some p ∧ p.ID = row.ID ∧ p.OwnerID = row.OwnerID ∧
        (p.RequesterIsOwner = true ↔ ∃ u, rq = some u ∧ u.ID = p.OwnerID)) rows posts := by
  subst hout
  obtain ⟨f, v, e0, rfl, rfl, rfl, rfl, hget, hmiss⟩ :=
    filteredPosts_query_mem ps json limit offset filter rq l o fl hcall
  cases rq with
  | none =>
    obtain ⟨h1, h2, h3, -, -⟩ := filteredPosts_miss_ok ps json l o f none v e0 hget hmiss
      (PostsByEntities rows) (PostsByEntities rows) hstore rfl
    refine ⟨h2, h3, _, h1, ?_⟩
    rw [List.forall₂_map_right_iff]
    exact List.forall₂_same.2 fun r _ => ⟨_, rfl, rfl, rfl, by simp [postByEntity]⟩
  | some u =>
    have hen : enrich (some u) (PostsByEntities rows) = some (some (rows.map fun r =>
        some { postByEntity r with RequesterIsOwner := decide (r.OwnerID = u.ID) })) := by
      simp only [enrich, PostsByEntities, markOwned_rows, Option.map_some']
    obtain ⟨h1, h2, h3, -, -⟩ := filteredPosts_miss_ok ps json l o f (some u) v e0 hget hmiss
      (PostsByEntities rows) _ hstore hen
    refine ⟨h2, h3, _, h1, ?_⟩
    rw [List.forall₂_map_right_iff]
    refine List.forall₂_same.2 fun r _ => ⟨_, rfl, rfl, rfl, ?_⟩
    simp only [decide_eq_true_eq, Option.some.injEq, exists_eq_left']
    exact ⟨fun h => h.symm, fun h => h.symm⟩


theorem filteredPosts_miss_result (ps : PostService) (json : EncodingJSON) (limit offset : Int)
    (f : PostsFilter) (rq : Option User) (v : String) (e : Option GoError)
    (hget : ps.Get (cacheKey rq limit offset f) = (v, e)) (hmiss : e ≠ none ∨ v = "") :
    (ps.filteredPosts json limit offset (some f) rq).posts =
      (match ps.FilteredPosts limit offset (some f) with
        | (_, some _) => none
        | (store, none) => (enrich rq store).getD none) ∧
    (ps.filteredPosts json limit offset (some f) rq).err =
      (match ps.FilteredPosts limit offset (some f) with
        | (_, some err) => some (.sentinel
            (if errorsIs err .ErrPostNotFound then .ErrPostNotFound
              else if errorsIs err .ErrInvalidFilter then .ErrInvalidFilter
              else .ErrInternal))
        | (_, none) => none) ∧
    (ps.filteredPosts json limit offset (some f) rq).panicked =
      (match ps.FilteredPosts limit offset (some f) with
        | (_, some _) => false
        | (store, none) => (enrich rq store).isNone) ∧
    (ps.filteredPosts json limit offset (some f) rq).calls.count
      (ReadCall.Query limit offset (some f)) = 1 ∧
    (∀ l o fl, ReadCall.Query l o fl ∈ (ps.filteredPosts json limit offset (some f) rq).calls →
      l = limit ∧ o = offset ∧ fl = some f) := by
  rw [filteredPosts_miss ps json limit offset f rq v e hget hmiss]
  rcases hq : ps.FilteredPosts limit offset (some f) with ⟨store, _ | err⟩
  · simp only
    cases hen : enrich rq store with
    | none => simp
    | some posts =>
      simp only
      rcases hj : PostsToJSON json posts with ⟨w, _ | e2⟩ <;> simp
  · simp

/-- Claim C17. A cache lookup error and an empty cached value are treated alike:
in both cases `FilteredPosts` queries the store exactly once, with the caller's
limit, offset and filter, and for the same store response it returns the same
posts and the same error (and panics alike), so the lookup error itself is not
what is returned. -/
theorem filteredPosts_lookup_error_as_empty (ps1 ps2 : PostService) (json1 json2 : EncodingJSON)
    (limit offset : Int) (f : PostsFilter) (rq : Option User) (v1 : String) (e1 : GoError)
    (h1 : ps1.Get (cacheKey rq limit offset f) = (v1, some e1))
    (h2 : ps2.Get (cacheKey rq limit offset f) = ("", none))
    (hq : ps1.FilteredPosts limit offset (some f) = ps2.FilteredPosts limit offset (some f)) :
    (ps1.filteredPosts json1 limit offset (some f) rq).posts =
      (ps2.filteredPosts json2 limit offset (some f) rq).posts ∧
    (ps1.filteredPosts json1 limit offset (some f) rq).err =
      (ps2.filteredPosts json2 limit offset (some f) rq).err ∧
    (ps1.filteredPosts json1 limit offset (some f) rq).panicked =
      (ps2.filteredPosts json2 limit offset (some f) rq).panicked ∧
    (ps1.filteredPosts json1 limit offset (some f) rq).calls.count
      (ReadCall.Query limit offset (some f)) = 1 ∧
    (ps2.filteredPosts json2 limit offset (some f) rq).calls.count
      (ReadCall.Query limit offset (some f)) = 1 ∧
    (∀ l o fl,
      ReadCall.Query l o fl ∈ (ps1.filteredPosts json1 limit offset (some f) rq).calls ∨
      ReadCall.Query l o fl ∈ (ps2.filteredPosts json2 limit offset (some f) rq).calls →
      l = limit ∧ o = offset ∧ fl = some f) := by
  obtain ⟨a1, a2, a3, a4, a5⟩ := filteredPosts_miss_result ps1 json1 limit offset f rq v1
    (some e1) h1 (Or.inl (by simp))
  obtain ⟨b1, b2, b3, b4, b5⟩ := filteredPosts_miss_result ps2 json2 limit offset f rq ""
    none h2 (Or.inr rfl)
  refine ⟨?_, ?_, ?_, a4, b4, ?_⟩
  · rw [a1, b1, hq]
  · rw [a2, b2, hq]
  · rw [a3, b3, hq]
  · rintro l o fl (h | h)
    · exact a5 l o fl h
    · exact b5 l o fl h

/-- Claim C19. On a cache miss with a successful store query (and no panic in the
enrichment loop) `FilteredPosts` returns a nil error and the store's slice, of the
same length and in the same order, with at most the ownership flags changed; the
posts and the error are the same whatever `cache.Set` returns and whether or not
the serialisation succeeds. -/
theorem filteredPosts_set_failure_ignored (ps : PostService) (json : EncodingJSON)
    (limit offset : Int) (filter : Option PostsFilter) (rq : Option User)
    (out : FilteredPostsOutcome) (hout : ps.filteredPosts json limit offset filter rq = out)
    (l o : Int) (fl : Option PostsFilter) (store : Posts)
    (hcall : ReadCall.Query l o fl ∈ out.calls)
    (hstore : ps.FilteredPosts l o fl = (store, none)) (hret : out.panicked = false) :
    out.err = none ∧
    (store = none → out.posts = none) ∧
    (∀ posts, store = some posts → ∃ posts', out.posts = some posts' ∧
      List.Forall₂ (fun a b =>
        a.map (fun p => { p with RequesterIsOwner := false }) =
          b.map (fun p => { p with RequesterIsOwner := false })) posts posts') ∧
    (∀ (set : String → String → Option GoError) (json' : EncodingJSON),
      ({ ps with Set := set }.filteredPosts json' limit offset filter rq).posts = out.posts ∧
      ({ ps with Set := set }.filteredPosts json' limit offset filter rq).err = out.err ∧
      ({ ps with Set := set }.filteredPosts json' limit offset filter rq).panicked = false) := by
  subst hout
  obtain ⟨f, v, e0, rfl, rfl, rfl, rfl, hget, hmiss⟩ :=
    filteredPosts_query_mem ps json limit offset filter rq l o fl hcall
  cases hen : enrich rq store with
  | none =>
    rw [filteredPosts_miss_panic ps json l o f rq v e0 hget hmiss store hstore hen] at hret
    cases hret
  | some posts1 =>
    obtain ⟨h1, h2, h3, -, -⟩ :=
      filteredPosts_miss_ok ps json l o f rq v e0 hget hmiss store posts1 hstore hen
    obtain ⟨r1, r2⟩ := enrich_rel rq store posts1 hen
    refine ⟨h2, ?_, ?_, ?_⟩
    · intro hs
      rw [h1]
      exact r1 hs
    · intro posts hs
      rw [h1]
      exact r2 posts hs
    · intro set json'
      obtain ⟨g1, g2, g3, -, -⟩ :=
        filteredPosts_miss_ok { ps with Set := set } json' l o f rq v e0 hget hmiss store posts1
          hstore hen
      exact ⟨by rw [g1, h1], by rw [g2, h2], g3⟩

theorem filteredPosts_set_mem (ps : PostService) (json : EncodingJSON)
    (limit offset : Int) (filter : Option PostsFilter) (rq : Option User) (k w : String)
    (hset : ReadCall.Set k w ∈ (ps.filteredPosts json limit offset filter rq).calls) :
    ∃ f store, filter = some f ∧ k = cacheKey rq limit offset f ∧
      (ps.filteredPosts json limit offset filter rq).calls =
        [ReadCall.Get k, ReadCall.Query limit offset filter, ReadCall.Set k w] ∧
      ((ps.Get k).2 ≠ none ∨ (ps.Get k).1 = "") ∧
      PostsToJSON json (ps.filteredPosts json limit offset filter rq).posts = (w, none) ∧
      ps.FilteredPosts limit offset filter = (store, none) ∧
      enrich rq store = some (ps.filteredPosts json limit offset filter rq).posts ∧
      (ps.filteredPosts json limit offset filter rq).err = none ∧
      (ps.filteredPosts json limit offset filter rq).panicked = false := by
  cases filter with
  | none =>
    rw [filteredPosts_nil_filter] at hset
    simp at hset
  | some f =>
    rcases hget : ps.Get (cacheKey rq limit offset f) with ⟨v, e0⟩
    by_cases hmiss : e0 ≠ none ∨ v = ""
    · rcases hq : ps.FilteredPosts limit offset (some f) with ⟨store, _ | err⟩
      · cases hen : enrich rq store with
        | none =>
          rw [filteredPosts_miss_panic ps json limit offset f rq v e0 hget hmiss store hq
            hen] at hset
          simp at hset
        | some posts1 =>
          obtain ⟨h1, h2, h3, h4, h5⟩ :=
            filteredPosts_miss_ok ps json limit offset f rq v e0 hget hmiss store posts1 hq hen
          rcases hj : PostsToJSON json posts1 with ⟨w1, _ | e2⟩
          · have hc := h4 w1 hj
            rw [hc] at hset
            simp at hset
            obtain ⟨rfl, rfl⟩ := hset
            refine ⟨f, store, rfl, rfl, hc, ?_, ?_, rfl, ?_, h2, h3⟩
            · rw [hget]
              exact hmiss
            · rw [h1, hj]
            · rw [h1, hen]
          · have hc := h5 (by rw [hj]; simp)
            rw [hc] at hset
            simp at hset
      · rw [filteredPosts_miss ps json limit offset f rq v e0 hget hmiss, hq] at hset
        simp at hset
    · have he : e0 = none := by
        by_contra h
        exact hmiss (Or.inl h)
      have hv : v ≠ "" := fun h => hmiss (Or.inr h)
      subst he
      rw [filteredPosts_hit ps json limit offset f rq v hget hv] at hset
      rcases hj : JSONToPosts json v with ⟨p, _ | e1⟩ <;> rw [hj] at hset <;> simp at hset

/-- Claim C20. The key that `FilteredPosts` looks up is
`posts:<login>:<limit>:<offset>:<SortBy>:<SortOrder>:<MinPrice>:<MaxPrice>` for a
present requester and `posts:<limit>:<offset>:<SortBy>:<SortOrder>:<MinPrice>:<MaxPrice>`
for an absent one, numbers in decimal; and whenever `cache.Set` is called, it is
after a miss, with the key that was looked up and with the text that `PostsToJSON`
gives for the returned (enriched) posts. -/
theorem filteredPosts_cache_key (ps : PostService) (json : EncodingJSON)
    (limit offset : Int) (filter : Option PostsFilter) (rq : Option User)
    (out : FilteredPostsOutcome) (hout : ps.filteredPosts json limit offset filter rq = out) :
    (∀ k, ReadCall.Get k ∈ out.calls → ∃ f, filter = some f ∧
      (∀ r, rq = some r →
        k = "posts:" ++ r.Login ++ ":" ++ toString limit ++ ":" ++ toString offset ++ ":"
          ++ f.SortBy ++ ":" ++ f.SortOrder ++ ":" ++ toString f.MinPrice ++ ":"
          ++ toString f.MaxPrice) ∧
      (rq = none →
        k = "posts:" ++ toString limit ++ ":" ++ toString offset ++ ":"
          ++ f.SortBy ++ ":" ++ f.SortOrder ++ ":" ++ toString f.MinPrice ++ ":"
          ++ toString f.MaxPrice)) ∧
    (∀ k w, ReadCall.Set k w ∈ out.calls →
      out.calls = [ReadCall.Get k, ReadCall.Query limit offset filter, ReadCall.Set k w] ∧
      ((ps.Get k).2 ≠ none ∨ (ps.Get k).1 = "") ∧
      PostsToJSON json out.posts = (w, none) ∧
      ∃ store, ps.FilteredPosts limit offset filter = (store, none) ∧
        enrich rq store = some out.posts) ∧
    (∀ k store w, ReadCall.Query limit offset filter ∈ out.calls → ReadCall.Get k ∈ out.calls →
      ps.FilteredPosts limit offset filter = (store, none) → out.panicked = false →
      PostsToJSON json out.posts = (w, none) → ReadCall.Set k w ∈ out.calls) := by
  subst hout
  refine ⟨?_, ?_, ?_⟩
  · intro k hk
    obtain ⟨f, hf, hkey⟩ := filteredPosts_get_mem ps json limit offset filter rq k hk
    refine ⟨f, hf, ?_, ?_⟩
    · intro r hr
      subst hr
      rw [hkey]
      rfl
    · intro hr
      subst hr
      rw [hkey]
      rfl
  · intro k w hset
    obtain ⟨f, store, -, -, hc, hm, hj, hq, hen, -, -⟩ :=
      filteredPosts_set_mem ps json limit offset filter rq k w hset
    exact ⟨hc, hm, hj, store, hq, hen⟩
  · intro k store w hqc hk hq hret hj
    obtain ⟨f, v, e0, rfl, -, -, -, hget, hmiss⟩ :=
      filteredPosts_query_mem ps json limit offset filter rq limit offset filter hqc
    obtain ⟨f', hf', hkey⟩ := filteredPosts_get_mem ps json limit offset (some f) rq k hk
    cases hf'
    cases hen : enrich rq store with
    | none =>
      rw [filteredPosts_miss_panic ps json limit offset f rq v e0 hget hmiss store hq hen] at hret
      cases hret
    | some posts1 =>
      obtain ⟨h1, -, -, h4, -⟩ :=
        filteredPosts_miss_ok ps json limit offset f rq v e0 hget hmiss store posts1 hq hen
      rw [h1] at hj
      rw [h4 w hj, hkey]
      simp

/-- Claim C14. With the JSON codec: when a first call of `FilteredPosts` has
written the text `v` to the cache, `v` is what `json.Marshal` writes for the posts
that call returned and is not empty; a second call with the same arguments whose
lookup returns `v` makes no other call, returns no error, and returns a slice of
the same length in which, at every index, the post ID and the `RequesterIsOwner`
flag are those of the first call's result. -/
theorem filteredPosts_second_call_hit (ps1 ps2 : PostService)
    (limit offset : Int) (filter : Option PostsFilter) (rq : Option User)
    (out1 out2 : FilteredPostsOutcome)
    (hout1 : ps1.filteredPosts sampleJSON limit offset filter rq = out1)
    (hout2 : ps2.filteredPosts sampleJSON limit offset filter rq = out2)
    (k v : String) (hset : ReadCall.Set k v ∈ out1.calls) (hget : ps2.Get k = (v, none)) :
    v ≠ "" ∧
    sampleJSON.Marshal (Posts.toJSON out1.posts) = (v, none) ∧
    out2.calls = [ReadCall.Get k] ∧ out2.err = none ∧ out2.panicked = false ∧
    (out1.posts = none → out2.posts = none) ∧
    (∀ posts1, out1.posts = some posts1 → ∃ posts2, out2.posts = some posts2 ∧
      posts2.length = posts1.length ∧
      List.Forall₂ (fun a b =>
        a.map (fun p => (p.ID, p.RequesterIsOwner)) =
          b.map (fun p => (p.ID, p.RequesterIsOwner))) posts1 posts2) := by
  subst hout1 hout2
  obtain ⟨f, store, rfl, rfl, -, -, hj, -, -, -, -⟩ :=
    filteredPosts_set_mem ps1 sampleJSON limit offset filter rq k v hset
  have hm := (PostsToJSON_ok sampleJSON _ v).1 hj
  have hv : v = String.mk (writePosts (Posts.toJSON
      (ps1.filteredPosts sampleJSON limit offset (some f) rq).posts)) :=
    (congrArg Prod.fst hm).symm
  have hne : v ≠ "" := by
    rw [hv]
    intro h
    exact writePosts_ne_nil _ (congrArg String.data h)
  have hread : sampleJSON.Unmarshal v =
      (Posts.toJSON (ps1.filteredPosts sampleJSON limit offset (some f) rq).posts, none) := by
    rw [hv]
    exact readPosts_writePosts _
  have hdec := JSONToPosts_of_read sampleJSON v _ hne hread
  rw [Posts_ofJSON_toJSON] at hdec
  rw [filteredPosts_hit ps2 sampleJSON limit offset f rq v hget hne, hdec]
  refine ⟨hne, hm, rfl, rfl, rfl, ?_, ?_⟩
  · intro h
    simp only [h, Option.map_none']
  · intro posts1 h
    simp only [h, Option.map_some']
    refine ⟨_, rfl, by simp, ?_⟩
    rw [List.forall₂_map_right_iff]
    refine List.forall₂_same.2 fun a _ => ?_
    cases a <;> rfl

/-- Claim C15, as amended. With the JSON codec, for every slice of posts
`PostsToJSON` returns no error and a text that is not empty, and `JSONToPosts` of
that text returns no error and the posts with `OwnerID`, `CreatedAt` and
`Document` (the fields tagged `json:"-"`) reset to their zero values; so the slice
is again nil or of the same length, nil where it was nil, and the fields `ID`,
`OwnerLogin`, `Header`, `Text`, `PathToImage`, `Price` and `RequesterIsOwner` of
every post are those of the original post. -/
theorem JSONToPosts_PostsToJSON (posts : Posts) :
    (PostsToJSON sampleJSON posts).2 = none ∧
    (PostsToJSON sampleJSON posts).1 ≠ "" ∧
    JSONToPosts sampleJSON (PostsToJSON sampleJSON posts).1 =
      (posts.map (List.map (Option.map fun p =>
        { p with OwnerID := "", CreatedAt := 0, Document := none })), none) := by
  have h1 : PostsToJSON sampleJSON posts = (String.mk (writePosts posts.toJSON), none) :=
    (PostsToJSON_ok sampleJSON posts _).2 rfl
  have hne : String.mk (writePosts posts.toJSON) ≠ "" := fun h =>
    writePosts_ne_nil _ (congrArg String.data h)
  rw [h1]
  refine ⟨rfl, hne, ?_⟩
  rw [JSONToPosts_of_read sampleJSON _ _ hne (readPosts_writePosts _), Posts_ofJSON_toJSON]

/-- Claim C15 fails as stated. The posts of the test rows come back from
`JSONToPosts(PostsToJSON(...))` without their owner ID, creation time and
document: with the sample codec the result differs from the original slice, and
no behaviour of the JSON library could make it equal. -/
theorem JSONToPosts_PostsToJSON_counterexample :
    (PostsToJSON sampleJSON (PostsByEntities testRows)).2 = none ∧
    (JSONToPosts sampleJSON (PostsToJSON sampleJSON (PostsByEntities testRows)).1).2 = none ∧
    (JSONToPosts sampleJSON (PostsToJSON sampleJSON (PostsByEntities testRows)).1).1
      ≠ PostsByEntities testRows ∧
    ¬ ∃ json : EncodingJSON,
      JSONToPosts json (PostsToJSON json (PostsByEntities testRows)).1
        = (PostsByEntities testRows, none) := by
  refine ⟨by decide, by decide, by decide, ?_⟩
  rintro ⟨json, h⟩
  unfold JSONToPosts at h
  split_ifs at h with h0
  · cases h
  · rcases hu : json.Unmarshal (PostsToJSON json (PostsByEntities testRows)).1 with ⟨x, _ | e⟩
    · rw [hu] at h
      simp only [Prod.mk.injEq, and_true] at h
      rcases x with _ | l
      · cases h
      · rcases l with _ | ⟨y, l⟩
        · cases h
        · rcases y with _ | j
          · cases h
          · have h2 := congrArg (fun (q : Posts) =>
              q.bind fun l => (l.head?.bind id).map PostWithDocument.OwnerID) h
            simp [Posts.ofJSON, PostWithDocument.ofJSON, PostsByEntities, testRows,
              postByEntity] at h2
    · rw [hu] at h
      cases h


/-! ## Witnesses -/

/-- The draft of the tests and a requester without ID meet the hypotheses of C11. -/
theorem addPost_empty_requester_id_witness :
    ValidatePost testPost = none ∧ testPost.Document ≠ none ∧ testRequesterNoID.ID = "" ∧
    (mocksSuccess.addPost testFresh (some testRequesterNoID) testPost []).err
      = some (.sentinel .ErrUserNotFound) :=
  ⟨by decide, by decide, rfl,
    (addPost_empty_requester_id mocksSuccess testFresh testRequesterNoID testPost [] _
      (by decide) (by decide) rfl rfl).2.1⟩

/-- The requester of the tests and the absent requester are looked up under
different keys. -/
theorem filteredPosts_keys_differ_witness :
    (some testReader).map User.Login ≠ (none : Option User).map User.Login ∧
    ReadCall.Get "posts:test1:10:0:price:desc:100:200" ∈
      (mocksCacheMiss.filteredPosts sampleJSON 10 0 (some testReadFilter) (some testReader)).calls ∧
    ReadCall.Get "posts:10:0:price:desc:100:200" ∈
      (mocksCacheMiss.filteredPosts sampleJSON 10 0 (some testReadFilter) none).calls ∧
    "posts:test1:10:0:price:desc:100:200" ≠ "posts:10:0:price:desc:100:200" :=
  ⟨by decide, by decide, by decide,
    filteredPosts_keys_differ mocksCacheMiss mocksCacheMiss sampleJSON sampleJSON 10 0
      (some testReadFilter) (some testReader) none _ _ (by decide) (by decide) (by decide)⟩

/-- With the mocks of `TestFilteredPosts_CacheMissSuccess` the store is queried and
its rows come back flagged for the requester. -/
theorem filteredPosts_ownership_flags_witness :
    ReadCall.Query 10 0 (some testReadFilter) ∈
      (mocksCacheMiss.filteredPosts sampleJSON 10 0 (some testReadFilter) (some testReader)).calls ∧
    mocksCacheMiss.FilteredPosts 10 0 (some testReadFilter) = (PostsByEntities testRows, none) ∧
    (mocksCacheMiss.filteredPosts sampleJSON 10 0 (some testReadFilter) (some testReader)).err
      = none :=
  ⟨by decide, rfl,
    (filteredPosts_ownership_flags mocksCacheMiss sampleJSON 10 0 (some testReadFilter)
      (some testReader) _ rfl 10 0 (some testReadFilter) testRows (by decide) rfl).1⟩

/-- The miss of `TestFilteredPosts_CacheMissSuccess` writes `testCachedText`; a
second call that finds it takes the hit path. -/
theorem filteredPosts_second_call_hit_witness :
    ReadCall.Set "posts:test1:10:0:price:desc:100:200" testCachedText ∈
      (mocksCacheMiss.filteredPosts sampleJSON 10 0 (some testReadFilter) (some testReader)).calls ∧
    mocksCacheHit.Get "posts:test1:10:0:price:desc:100:200" = (testCachedText, none) ∧
    testCachedText ≠ "" ∧
    (mocksCacheHit.filteredPosts sampleJSON 10 0 (some testReadFilter) (some testReader)).calls
      = [ReadCall.Get "posts:test1:10:0:price:desc:100:200"] :=
  ⟨by decide, rfl,
    (filteredPosts_second_call_hit mocksCacheMiss mocksCacheHit 10 0
      (some testReadFilter) (some testReader) _ _ rfl rfl
      "posts:test1:10:0:price:desc:100:200" testCachedText (by decide) rfl).1,
    (filteredPosts_second_call_hit mocksCacheMiss mocksCacheHit 10 0
      (some testReadFilter) (some testReader) _ _ rfl rfl
      "posts:test1:10:0:price:desc:100:200" testCachedText (by decide) rfl).2.2.1⟩

/-- With a cache that holds `testCachedText` the lookup is the only call. -/
theorem filteredPosts_cache_hit_witness :
    ReadCall.Get "posts:test1:10:0:price:desc:100:200" ∈
      (mocksCacheHit.filteredPosts sampleJSON 10 0 (some testReadFilter) (some testReader)).calls ∧
    mocksCacheHit.Get "posts:test1:10:0:price:desc:100:200" = (testCachedText, none) ∧
    testCachedText ≠ "" ∧
    (mocksCacheHit.filteredPosts sampleJSON 10 0 (some testReadFilter) (some testReader)).calls
      = [ReadCall.Get "posts:test1:10:0:price:desc:100:200"] :=
  ⟨by decide, rfl, by decide,
    (filteredPosts_cache_hit mocksCacheHit sampleJSON 10 0 (some testReadFilter)
      (some testReader) _ rfl "posts:test1:10:0:price:desc:100:200" testCachedText (by decide)
      rfl (by decide)).1⟩

/-- A failing lookup and an empty cached value give the same posts. -/
theorem filteredPosts_lookup_error_as_empty_witness :
    mocksCacheMiss.Get (cacheKey (some testReader) 10 0 testReadFilter)
      = ("", some (.foreign "some error")) ∧
    mocksCacheEmpty.Get (cacheKey (some testReader) 10 0 testReadFilter) = ("", none) ∧
    (mocksCacheMiss.filteredPosts sampleJSON 10 0 (some testReadFilter) (some testReader)).posts
      = (mocksCacheEmpty.filteredPosts sampleJSON 10 0 (some testReadFilter)
          (some testReader)).posts :=
  ⟨rfl, rfl,
    (filteredPosts_lookup_error_as_empty mocksCacheMiss mocksCacheEmpty sampleJSON sampleJSON 10 0
      testReadFilter (some testReader) "" (.foreign "some error") rfl rfl rfl).1⟩

/-- With the mocks of `TestFilteredPosts_OtherErr` the store query fails and
`ErrInternal` is returned. -/
theorem filteredPosts_store_error_witness :
    ReadCall.Query 10 0 (some testReadFilter) ∈
      (mocksStoreFails.filteredPosts sampleJSON 10 0 (some testReadFilter) (some testReader)).calls ∧
    mocksStoreFails.FilteredPosts 10 0 (some testReadFilter)
      = (none, some (.foreign "some error")) ∧
    (mocksStoreFails.filteredPosts sampleJSON 10 0 (some testReadFilter) (some testReader)).err
      = some (.sentinel .ErrInternal) :=
  ⟨by decide, rfl,
    (filteredPosts_store_error mocksStoreFails sampleJSON 10 0 (some testReadFilter)
      (some testReader) _ rfl 10 0 (some testReadFilter) none (.foreign "some error")
      (by decide) rfl).2.2.2.1 rfl rfl⟩

/-- With the mocks of `TestFilteredPosts_CacheMissSuccess` the store query succeeds
and no error is returned. -/
theorem filteredPosts_set_failure_ignored_witness :
    ReadCall.Query 10 0 (some testReadFilter) ∈
      (mocksCacheMiss.filteredPosts sampleJSON 10 0 (some testReadFilter) (some testReader)).calls ∧
    mocksCacheMiss.FilteredPosts 10 0 (some testReadFilter) = (PostsByEntities testRows, none) ∧
    (mocksCacheMiss.filteredPosts sampleJSON 10 0 (some testReadFilter)
      (some testReader)).panicked = false ∧
    (mocksCacheMiss.filteredPosts sampleJSON 10 0 (some testReadFilter) (some testReader)).err
      = none :=
  ⟨by decide, rfl, by decide,
    (filteredPosts_set_failure_ignored mocksCacheMiss sampleJSON 10 0 (some testReadFilter)
      (some testReader) _ rfl 10 0 (some testReadFilter) (PostsByEntities testRows)
      (by decide) rfl (by decide)).1⟩

/-- The key of `TestFilteredPosts_CacheMissSuccess`. -/
theorem filteredPosts_cache_key_witness :
    ReadCall.Get "posts:test1:10:0:price:desc:100:200" ∈
      (mocksCacheMiss.filteredPosts sampleJSON 10 0 (some testReadFilter) (some testReader)).calls ∧
    ∃ f, some testReadFilter = some f ∧
      "posts:test1:10:0:price:desc:100:200" = "posts:" ++ testReader.Login ++ ":" ++ toString (10 : Int)
        ++ ":" ++ toString (0 : Int) ++ ":" ++ f.SortBy ++ ":" ++ f.SortOrder ++ ":"
        ++ toString f.MinPrice ++ ":" ++ toString f.MaxPrice :=
  ⟨by decide,
    ((filteredPosts_cache_key mocksCacheMiss sampleJSON 10 0 (some testReadFilter)
      (some testReader) _ rfl).1 _ (by decide)).imp fun _ h => ⟨h.1, h.2.1 testReader rfl⟩⟩

/-! ## Lemmas on the relational store -/

theorem postrepo_FilteredPosts_rejected (r : postrepo.repository) (limit offset : Int)
    (filter : Option PostsFilter) (e : GoError)
    (h : (buildFilteredQueryTail limit offset filter).err = some e) :
    r.FilteredPosts limit offset filter =
      { posts := none, err := some (.wrapped ("postRepo/FilteredPosts: " ++ e.Error) e)
        queries := [] } := by
  simp only [postrepo.repository.FilteredPosts, h]
  rfl

theorem postrepo_FilteredPosts_executed (r : postrepo.repository) (limit offset : Int)
    (filter : Option PostsFilter)
    (h : (buildFilteredQueryTail limit offset filter).err = none) :
    r.FilteredPosts limit offset filter =
      match r.SelectContext
          (postrepo.selectText ++ (buildFilteredQueryTail limit offset filter).fragment)
          ((buildFilteredQueryTail limit offset filter).args.getD []) with
      | (_, some err) =>
        if errorsIs err .sqlErrNoRows then
          { posts := none, err := some (.sentinel .ErrPostNotFound)
            queries := [(postrepo.selectText ++
              (buildFilteredQueryTail limit offset filter).fragment,
              (buildFilteredQueryTail limit offset filter).args.getD [])] }
        else
          { posts := none, err := some (.wrapped ("postRepo/FilteredPosts: " ++ err.Error) err)
            queries := [(postrepo.selectText ++
              (buildFilteredQueryTail limit offset filter).fragment,
              (buildFilteredQueryTail limit offset filter).args.getD [])] }
      | (rawPosts, none) =>
        { posts := PostsByEntities rawPosts, err := none
          queries := [(postrepo.selectText ++
            (buildFilteredQueryTail limit offset filter).fragment,
            (buildFilteredQueryTail limit offset filter).args.getD [])] } := by
  simp only [postrepo.repository.FilteredPosts, h]
  rfl

theorem build_err_is (limit offset : Int) (filter : Option PostsFilter) (e : GoError)
    (h : (buildFilteredQueryTail limit offset filter).err = some e) :
    errorsIs e .ErrInvalidFilter = true := by
  cases filter with
  | none => cases h
  | some f =>
    rcases hs : sortSwitch f with e1 | c
    · rw [build_err_some limit offset f e1 hs] at h
      cases h
      exact sortSwitch_error_is f _ hs
    · rw [build_ok_err limit offset f c hs] at h
      cases h

/-! ## Lemmas on the file repository, the validators and the sort cases -/

theorem SaveFile_ok (r : filerepo.repository) (os : OS) (fs : FileSystem) (doc : Document)
    (content : Reader) (h : (r.SaveFile os fs doc content).err = none) :
    filepath.Join [r.path, doc.ID ++ filepath.Ext doc.Name] ≠ "" ∧
    r.SaveFile os fs doc content =
      { path := filepath.Join [r.path, doc.ID ++ filepath.Ext doc.Name]
        err := none
        doc := { doc with Path := filepath.Join [r.path, doc.ID ++ filepath.Ext doc.Name] }
        fs := (fs.write (filepath.Join [r.path, doc.ID ++ filepath.Ext doc.Name]) []).write
          (filepath.Join [r.path, doc.ID ++ filepath.Ext doc.Name]) content } := by
  generalize hp : filepath.Join [r.path, doc.ID ++ filepath.Ext doc.Name] = fullPath
  unfold filerepo.repository.SaveFile at h ⊢
  simp only [hp] at h ⊢
  rcases hm : os.MkdirAll (filepath.Dir fullPath) with _ | e
  · simp only [hm] at h ⊢
    by_cases he : fullPath = ""
    · simp [osCreate, he] at h
    · rcases hc : os.Create fullPath with _ | e
      · simp only [osCreate, he, hc, ↓reduceIte] at h ⊢
        rcases hio : os.Copy fullPath with _ | ⟨n, e⟩
        · simp [ioCopy, hio, he]
        · simp [ioCopy, hio] at h
      · simp [osCreate, he, hc] at h
  · simp [hm] at h

theorem passwordFold (u : UnicodeTables) (l : List Char) (f : PasswordFlags) :
    (l.foldl (passwordStep u) f).hasLower = (f.hasLower || l.any u.IsLower) ∧
    (l.foldl (passwordStep u) f).hasUpper =
      (f.hasUpper || l.any fun c => !u.IsLower c && u.IsUpper c) ∧
    (l.foldl (passwordStep u) f).hasDigit =
      (f.hasDigit || l.any fun c => !u.IsLower c && !u.IsUpper c && u.IsDigit c) ∧
    (l.foldl (passwordStep u) f).hasSymbol =
      (f.hasSymbol || l.any fun c =>
        !u.IsLower c && !u.IsUpper c && !u.IsDigit c && (u.IsSymbol c || u.IsPunct c)) := by
  induction l generalizing f with
  | nil => simp
  | cons c cs ih =>
    rw [List.foldl_cons]
    obtain ⟨h1, h2, h3, h4⟩ := ih (passwordStep u f c)
    rw [h1, h2, h3, h4]
    clear h1 h2 h3 h4 ih
    unfold passwordStep
    split_ifs with hl hu hd hs
    · simp [hl, Bool.or_assoc]
    · simp [hl, hu, Bool.or_assoc]
    · simp [hl, hu, hd, Bool.or_assoc]
    · simp only [Bool.or_eq_true] at hs
      rcases hs with hs | hs <;> simp [hl, hu, hd, hs, Bool.or_assoc]
    · simp only [Bool.or_eq_true, not_or, Bool.not_eq_true] at hs
      simp [hl, hu, hd, hs.1, hs.2]

/-- The sample tables put no character in two of the classes that
`IsValidPassword` tells apart. -/
theorem asciiTables_exclusive :
    (∀ c, asciiTables.IsLower c = true →
      asciiTables.IsUpper c = false ∧ asciiTables.IsDigit c = false ∧
      asciiTables.IsSymbol c = false ∧ asciiTables.IsPunct c = false) ∧
    (∀ c, asciiTables.IsUpper c = true →
      asciiTables.IsDigit c = false ∧ asciiTables.IsSymbol c = false ∧
      asciiTables.IsPunct c = false) ∧
    (∀ c, asciiTables.IsDigit c = true →
      asciiTables.IsSymbol c = false ∧ asciiTables.IsPunct c = false) := by
  refine ⟨?_, ?_, ?_⟩ <;> intro c <;> simp [asciiTables] <;> omega

/-- The class of the login pattern is the class of the ASCII letters and digits. -/
theorem loginClass_eq (c : Char) :
    loginClass c = true ↔ (c.isAlpha = true ∨ c.isDigit = true) := by
  have hv : c.val.toBitVec.toNat = c.toNat := rfl
  simp only [loginClass, Char.isAlpha, Char.isUpper, Char.isLower, Char.isDigit,
    ge_iff_le, UInt32.le_def, BitVec.le_def, Bool.or_eq_true, Bool.and_eq_true,
    decide_eq_true_eq, hv]
  have e1 : (65 : UInt32).toBitVec.toNat = 65 := rfl
  have e2 : (90 : UInt32).toBitVec.toNat = 90 := rfl
  have e3 : (97 : UInt32).toBitVec.toNat = 97 := rfl
  have e4 : (122 : UInt32).toBitVec.toNat = 122 := rfl
  have e5 : (48 : UInt32).toBitVec.toNat = 48 := rfl
  have e6 : (57 : UInt32).toBitVec.toNat = 57 := rfl
  rw [e1, e2, e3, e4, e5, e6]
  omega

theorem sortSwitch_of_sortCase (a b : PostsFilter) (c1 c2 : String)
    (h : sortCase a = sortCase b) (h1 : sortSwitch a = .ok c1) (h2 : sortSwitch b = .ok c2) :
    c1 = c2 := by
  unfold sortCase at h
  unfold sortSwitch at h1 h2
  split_ifs at h h1 h2 <;> cases h1 <;> cases h2 <;> first | rfl | cases h

/-! ## Claims on the repositories, the validators and the handler -/

/-- Claim C21 fails on the code. For the filter of `TestFilteredPosts_NoRows` and a
database in which the query finds no row, so that `SelectContext` scans nothing and
returns the nil error, `FilteredPosts` returns the empty list and the nil error,
not `ErrPostNotFound`. -/
theorem postrepo_FilteredPosts_empty_result :
    emptyDB.SelectContext
        (postrepo.selectText ++ (buildFilteredQueryTail 10 0 (some noRowsFilter)).fragment)
        ((buildFilteredQueryTail 10 0 (some noRowsFilter)).args.getD []) = ([], none) ∧
    (emptyDB.FilteredPosts 10 0 (some noRowsFilter)).posts = some [] ∧
    (emptyDB.FilteredPosts 10 0 (some noRowsFilter)).err = none ∧
    (emptyDB.FilteredPosts 10 0 (some noRowsFilter)).err ≠ some (.sentinel .ErrPostNotFound) := by
  decide

/-- The error paths of the relational store: when the call of `SelectContext`
returns an error, `FilteredPosts` returns no posts and `ErrPostNotFound` itself when
the error satisfies `errors.Is` with `sql.ErrNoRows`, otherwise an error that wraps
the error of the driver and is not `ErrPostNotFound`; when `buildFilteredQueryTail`
returns an error, `FilteredPosts` returns no posts and an error that wraps it, which
satisfies `errors.Is` with `ErrInvalidFilter`, and executes no statement. -/
theorem postrepo_FilteredPosts_errors (r : postrepo.repository) (limit offset : Int)
    (filter : Option PostsFilter) :
    (∀ rows e, (buildFilteredQueryTail limit offset filter).err = none →
      r.SelectContext
        (postrepo.selectText ++ (buildFilteredQueryTail limit offset filter).fragment)
        ((buildFilteredQueryTail limit offset filter).args.getD []) = (rows, some e) →
      ((r.FilteredPosts limit offset filter).posts = none) ∧
      (errorsIs e .sqlErrNoRows = true →
        (r.FilteredPosts limit offset filter).err = some (.sentinel .ErrPostNotFound)) ∧
      (errorsIs e .sqlErrNoRows = false →
        (r.FilteredPosts limit offset filter).err =
          some (.wrapped ("postRepo/FilteredPosts: " ++ e.Error) e) ∧
        (r.FilteredPosts limit offset filter).err ≠ some (.sentinel .ErrPostNotFound))) ∧
    (∀ e, (buildFilteredQueryTail limit offset filter).err = some e →
      (r.FilteredPosts limit offset filter).posts = none ∧
      (r.FilteredPosts limit offset filter).err =
        some (.wrapped ("postRepo/FilteredPosts: " ++ e.Error) e) ∧
      errorsIs (.wrapped ("postRepo/FilteredPosts: " ++ e.Error) e) .ErrInvalidFilter = true ∧
      (r.FilteredPosts limit offset filter).queries = []) ∧
    (noRowsErrDB.FilteredPosts 10 0 (some noRowsFilter)).err =
      some (.sentinel .ErrPostNotFound) ∧
    (otherErrDB.FilteredPosts 10 0 (some noRowsFilter)).err =
      some (.wrapped "postRepo/FilteredPosts: some error" (.foreign "some error")) := by
  refine ⟨?_, ?_, by decide, by decide⟩
  · intro rows e h hs
    rw [postrepo_FilteredPosts_executed r limit offset filter h, hs]
    by_cases he : errorsIs e .sqlErrNoRows = true
    · simp [he]
    · simp [he]
  · intro e h
    rw [postrepo_FilteredPosts_rejected r limit offset filter e h]
    exact ⟨rfl, rfl, build_err_is limit offset filter e h, rfl⟩

/-- Claim C22. The function `PostsByEntities` returns a non-nil list of the length
of its input in which the post at each index is non-nil and is made from the row at
that index: it copies `ID`, `OwnerID`, `OwnerLogin`, `Header`, `Text`, `Price` and
`CreatedAt`, has the document path of the row as `PathToImage`, has
`RequesterIsOwner` false, and carries a non-nil `Document` with the document
columns of the row and the post ID of the row. -/
theorem PostsByEntities_rows (rawPosts : List entities.PostWithDocument) :
    ∃ posts : List (Option PostWithDocument),
      PostsByEntities rawPosts = some posts ∧ posts.length = rawPosts.length ∧
      ∀ (i : Nat) (row : entities.PostWithDocument), rawPosts[i]? = some row →
        ∃ post : PostWithDocument, posts[i]? = some (some post) ∧
          post.ID = row.ID ∧ post.OwnerID = row.OwnerID ∧ post.OwnerLogin = row.OwnerLogin ∧
          post.Header = row.Header ∧ post.Text = row.Text ∧ post.Price = row.Price ∧
          post.CreatedAt = row.CreatedAt ∧ post.PathToImage = row.DocPath ∧
          post.RequesterIsOwner = false ∧
          post.Document = some { ID := row.DocID, PostID := row.ID, Name := row.DocName,
                                 Mime := row.DocMime, Path := row.DocPath } := by
  refine ⟨rawPosts.map fun rawPost => some (postByEntity rawPost), rfl, by simp, ?_⟩
  intro i row h
  refine ⟨postByEntity row, ?_, rfl, rfl, rfl, rfl, rfl, rfl, rfl, rfl, rfl, rfl⟩
  simp [h]

/-- Claim C23. When `SaveFile` returns no error, the path it returns is
`filepath.Join(root, doc.ID + filepath.Ext(doc.Name))`, is not empty and is the
`Path` of the document afterwards; the file at that path holds exactly the content;
`LoadFile` of the document yields the content (it does when opening does not fail,
and whenever it returns no error); `DeleteFile` of the document succeeds when
removing does not fail, and whenever it returns no error there is no file at the
path afterwards. For every document whose path holds no file, `DeleteFile` returns
`ErrDocumentNotFound` and leaves the file system as it is. -/
theorem fileRepo_save_load_delete (r : filerepo.repository) (os : OS) (fs : FileSystem)
    (doc : Document) (content : Reader) (h : (r.SaveFile os fs doc content).err = none) :
    (r.SaveFile os fs doc content).path =
      filepath.Join [r.path, doc.ID ++ filepath.Ext doc.Name] ∧
    (r.SaveFile os fs doc content).path ≠ "" ∧
    (r.SaveFile os fs doc content).doc.Path = (r.SaveFile os fs doc content).path ∧
    (r.SaveFile os fs doc content).fs (r.SaveFile os fs doc content).path = some content ∧
    (∀ os1 : OS, os1.Open (r.SaveFile os fs doc content).path = none →
      r.LoadFile os1 (r.SaveFile os fs doc content).fs (r.SaveFile os fs doc content).doc =
        (some content, none)) ∧
    (∀ os1 : OS,
      (r.LoadFile os1 (r.SaveFile os fs doc content).fs
        (r.SaveFile os fs doc content).doc).2 = none →
      (r.LoadFile os1 (r.SaveFile os fs doc content).fs
        (r.SaveFile os fs doc content).doc).1 = some content) ∧
    (∀ os2 : OS, os2.Remove (r.SaveFile os fs doc content).path = none →
      (r.DeleteFile os2 (r.SaveFile os fs doc content).fs
        (r.SaveFile os fs doc content).doc).2 = none) ∧
    (∀ os2 : OS,
      (r.DeleteFile os2 (r.SaveFile os fs doc content).fs
        (r.SaveFile os fs doc content).doc).2 = none →
      (r.DeleteFile os2 (r.SaveFile os fs doc content).fs
        (r.SaveFile os fs doc content).doc).1 (r.SaveFile os fs doc content).doc.Path = none) ∧
    (∀ (os3 : OS) (fs3 : FileSystem) (doc3 : Document), fs3 doc3.Path = none →
      r.DeleteFile os3 fs3 doc3 = (fs3, some (.sentinel .ErrDocumentNotFound))) := by
  obtain ⟨hne, hs⟩ := SaveFile_ok r os fs doc content h
  rw [hs]
  generalize filepath.Join [r.path, doc.ID ++ filepath.Ext doc.Name] = fullPath at hne
  refine ⟨rfl, hne, rfl, by simp [FileSystem.write], ?_, ?_, ?_, ?_, ?_⟩
  · intro os1 ho
    simp only at ho
    simp [filerepo.repository.LoadFile, osOpen, FileSystem.write, ho]
  · intro os1
    simp only [filerepo.repository.LoadFile, osOpen, FileSystem.write, ↓reduceIte]
    rcases os1.Open fullPath with _ | e <;> simp
  · intro os2 ho
    simp only at ho
    simp [filerepo.repository.DeleteFile, osRemove, FileSystem.write, ho]
  · intro os2
    simp only [filerepo.repository.DeleteFile, osRemove, FileSystem.write, ↓reduceIte]
    rcases os2.Remove fullPath with _ | e
    · simp [FileSystem.remove]
    · by_cases he : errorsIs e .osErrNotExist = true <;> simp [he]
  · intro os3 fs3 doc3 h3
    simp [filerepo.repository.DeleteFile, osRemove, h3, pathErrNotExist, errorsIs]

/-- Claim C24. Where no character is in two of the classes lower-case letter,
upper-case letter, digit and symbol or punctuation (as in the Unicode tables),
`IsValidPassword` accepts a password exactly when it is at least 8 bytes long and
contains a lower-case letter, an upper-case letter, a digit and a symbol or
punctuation character. -/
theorem IsValidPassword_iff (u : UnicodeTables) (p : String)
    (hlower : ∀ c, u.IsLower c = true →
      u.IsUpper c = false ∧ u.IsDigit c = false ∧ u.IsSymbol c = false ∧ u.IsPunct c = false)
    (hupper : ∀ c, u.IsUpper c = true →
      u.IsDigit c = false ∧ u.IsSymbol c = false ∧ u.IsPunct c = false)
    (hdigit : ∀ c, u.IsDigit c = true → u.IsSymbol c = false ∧ u.IsPunct c = false) :
    IsValidPassword u p = true ↔
      8 ≤ len p ∧ (∃ c ∈ p.data, u.IsLower c = true) ∧ (∃ c ∈ p.data, u.IsUpper c = true) ∧
      (∃ c ∈ p.data, u.IsDigit c = true) ∧
      (∃ c ∈ p.data, u.IsSymbol c = true ∨ u.IsPunct c = true) := by
  obtain ⟨h1, h2, h3, h4⟩ := passwordFold u p.data
    { hasLower := false, hasUpper := false, hasDigit := false, hasSymbol := false }
  unfold IsValidPassword
  by_cases h8 : len p < 8
  · simp [h8]
  · simp only [h8, ↓reduceIte, h1, h2, h3, h4, Bool.false_or, Bool.and_eq_true, List.any_eq_true,
      Bool.not_eq_true', Bool.or_eq_true]
    constructor
    · rintro ⟨⟨⟨⟨a, ha, hal⟩, ⟨b, hb, hbu⟩⟩, ⟨c, hc, hcd⟩⟩, ⟨d, hd, hds⟩⟩
      exact ⟨by omega, ⟨a, ha, hal⟩, ⟨b, hb, hbu.2⟩, ⟨c, hc, hcd.2⟩, ⟨d, hd, hds.2⟩⟩
    · rintro ⟨_, ⟨a, ha, hal⟩, ⟨b, hb, hbu⟩, ⟨c, hc, hcd⟩, ⟨d, hd, hds⟩⟩
      refine ⟨⟨⟨⟨a, ha, hal⟩, ⟨b, hb, ?_, hbu⟩⟩, ⟨c, hc, ⟨?_, ?_⟩, hcd⟩⟩, ⟨d, hd, ⟨⟨?_, ?_⟩, ?_⟩, hds⟩⟩
      · cases hx : u.IsLower b
        · rfl
        · rw [(hlower b hx).1] at hbu; cases hbu
      · cases hx : u.IsLower c
        · rfl
        · rw [(hlower c hx).2.1] at hcd; cases hcd
      · cases hx : u.IsUpper c
        · rfl
        · rw [(hupper c hx).1] at hcd; cases hcd
      · cases hx : u.IsLower d
        · rfl
        · rw [(hlower d hx).2.2.1, (hlower d hx).2.2.2] at hds; simp at hds
      · cases hx : u.IsUpper d
        · rfl
        · rw [(hupper d hx).2.1, (hupper d hx).2.2] at hds; simp at hds
      · cases hx : u.IsDigit d
        · rfl
        · rw [(hdigit d hx).1, (hdigit d hx).2] at hds; simp at hds

/-- Claim C25. The function `IsValidLogin` accepts a string exactly when it has at
least 4 characters and each of them is an ASCII letter or an ASCII digit. -/
theorem IsValidLogin_iff (s : String) :
    IsValidLogin s = true ↔
      4 ≤ s.length ∧ ∀ c ∈ s.data, c.isAlpha = true ∨ c.isDigit = true := by
  unfold IsValidLogin loginRegexMatchString
  simp only [Bool.and_eq_true, decide_eq_true_eq, List.isEmpty_iff, List.dropWhile_eq_nil_iff]
  constructor
  · rintro ⟨h4, hall⟩
    rw [List.takeWhile_eq_self_iff.mpr hall] at h4
    exact ⟨h4, fun c hc => (loginClass_eq c).mp (hall c hc)⟩
  · rintro ⟨h4, hall⟩
    have hall2 : ∀ c ∈ s.data, loginClass c = true := fun c hc =>
      (loginClass_eq c).mpr (hall c hc)
    exact ⟨by rw [List.takeWhile_eq_self_iff.mpr hall2]; exact h4, hall2⟩

/-- Claim C26 fails on the code. The request of an absent requester with limit 1000,
offset 10 and `sort_by=0:price`, and the request of the user with login `1000` with
limit 10, offset 0 and `sort_by=price`, are looked up under the same cache key; both
filters are accepted by `buildFilteredQueryTail` and the login by `IsValidLogin`. -/
theorem cacheKey_anonymous_collision :
    cacheKey none 1000 10 colonSortFilter = cacheKey (some numericLoginUser) 10 0 priceAscFilter ∧
    ReadCall.Get "posts:1000:10:0:price:asc:0:0" ∈
      (mocksCacheMiss.filteredPosts sampleJSON 1000 10 (some colonSortFilter) none).calls ∧
    ReadCall.Get "posts:1000:10:0:price:asc:0:0" ∈
      (mocksCacheMiss.filteredPosts sampleJSON 10 0 (some priceAscFilter)
        (some numericLoginUser)).calls ∧
    (buildFilteredQueryTail 1000 10 (some colonSortFilter)).err = none ∧
    (buildFilteredQueryTail 10 0 (some priceAscFilter)).err = none ∧
    IsValidLogin numericLoginUser.Login = true := by
  decide

/-- Claim C27. Two calls of `buildFilteredQueryTail` that return no error and agree
on whether the filter is present, whether `MinPrice > 0`, whether `MaxPrice > 0` and
on the case of the sort switch return the same fragment, whatever their limits,
offsets, price values and raw sort strings. -/
theorem buildFilteredQueryTail_fragment_facts (limit1 offset1 limit2 offset2 : Int)
    (filter1 filter2 : Option PostsFilter)
    (h1 : (buildFilteredQueryTail limit1 offset1 filter1).err = none)
    (h2 : (buildFilteredQueryTail limit2 offset2 filter2).err = none)
    (hpresent : filter1.isSome = filter2.isSome)
    (hfacts : ∀ a b, filter1 = some a → filter2 = some b →
      (a.MinPrice > 0 ↔ b.MinPrice > 0) ∧ (a.MaxPrice > 0 ↔ b.MaxPrice > 0) ∧
        sortCase a = sortCase b) :
    (buildFilteredQueryTail limit1 offset1 filter1).fragment =
      (buildFilteredQueryTail limit2 offset2 filter2).fragment := by
  cases filter1 with
  | none =>
    cases filter2 with
    | none => rfl
    | some b => cases hpresent
  | some a =>
    cases filter2 with
    | none => cases hpresent
    | some b =>
      obtain ⟨hmin, hmax, hs⟩ := hfacts a b rfl rfl
      rcases ha : sortSwitch a with e | c1
      · rw [build_err_some limit1 offset1 a e ha] at h1; cases h1
      rcases hb : sortSwitch b with e | c2
      · rw [build_err_some limit2 offset2 b e hb] at h2; cases h2
      have hc : c1 = c2 := sortSwitch_of_sortCase a b c1 c2 hs ha hb
      subst hc
      rw [build_ok_fragment limit1 offset1 a c1 ha, build_ok_fragment limit2 offset2 b c1 hb]
      by_cases p : a.MinPrice > 0 <;> by_cases q : a.MaxPrice > 0 <;>
        simp only [p, q, ← hmin, ← hmax, ↓reduceIte]

/-- Claim C28. The function `ValidatePost` returns an error that wraps
`ErrInvalidHeader` (and no other validation sentinel) when the trimmed header has
fewer than 5 bytes or the header more than 100; otherwise one that wraps
`ErrInvalidText` when the trimmed text has fewer than 10 bytes or the text more than
2000; otherwise one that wraps `ErrInvalidPrice` when the price is below 1 or above
1000000000; otherwise nil. -/
theorem ValidatePost_check_order (post : PostWithDocument) :
    ((len (TrimSpace post.Header) < 5 ∨ len post.Header > 100) →
      ∃ e, ValidatePost post = some e ∧ errorsIs e .ErrInvalidHeader = true ∧
        errorsIs e .ErrInvalidText = false ∧ errorsIs e .ErrInvalidPrice = false) ∧
    (¬ (len (TrimSpace post.Header) < 5 ∨ len post.Header > 100) →
      (len (TrimSpace post.Text) < 10 ∨ len post.Text > 2000) →
      ∃ e, ValidatePost post = some e ∧ errorsIs e .ErrInvalidText = true ∧
        errorsIs e .ErrInvalidHeader = false ∧ errorsIs e .ErrInvalidPrice = false) ∧
    (¬ (len (TrimSpace post.Header) < 5 ∨ len post.Header > 100) →
      ¬ (len (TrimSpace post.Text) < 10 ∨ len post.Text > 2000) →
      (post.Price < 1 ∨ post.Price > 1000000000) →
      ∃ e, ValidatePost post = some e ∧ errorsIs e .ErrInvalidPrice = true ∧
        errorsIs e .ErrInvalidHeader = false ∧ errorsIs e .ErrInvalidText = false) ∧
    (¬ (len (TrimSpace post.Header) < 5 ∨ len post.Header > 100) →
      ¬ (len (TrimSpace post.Text) < 10 ∨ len post.Text > 2000) →
      ¬ (post.Price < 1 ∨ post.Price > 1000000000) →
      ValidatePost post = none) := by
  refine ⟨fun h => ?_, fun h1 h2 => ?_, fun h1 h2 h3 => ?_, fun h1 h2 h3 => ?_⟩
  · exact ⟨_, if_pos h, rfl, rfl, rfl⟩
  · have hv : ValidatePost post = some (.wrapped _ (.sentinel .ErrInvalidText)) :=
      (if_neg h1).trans (if_pos h2)
    exact ⟨_, hv, rfl, rfl, rfl⟩
  · have hv : ValidatePost post = some (.wrapped _ (.sentinel .ErrInvalidPrice)) :=
      (if_neg h1).trans ((if_neg h2).trans (if_pos h3))
    exact ⟨_, hv, rfl, rfl, rfl⟩
  · exact (if_neg h1).trans ((if_neg h2).trans (if_neg h3))

/-- Claim C29 fails on the code. For an error of `AddPost` that is an invalid
header, text or price error the handler writes two error bodies, the one with code
400 and the message of the error and then the one with code 500, under the status
400; for every other error it writes the one body with code 500 under the status
500. The draft with the title `test` makes `AddPost` return such an error. -/
theorem Add_error_responses (err : GoError) :
    ((errorsIs err .ErrInvalidHeader || errorsIs err .ErrInvalidText
        || errorsIs err .ErrInvalidPrice) = true →
      Add.onAddPostError freshResponse err =
        { status := some 400
          body := [{ code := 400, text := err.Error },
                   { code := 500, text := "internal server error" }] }) ∧
    ((errorsIs err .ErrInvalidHeader || errorsIs err .ErrInvalidText
        || errorsIs err .ErrInvalidPrice) = false →
      Add.onAddPostError freshResponse err =
        { status := some 500, body := [{ code := 500, text := "internal server error" }] }) ∧
    (mocksSuccess.addPost testFresh (some testRequester) shortHeaderPost [1, 2, 3]).err =
      some (.wrapped "invalid header: header must be between 5 and 100 characters"
        (.sentinel .ErrInvalidHeader)) ∧
    Add.onAddPostError freshResponse
        (.wrapped "invalid header: header must be between 5 and 100 characters"
          (.sentinel .ErrInvalidHeader)) =
      { status := some 400
        body := [{ code := 400,
                   text := "invalid header: header must be between 5 and 100 characters" },
                 { code := 500, text := "internal server error" }] } := by
  refine ⟨fun h => ?_, fun h => ?_, by decide, by decide⟩
  · simp only [Add.onAddPostError, h, ↓reduceIte]
    rfl
  · simp only [Add.onAddPostError, h]
    rfl

theorem markOwned_none (u : User) (l : List (Option PostWithDocument))
    (h : markOwned u l = none) : none ∈ l := by
  induction l with
  | nil => simp [markOwned] at h
  | cons a l ih =>
    cases a with
    | none => exact List.mem_cons_self _ _
    | some p =>
      simp only [markOwned, Option.map_eq_none'] at h
      exact List.mem_cons_of_mem _ (ih h)

theorem filteredPosts_panicked (ps : PostService) (json : EncodingJSON)
    (limit offset : Int) (f : PostsFilter) (requester : Option User)
    (h : (ps.filteredPosts json limit offset (some f) requester).panicked = true) :
    ∃ u l, requester = some u ∧
      ps.FilteredPosts limit offset (some f) = (some l, none) ∧ none ∈ l := by
  rcases hget : ps.Get (cacheKey requester limit offset f) with ⟨v, e⟩
  by_cases hmiss : e ≠ none ∨ v = ""
  · rw [(filteredPosts_miss_result ps json limit offset f requester v e hget hmiss).2.2.1] at h
    rcases hst : ps.FilteredPosts limit offset (some f) with ⟨st, _ | e1⟩
    · rw [hst] at h
      simp only at h
      cases requester with
      | none => simp [enrich] at h
      | some u =>
        cases st with
        | none => simp [enrich] at h
        | some l =>
          simp only [enrich, Option.isNone_iff_eq_none, Option.map_eq_none'] at h
          exact ⟨u, l, rfl, rfl, markOwned_none u l h⟩
    · rw [hst] at h
      cases h
  · have he : e = none := by
      by_contra hne
      exact hmiss (Or.inl hne)
    have hv : v ≠ "" := fun hv => hmiss (Or.inr hv)
    subst he
    rw [filteredPosts_hit ps json limit offset f requester v hget hv] at h
    rcases hj : JSONToPosts json v with ⟨p, _ | e1⟩ <;> rw [hj] at h <;> cases h

/-- Claim C30 fails as stated. With an absent filter `FilteredPosts` faults on the
nil pointer before it calls the cache or the store, with and without a requester. -/
theorem filteredPosts_nil_filter_counterexample :
    (mocksCacheMiss.filteredPosts sampleJSON 10 0 none none).panicked = true ∧
    (mocksCacheMiss.filteredPosts sampleJSON 10 0 none none).calls = [] ∧
    (mocksCacheMiss.filteredPosts sampleJSON 10 0 none (some testReader)).panicked = true := by
  decide

/-- Claim C30, as amended. With a present filter, for every limit, offset and
requester, `FilteredPosts` builds the cache key and looks it up first; on a cache
miss it queries the store once, with that filter; it can only fault where the
store returns, without error, a list with a nil element to a present requester,
so it completes whenever the list of the store has no nil element. -/
theorem filteredPosts_present_filter_total (ps : PostService) (json : EncodingJSON)
    (limit offset : Int) (f : PostsFilter) (requester : Option User) :
    (ps.filteredPosts json limit offset (some f) requester).calls.head? =
      some (.Get (cacheKey requester limit offset f)) ∧
    (∀ v e, ps.Get (cacheKey requester limit offset f) = (v, e) → (e ≠ none ∨ v = "") →
      (ps.filteredPosts json limit offset (some f) requester).calls.count
        (ReadCall.Query limit offset (some f)) = 1) ∧
    ((ps.filteredPosts json limit offset (some f) requester).panicked = true →
      ∃ u l, requester = some u ∧
        ps.FilteredPosts limit offset (some f) = (some l, none) ∧ none ∈ l) ∧
    ((∀ l, (ps.FilteredPosts limit offset (some f)).1 = some l → none ∉ l) →
      (ps.filteredPosts json limit offset (some f) requester).panicked = false) := by
  refine ⟨?_, ?_, filteredPosts_panicked ps json limit offset f requester, ?_⟩
  · rcases filteredPosts_calls ps json limit offset f requester with h | h | ⟨v, h⟩ <;>
      rw [h] <;> rfl
  · intro v e hget hmiss
    exact (filteredPosts_miss_result ps json limit offset f requester v e hget hmiss).2.2.2.1
  · intro hl
    cases hp : (ps.filteredPosts json limit offset (some f) requester).panicked with
    | false => rfl
    | true =>
      obtain ⟨u, l, -, hst, hmem⟩ := filteredPosts_panicked ps json limit offset f requester hp
      exact absurd hmem (hl l (by rw [hst]))

/-! ## Witnesses for the repositories and the validators -/

/-- The method `SaveFile` of the file repository leaves the `PostID` of the
document as it is. -/
theorem SaveFile_doc_PostID (r : filerepo.repository) (os : OS) (fs : FileSystem)
    (doc : Document) (reader : Reader) :
    (r.SaveFile os fs doc reader).doc.PostID = doc.PostID := by
  unfold filerepo.repository.SaveFile
  simp only
  split
  · rfl
  · split
    · rfl
    · split <;> rfl

/-- With the file repository as file storage and an insert that fails on a unique
constraint, `DeleteFile` is called on the document with the path written, where
the file is, and `ErrPostExists` is returned. -/
theorem addPost_compensating_delete_witness :
    Call.Insert testPostWritten ∈
      ((serviceOverFileRepo (some (.uniqueConstraint "posts_id_key" (.foreign "some error")))).addPost
        testFresh (some testRequester) testPost testImage).calls ∧
    ((serviceOverFileRepo (some (.uniqueConstraint "posts_id_key" (.foreign "some error")))).addPost
        testFresh (some testRequester) testPost testImage).calls =
      [Call.SaveFile testDocumentSaved, Call.Insert testPostWritten,
        Call.DeleteFile testDocumentWritten] ∧
    savedFS testDocumentWritten.Path = some testImage ∧
    (serviceOverFileRepo none).DeleteFile testDocumentWritten = none ∧
    ((serviceOverFileRepo (some (.uniqueConstraint "posts_id_key" (.foreign "some error")))).addPost
        testFresh (some testRequester) testPost testImage).err
      = some (.sentinel .ErrPostExists) :=
  ⟨by decide, by decide, by decide, by decide,
    (addPost_compensating_delete
      (serviceOverFileRepo (some (.uniqueConstraint "posts_id_key" (.foreign "some error"))))
      testFresh (some testRequester) testPost testImage _ rfl testPostWritten
      (.uniqueConstraint "posts_id_key" (.foreign "some error")) (by decide) rfl).2.2.2.2.1 rfl⟩

/-- With the file repository as file storage and an insert that succeeds, the
returned post carries the document with the path written and the post's ID. -/
theorem addPost_success_fields_witness :
    ((serviceOverFileRepo none).addPost testFresh (some testRequester) testPost
      testImage).panicked = false ∧
    ((serviceOverFileRepo none).addPost testFresh (some testRequester) testPost
      testImage).err = none ∧
    ((serviceOverFileRepo none).addPost testFresh (some testRequester) testPost
      testImage).result = some testPostWritten ∧
    ∃ p, ((serviceOverFileRepo none).addPost testFresh (some testRequester) testPost
        testImage).result = some p ∧
      p.RequesterIsOwner = true ∧ p.OwnerLogin = "test_login" :=
  ⟨by decide, by decide, by decide,
    (addPost_success_fields (serviceOverFileRepo none) testFresh testRequester testPost testImage
      _ rfl (by decide) (by decide)
      (fun d => SaveFile_doc_PostID testFileRepo noFaults emptyFS d testImage)).imp
      fun _ h => ⟨h.1, h.2.2.1, h.2.2.2.1⟩⟩

/-- The document and the content of `TestSaveLoadDelete`, and the document of
`TestLocalFileRepository_DeleteFile_NotFound`. -/
theorem fileRepo_save_load_delete_witness :
    (testFileRepo.SaveFile noFaults emptyFS testDoc helloWorld).err = none ∧
    (testFileRepo.SaveFile noFaults emptyFS testDoc helloWorld).path = "/tmp/files/doc-1.txt" ∧
    (testFileRepo.SaveFile noFaults emptyFS testDoc helloWorld).doc.Path =
      "/tmp/files/doc-1.txt" ∧
    testFileRepo.LoadFile noFaults (testFileRepo.SaveFile noFaults emptyFS testDoc helloWorld).fs
        (testFileRepo.SaveFile noFaults emptyFS testDoc helloWorld).doc =
      (some helloWorld, none) ∧
    testFileRepo.DeleteFile noFaults emptyFS missingDoc =
      (emptyFS, some (.sentinel .ErrDocumentNotFound)) :=
  have h := fileRepo_save_load_delete testFileRepo noFaults emptyFS testDoc helloWorld (by decide)
  ⟨by decide, by decide, by decide, h.2.2.2.2.1 noFaults rfl,
    h.2.2.2.2.2.2.2.2 noFaults emptyFS missingDoc rfl⟩

/-- The password `Qwerty1!` with the sample tables. -/
theorem IsValidPassword_iff_witness :
    (∀ c, asciiTables.IsLower c = true →
      asciiTables.IsUpper c = false ∧ asciiTables.IsDigit c = false ∧
      asciiTables.IsSymbol c = false ∧ asciiTables.IsPunct c = false) ∧
    IsValidPassword asciiTables "Qwerty1!" = true ∧
    (IsValidPassword asciiTables "Qwerty1!" = true ↔
      8 ≤ len "Qwerty1!" ∧ (∃ c ∈ "Qwerty1!".data, asciiTables.IsLower c = true) ∧
      (∃ c ∈ "Qwerty1!".data, asciiTables.IsUpper c = true) ∧
      (∃ c ∈ "Qwerty1!".data, asciiTables.IsDigit c = true) ∧
      (∃ c ∈ "Qwerty1!".data, asciiTables.IsSymbol c = true ∨ asciiTables.IsPunct c = true)) :=
  ⟨asciiTables_exclusive.1, by decide,
    IsValidPassword_iff asciiTables "Qwerty1!" asciiTables_exclusive.1 asciiTables_exclusive.2.1
      asciiTables_exclusive.2.2⟩

/-- Two filters that take the fallback case with different prices, limits and raw
sort strings. -/
theorem buildFilteredQueryTail_fragment_facts_witness :
    (buildFilteredQueryTail 10 0 (some noRowsFilter)).err = none ∧
    (buildFilteredQueryTail 50 200 (some rawSortFilter)).err = none ∧
    (buildFilteredQueryTail 10 0 (some noRowsFilter)).fragment =
      (buildFilteredQueryTail 50 200 (some rawSortFilter)).fragment :=
  ⟨by decide, by decide,
    buildFilteredQueryTail_fragment_facts 10 0 50 200 (some noRowsFilter) (some rawSortFilter)
      (by decide) (by decide) rfl (fun a b ha hb => by cases ha; cases hb; decide)⟩

end Marketplace
